import Mathlib

/-!
# GhostEye terminal-session multiplexer: scroll-back buffer and session registry

A shallow embedding of `models/terminal.go`, `terminal/session.go`,
`terminal/unix.go`, `database/terminal.go`, the list handler of
`api/handlers.go` and `GenerateStrongPassword` of `database/user.go`, and the
properties of the scroll-back buffer, the registry, the pumps, the persistence
store, the session list and the password generator proved about it.
-/

namespace GhostEye

/-! ## models/terminal.go : OutputBuffer -/

/-- One byte of PTY output (Go `byte`). -/
abbrev Byte := Fin 256

/-- Go `models.OutputBuffer`: `Data []byte` and `Max int` (the mutex is not
modelled: every method body runs as one atomic step). -/
structure OutputBuffer where
  Data : List Byte
  Max : Int
deriving DecidableEq, Repr

/-- Go `(*OutputBuffer).Append`, `models/terminal.go` lines 65-85.
`newSize := len(b.Data) + len(data)`; when `newSize > b.Max` the oldest
`excess := newSize - b.Max` bytes are sliced off (`b.Data[excess:]`) if
`excess < len(b.Data)`, otherwise `b.Data` is emptied; then `data` is appended
whole. -/
def OutputBuffer.Append (b : OutputBuffer) (data : List Byte) : OutputBuffer :=
  let newSize : Int := (b.Data.length : Int) + (data.length : Int)
  let kept : List Byte :=
    if newSize > b.Max then
      let excess : Int := newSize - b.Max
      if excess < (b.Data.length : Int) then b.Data.drop excess.toNat else []
    else b.Data
  { b with Data := kept ++ data }

/-- The PTY pump of `HandleUnixTerminal` applied to a sequence of chunks read
from the PTY: each chunk is passed to `Append` in read order
(`terminal/unix.go` line 158). -/
def appendAll (b : OutputBuffer) (chunks : List (List Byte)) : OutputBuffer :=
  chunks.foldl OutputBuffer.Append b

/-- The capacity given to every buffer created by `HandleUnixTerminal`
(`Max: 100 * 1024`). -/
def scrollbackMax : Int := 100 * 1024

/-- The size of the read buffer of the PTY pump (`make([]byte, 4096)`). -/
def ptyReadSize : Nat := 4096


/-! ## Go maps and byte strings -/

/-- Lookup in a Go `map[string]V`, kept as an association list. -/
def mget {V : Type} : List (String × V) → String → Option V
  | [], _ => none
  | (k', v) :: rest, k => if k' = k then some v else mget rest k

/-- Go `delete(m, k)`. -/
def mdel {V : Type} (m : List (String × V)) (k : String) : List (String × V) :=
  m.filter (fun e => !(e.1 == k))

/-- Go `m[k] = v`. -/
def mset {V : Type} (m : List (String × V)) (k : String) (v : V) : List (String × V) :=
  (k, v) :: mdel m k

/-- Go `[]byte(s)`: the UTF-8 bytes of a string. -/
def bytesOf (s : String) : List Byte :=
  s.toUTF8.data.toList.map (fun b => b.val)

/-- The literal sent after the replayed history, `terminal/unix.go` line 100. -/
def historySentinel : List Byte :=
  bytesOf "\r\n--- History ends, new session begins ---\r\n"

/-- The alphabet of Go `base64.StdEncoding`. -/
def base64Alphabet : List Char :=
  "ABCDEFGHIJKLMNOPQRSTUVWXYZabcdefghijklmnopqrstuvwxyz0123456789+/".toList

/-- The base64 digit of a 6-bit value. -/
def base64Digit (n : Nat) : Char := base64Alphabet.getD n '='

/-- Go `base64.StdEncoding.EncodeToString` (padded with `=`), as a character
list. -/
def base64Encode : List Byte → List Char
  | a :: b :: c :: rest =>
    let n := a.val * 65536 + b.val * 256 + c.val
    base64Digit (n / 262144) :: base64Digit (n / 4096 % 64) ::
      base64Digit (n / 64 % 64) :: base64Digit (n % 64) :: base64Encode rest
  | [a, b] =>
    let n := a.val * 65536 + b.val * 256
    [base64Digit (n / 262144), base64Digit (n / 4096 % 64), base64Digit (n / 64 % 64), '=']
  | [a] =>
    let n := a.val * 65536
    [base64Digit (n / 262144), base64Digit (n / 4096 % 64), '=', '=']
  | [] => []

/-! ## database/terminal.go : the `terminal_sessions` table -/

/-- One row of `terminal_sessions` (`database/database.go` lines 67-76).
`buffer` is `none` for SQL NULL; timestamps are nanoseconds on the clock that
also gives `time.Now()`. -/
structure Row where
  terminal_id : String
  username : String
  buffer : Option (List Byte)
  created_at : Int
  last_active : Int
  active : Int
deriving DecidableEq, Repr

/-- The condition `WHERE username = ? AND terminal_id = ?`. -/
def rowMatches (username terminalID : String) (r : Row) : Bool :=
  r.username == username && r.terminal_id == terminalID

/-- Go `database.SaveTerminalSessionToDB`. `fail` says that a statement of the
call returned an error (no failing statement changes the table); the second
component of the result is `err != nil`. -/
def SaveTerminalSessionToDB (db : List Row) (now : Int) (fail : Bool)
    (username terminalID : String) (buffer : Option (List Byte)) : List Row × Bool :=
  if fail then (db, true)
  else
    let count := (db.filter (rowMatches username terminalID)).length
    if count > 0 then
      (db.map (fun r =>
        if rowMatches username terminalID r then
          { r with buffer := buffer, last_active := now, active := 1 }
        else r), false)
    else
      (db ++ [{ terminal_id := terminalID, username := username, buffer := buffer,
                created_at := now, last_active := now, active := 1 }], false)

/-- Go `database.LoadTerminalSessionFromDB`: `(buffer, active, err != nil)`;
`QueryRow` scans the first matching row, and "no rows" is not an error. -/
def LoadTerminalSessionFromDB (db : List Row) (fail : Bool)
    (username terminalID : String) : Option (List Byte) × Bool × Bool :=
  if fail then (none, false, true)
  else
    match db.find? (rowMatches username terminalID) with
    | none => (none, false, false)
    | some r => (r.buffer, r.active == 1, false)

/-- Go `database.SetTerminalSessionActive`. -/
def SetTerminalSessionActive (db : List Row) (now : Int) (fail : Bool)
    (username terminalID : String) (active : Bool) : List Row × Bool :=
  let activeValue : Int := if active then 1 else 0
  if fail then (db, true)
  else
    (db.map (fun r =>
      if rowMatches username terminalID r then
        { r with active := activeValue, last_active := now }
      else r), false)

/-- One day in nanoseconds. -/
def dayNs : Int := 24 * 60 * 60 * 1000000000

/-- Go `database.CleanupOldTerminalSessions`: deletes the rows with
`active = 0` whose `last_active` is more than `days` days old. -/
def CleanupOldTerminalSessions (db : List Row) (now : Int) (fail : Bool)
    (days : Int) : List Row × Bool :=
  if fail then (db, true)
  else (db.filter (fun r => !(r.active == 0 && decide (now - r.last_active > days * dayNs))), false)

/-- Go `database.DeleteTerminalSessionFromDB`: the error of `db.Exec` is
returned; deleting no row is not an error. -/
def DeleteTerminalSessionFromDB (db : List Row) (fail : Bool)
    (username terminalID : String) : List Row × Bool :=
  if fail then (db, true)
  else (db.filter (fun r => !(rowMatches username terminalID r)), false)

/-! ## models/terminal.go : sessions and the registry -/

/-- Signals sent to the shell process. -/
inductive Signal where
  | SIGTERM
  | SIGKILL
deriving DecidableEq, Repr

/-- The started shell, Go `session.Cmd` with its `Process`: the signals
delivered to it, oldest first. -/
structure Process where
  Signals : List Signal
deriving DecidableEq, Repr

/-- The PTY master, Go `session.Ptmx`: whether `Close` was called on it, its
window size, and the payloads written to it, oldest first. -/
structure Pty where
  Closed : Bool
  Rows : Nat
  Cols : Nat
  Written : List (List Byte)
deriving DecidableEq, Repr

/-- The JSON envelope of the server's text frames (`type`, `terminalId`,
`data`), before `json.Marshal`. -/
structure WireMessage where
  MsgType : String
  TerminalID : String
  Data : String
deriving DecidableEq, Repr

/-- A WebSocket frame written with `conn.WriteMessage`. -/
inductive Frame where
  | binary (p : List Byte)
  | text (m : WireMessage)
deriving DecidableEq, Repr

/-- Go `models.TerminalSession`. `Clients` maps the client address to the
connection (a pointer, here a number); `Done` counts the `close(session.Done)`
executed (a second one panics in Go); times are nanoseconds. `Stdin` stays nil
and `IsStandardPipe` false in `HandleUnixTerminal`, `ID` and the locks are never
read: they are left out. -/
structure TerminalSession where
  Cmd : Option Process
  Ptmx : Option Pty
  Done : Nat
  LastActive : Int
  Clients : List (String × Nat)
  Buffer : OutputBuffer
  Active : Bool
  Created : Int
deriving DecidableEq, Repr

/-- The session literal built by `HandleUnixTerminal` (lines 58-68 and 72-82). -/
def newSession (now : Int) (data : List Byte) : TerminalSession :=
  { Cmd := none, Ptmx := none, Done := 0, LastActive := now, Clients := [],
    Buffer := { Data := data, Max := scrollbackMax }, Active := true, Created := now }

/-- A running call of `handleWebSocketConnection` with its arguments. -/
structure ClientPump where
  conn : Nat
  clientIP : String
  session : Nat
  username : String
  terminalID : String
deriving DecidableEq, Repr

/-- The state of the process: the registry `models.TerminalSessions`
(user name, then terminal id, to session pointer), the sessions by pointer, the
table `terminal_sessions`, and for every connection whether it was closed and
the frames written to it. `clientPumps` and `ptyPumps` record which handler
loops are running and `createdFor` under which key a session was created; the
Go code keeps these in the stacks of its goroutines. -/
structure World where
  TerminalSessions : List (String × List (String × Nat))
  heap : Nat → TerminalSession
  nextSession : Nat
  db : List Row
  connClosed : Nat → Bool
  connSent : Nat → List Frame
  clientPumps : List ClientPump
  ptyPumps : List Nat
  createdFor : Nat → String × String

/-- The process at start-up: no session, no connection, the table as found. -/
def World.init (db : List Row) : World :=
  { TerminalSessions := [], heap := fun _ => newSession 0 [], nextSession := 0, db := db,
    connClosed := fun _ => false, connSent := fun _ => [], clientPumps := [], ptyPumps := [],
    createdFor := fun _ => ("", "") }

/-- Replace the session behind a pointer. -/
def World.setSession (w : World) (s : Nat) (v : TerminalSession) : World :=
  { w with heap := Function.update w.heap s v }

/-- Go `conn.WriteMessage`: the frame is recorded as written to the connection
(whether the write succeeds is not modelled). -/
def World.send (w : World) (conn : Nat) (f : Frame) : World :=
  { w with connSent := Function.update w.connSent conn (w.connSent conn ++ [f]) }

/-- Go `conn.Close()`. -/
def World.closeConn (w : World) (conn : Nat) : World :=
  { w with connClosed := Function.update w.connClosed conn true }

/-! ## terminal/session.go -/

/-- Go `GetTerminalSession`. -/
def GetTerminalSession (w : World) (username terminalID : String) : Option Nat :=
  match mget w.TerminalSessions username with
  | none => none
  | some sessions => mget sessions terminalID

/-- Go `SaveTerminalSession`. -/
def SaveTerminalSession (w : World) (username terminalID : String) (session : Nat) : World :=
  let sessions := (mget w.TerminalSessions username).getD []
  { w with TerminalSessions := mset w.TerminalSessions username (mset sessions terminalID session) }

/-- The teardown block of `RemoveTerminalSession` (lines 67-85), repeated in
`CleanInactiveSessions` (144-162) and `KillTerminalSession` (269-288): close
every client connection, close the PTY if there is one, `close(session.Done)`. -/
def closeSession (w : World) (session : Nat) : World :=
  let w1 := (w.heap session).Clients.foldl (fun acc e => acc.closeConn e.2) w
  let s := w1.heap session
  w1.setSession session
    { s with Ptmx := s.Ptmx.map (fun p => { p with Closed := true }), Done := s.Done + 1 }

/-- Go `delete(sessions, terminalID)` on the inner map of `username`. -/
def deleteEntry (w : World) (username terminalID : String) : World :=
  match mget w.TerminalSessions username with
  | none => w
  | some sessions =>
    { w with TerminalSessions := mset w.TerminalSessions username (mdel sessions terminalID) }

/-- Go `RemoveTerminalSession`. -/
def RemoveTerminalSession (w : World) (username terminalID : String) : World :=
  match mget w.TerminalSessions username with
  | none => w
  | some sessions =>
    let w1 :=
      match mget sessions terminalID with
      | some session => closeSession w session
      | none => w
    deleteEntry w1 username terminalID

/-- Go `SaveSessionToDatabase`: the error is only logged. -/
def SaveSessionToDatabase (w : World) (now : Int) (fail : Bool)
    (username terminalID : String) (session : Nat) : World :=
  let buffer := (w.heap session).Buffer.Data
  { w with db := (SaveTerminalSessionToDB w.db now fail username terminalID (some buffer)).1 }

/-- Go `MarkSessionInactive`: the error is only logged. -/
def MarkSessionInactive (w : World) (now : Int) (fail : Bool)
    (username terminalID : String) : World :=
  { w with db := (SetTerminalSessionActive w.db now fail username terminalID false).1 }

/-- What the environment decides during `CleanInactiveSessions`: the clock and
which database calls fail. -/
structure CleanEnv where
  now : Int
  saveFails : String → String → Bool
  markFails : String → String → Bool
  vacuumFails : Bool

/-- Thirty minutes in nanoseconds (`30*time.Minute`). -/
def thirtyMinutes : Int := 30 * 60 * 1000000000

/-- The inner loop of `CleanInactiveSessions` (lines 134-169) over the entries of
one user's map. As in a Go `range`, an entry deleted before it is reached is
not visited. -/
def cleanSessions (env : CleanEnv) (username : String) : World → List (String × Nat) → World
  | w, [] => w
  | w, (terminalID, session) :: rest =>
    let w1 :=
      if GetTerminalSession w username terminalID = some session ∧
          env.now - (w.heap session).LastActive > thirtyMinutes then
        let w2 := SaveSessionToDatabase w env.now (env.saveFails username terminalID)
          username terminalID session
        let w3 := MarkSessionInactive w2 env.now (env.markFails username terminalID)
          username terminalID
        deleteEntry (closeSession w3 session) username terminalID
      else w
    cleanSessions env username w1 rest

/-- The outer loop of `CleanInactiveSessions` (lines 133-175). -/
def cleanUsers (env : CleanEnv) : World → List (String × List (String × Nat)) → World
  | w, [] => w
  | w, (username, _) :: rest =>
    match mget w.TerminalSessions username with
    | none => cleanUsers env w rest
    | some sessions =>
      let w1 := cleanSessions env username w sessions
      let w2 :=
        if ((mget w1.TerminalSessions username).getD []).length = 0 then
          { w1 with TerminalSessions := mdel w1.TerminalSessions username }
        else w1
      cleanUsers env w2 rest

/-- Go `CleanInactiveSessions`. -/
def CleanInactiveSessions (w : World) (env : CleanEnv) : World :=
  let w1 := cleanUsers env w w.TerminalSessions
  { w1 with db := (CleanupOldTerminalSessions w1.db env.now env.vacuumFails 7).1 }

/-- What the environment decides during `KillTerminalSession`: whether
`Signal(SIGTERM)`, `Kill()` and the DELETE statement fail. -/
structure KillEnv where
  sigtermFails : Bool
  killFails : Bool
  deleteFails : Bool

/-- The errors `KillTerminalSession` returns. -/
inductive KillError where
  | noSessionsForUser
  | sessionDoesNotExist
  | failedToTerminate
deriving DecidableEq, Repr

/-- Go `KillTerminalSession`, lines 263-293: delete the row (an error is only
logged), tear the session down, delete the registry entry, return nil. -/
def killTeardown (w : World) (env : KillEnv) (username terminalID : String)
    (session : Nat) : World × Option KillError :=
  let w1 : World :=
    { w with db := (DeleteTerminalSessionFromDB w.db env.deleteFails username terminalID).1 }
  (deleteEntry (closeSession w1 session) username terminalID, none)

/-- Go `KillTerminalSession`; the second component is the returned error. -/
def KillTerminalSession (w : World) (env : KillEnv) (username terminalID : String) :
    World × Option KillError :=
  match mget w.TerminalSessions username with
  | none => (w, some KillError.noSessionsForUser)
  | some sessions =>
    match mget sessions terminalID with
    | none => (w, some KillError.sessionDoesNotExist)
    | some session =>
      match (w.heap session).Cmd with
      | some proc =>
        if env.sigtermFails then
          if env.killFails then (w, some KillError.failedToTerminate)
          else
            killTeardown
              (w.setSession session
                { w.heap session with Cmd := some { proc with Signals := proc.Signals ++ [Signal.SIGKILL] } })
              env username terminalID session
        else
          killTeardown
            (w.setSession session
              { w.heap session with Cmd := some { proc with Signals := proc.Signals ++ [Signal.SIGTERM] } })
            env username terminalID session
      | none => killTeardown w env username terminalID session

/-! ## terminal/unix.go -/

/-- What the environment decides during `HandleUnixTerminal`: the clock,
whether the SELECT fails, and the error of `pty.Start` if it fails. -/
structure AttachEnv where
  now : Int
  loadFails : Bool
  spawnError : Option String

/-- Go `session.Clients[clientIP] = conn`. -/
def addClient (w : World) (session : Nat) (clientIP : String) (conn : Nat) : World :=
  let s := w.heap session
  w.setSession session { s with Clients := mset s.Clients clientIP conn }

/-- Go `session.LastActive = time.Now()`. -/
def touch (w : World) (session : Nat) (now : Int) : World :=
  w.setSession session { w.heap session with LastActive := now }

/-- `HandleUnixTerminal` lines 29-49, up to the call of
`handleWebSocketConnection`: attach to a session with a PTY. -/
def attachExisting (w : World) (env : AttachEnv) (conn : Nat)
    (clientIP terminalID username : String) (session : Nat) : World :=
  let w1 := addClient w session clientIP conn
  let w2 := touch w1 session env.now
  let w3 :=
    if (w2.heap session).Buffer.Data.length > 0 then
      w2.send conn (Frame.binary (w2.heap session).Buffer.Data)
    else w2
  { w3 with clientPumps := w3.clientPumps ++
      [{ conn := conn, clientIP := clientIP, session := session,
         username := username, terminalID := terminalID }] }

/-- `HandleUnixTerminal` lines 87-196, up to the call of
`handleWebSocketConnection`: add the client, replay the buffer and the
sentinel, start the shell and the PTY pump. -/
def attachSpawn (w : World) (env : AttachEnv) (conn : Nat)
    (clientIP terminalID username : String) (session : Nat) : World :=
  let w1 := addClient w session clientIP conn
  let w2 := touch w1 session env.now
  let w3 :=
    if (w2.heap session).Buffer.Data.length > 0 then
      (w2.send conn (Frame.binary (w2.heap session).Buffer.Data)).send conn
        (Frame.binary historySentinel)
    else w2
  match env.spawnError with
  | some err =>
    w3.send conn (Frame.binary (bytesOf ("Failed to start terminal: " ++ err ++ "\r\n")))
  | none =>
    let w4 := w3.setSession session
      { w3.heap session with
        Ptmx := some { Closed := false, Rows := 24, Cols := 80, Written := [] },
        Cmd := some { Signals := [] } }
    { w4 with
      ptyPumps := w4.ptyPumps ++ [session],
      clientPumps := w4.clientPumps ++
        [{ conn := conn, clientIP := clientIP, session := session,
           username := username, terminalID := terminalID }] }

/-- `HandleUnixTerminal` lines 52-85: restore the session from its row, or
create an empty one, and register it. -/
def restoreOrCreate (w : World) (env : AttachEnv) (terminalID username : String) :
    World × Nat :=
  let loaded := LoadTerminalSessionFromDB w.db env.loadFails username terminalID
  let data : List Byte :=
    match loaded with
    | (some buffer, _, false) => buffer
    | _ => []
  let session := w.nextSession
  let w1 : World :=
    { w with
      heap := Function.update w.heap session (newSession env.now data),
      nextSession := session + 1,
      createdFor := Function.update w.createdFor session (username, terminalID) }
  (SaveTerminalSession w1 username terminalID session, session)

/-- Go `HandleUnixTerminal`, up to the call of `handleWebSocketConnection`
(recorded in `clientPumps`); `conn` is the connection just upgraded. -/
def HandleUnixTerminal (w : World) (env : AttachEnv) (conn : Nat)
    (clientIP terminalID username : String) : World :=
  match GetTerminalSession w username terminalID with
  | some session =>
    if (w.heap session).Ptmx.isSome || (w.heap session).Cmd.isSome then
      attachExisting w env conn clientIP terminalID username session
    else
      attachSpawn w env conn clientIP terminalID username session
  | none =>
    let (w1, session) := restoreOrCreate w env terminalID username
    attachSpawn w1 env conn clientIP terminalID username session

/-- One iteration of the PTY pump with `n > 0` bytes read (lines 156-189):
append the chunk to the scroll-back and send every client an `output`
message. -/
def ptyOutput (w : World) (session : Nat) (terminalID : String) (chunk : List Byte) : World :=
  let s := w.heap session
  let w1 := w.setSession session { s with Buffer := s.Buffer.Append chunk }
  let message : WireMessage :=
    { MsgType := "output", TerminalID := terminalID,
      Data := String.mk (base64Encode chunk) }
  (w1.heap session).Clients.foldl (fun acc e => acc.send e.2 (Frame.text message)) w1

/-- The PTY pump when `ptmx.Read` returns end-of-file or another error that is
not a timeout (lines 144-154): the goroutine returns. -/
def ptyReadError (w : World) (session : Nat) : World :=
  { w with ptyPumps := w.ptyPumps.erase session }

/-- The client pump when `conn.ReadMessage` returns an error (lines 206-232):
the client is deleted from the session, the buffer is saved when no client is
left, and the pump returns. -/
def clientReadError (w : World) (now : Int) (saveFails : Bool) (p : ClientPump) : World :=
  let s := w.heap p.session
  let w1 := w.setSession p.session { s with Clients := mdel s.Clients p.clientIP }
  let clientCount := (w1.heap p.session).Clients.length
  let w2 :=
    if clientCount = 0 then
      SaveSessionToDatabase w1 now saveFails p.username p.terminalID p.session
    else w1
  { w2 with clientPumps := w2.clientPumps.erase p }

/-- What the environment decides while a `close` message is handled: the
clock and which of the calls fail. -/
structure CloseEnv where
  now : Int
  saveFails : Bool
  sigtermFails : Bool
  killFails : Bool
  markFails : Bool

/-- The signals of `Signal(SIGTERM)` followed by `Kill()` that were delivered
(lines 302-304; both results are ignored). -/
def closeSignals (env : CloseEnv) : List Signal :=
  (if env.sigtermFails then [] else [Signal.SIGTERM]) ++
    (if env.killFails then [] else [Signal.SIGKILL])

/-- The client pump on a `close` message (lines 284-315). -/
def clientClose (w : World) (env : CloseEnv) (p : ClientPump) : World :=
  let s := w.heap p.session
  let w1 := w.setSession p.session { s with Clients := mdel s.Clients p.clientIP }
  let clientCount := (w1.heap p.session).Clients.length
  let w2 :=
    if clientCount = 0 then
      let w3 := SaveSessionToDatabase w1 env.now env.saveFails p.username p.terminalID p.session
      let s3 := w3.heap p.session
      let w4 :=
        match s3.Cmd with
        | some proc =>
          w3.setSession p.session
            { s3 with Cmd := some { proc with Signals := proc.Signals ++ closeSignals env } }
        | none => w3
      let w5 := MarkSessionInactive w4 env.now env.markFails p.username p.terminalID
      RemoveTerminalSession w5 p.username p.terminalID
    else w1
  { w2 with clientPumps := w2.clientPumps.erase p }

/-! ## terminal/unix.go : one iteration of the client pump -/

/-- A JSON value as `json.Unmarshal` stores it in an `interface{}`: a number
is held as the value of its `float64`, an object as a `map[string]interface{}`. -/
inductive JSON where
  | null
  | bool (b : Bool)
  | number (x : ℚ)
  | string (s : String)
  | array (xs : List JSON)
  | object (fields : List (String × JSON))

/-- Go `models.Message`, the decoded client message (`type`, `terminalId`,
`data`). -/
structure Message where
  MsgType : String
  TerminalID : String
  Data : JSON

/-- What `conn.ReadMessage` returns to the client pump: an error (`timeout`
says whether it is the read deadline expiring), a text frame with its payload
and the result of `json.Unmarshal(p, &message)` (`none` when it returns an
error), or a binary frame. -/
inductive ReadResult where
  | error (timeout : Bool)
  | text (p : List Byte) (parsed : Option Message)
  | binary (p : List Byte)

/-- What the environment decides during one iteration of the client pump:
that of the `close` handling, and whether writing the heartbeat reply fails. -/
structure PumpEnv extends CloseEnv where
  replyFails : Bool

/-- Go `uint16(x)` for a `float64`: the fraction is discarded; outside
`0..65535` the low 16 bits of the truncated value are taken. -/
def uint16OfFloat (x : ℚ) : Nat :=
  ((if 0 ≤ x then ⌊x⌋ else ⌈x⌉) % 65536).toNat

/-- Go `pty.Setsize(session.Ptmx, &pty.Winsize{Rows: rows, Cols: cols})` behind
the guard `session.Ptmx != nil` (lines 249-254). The result is ignored: on a
PTY that was closed the call fails and the size stays. -/
def setWindowSize (w : World) (session : Nat) (rows cols : Nat) : World :=
  match (w.heap session).Ptmx with
  | some pty =>
    if pty.Closed then w
    else
      w.setSession session
        { w.heap session with Ptmx := some { pty with Rows := rows, Cols := cols } }
  | none => w

/-- Go `session.Ptmx.Write(p)` behind the guard `session.Ptmx != nil`
(lines 319-324 and 327-332). The error is only logged: on a PTY that was
closed the write fails and nothing is written. -/
def writePty (w : World) (session : Nat) (p : List Byte) : World :=
  match (w.heap session).Ptmx with
  | some pty =>
    if pty.Closed then w
    else
      w.setSession session
        { w.heap session with Ptmx := some { pty with Written := pty.Written ++ [p] } }
  | none => w

/-- The client pump on a `resize` message (lines 242-257): when `data` is an
object whose `cols` and `rows` are numbers the window size is set; then
`continue`. -/
def handleResize (w : World) (p : ClientPump) (data : JSON) : World :=
  match data with
  | JSON.object resizeData =>
    match mget resizeData "cols" with
    | some (JSON.number cols) =>
      match mget resizeData "rows" with
      | some (JSON.number rows) =>
        setWindowSize w p.session (uint16OfFloat rows) (uint16OfFloat cols)
      | _ => w
    | _ => w
  | _ => w

/-- The reply to a heartbeat (lines 264-272). -/
def heartbeatResp (terminalID : String) : WireMessage :=
  { MsgType := "heartbeat", TerminalID := terminalID, Data := "pong" }

/-- The client pump on a `heartbeat` message (lines 258-283): `LastActive` is
set, the reply is written (a failure is only logged); then `continue`. -/
def handleHeartbeat (w : World) (env : PumpEnv) (p : ClientPump) : World :=
  let w1 := touch w p.session env.now
  if env.replyFails then w1 else w1.send p.conn (Frame.text (heartbeatResp p.terminalID))

/-- The client pump on a frame that is input for the shell (lines 318-336):
the payload is written to the PTY and `LastActive` is set. -/
def handleInput (w : World) (env : PumpEnv) (p : ClientPump) (payload : List Byte) : World :=
  touch (writePty w p.session payload) p.session env.now

/-- Go `handleWebSocketConnection`: one iteration of its loop on the result
of the read. After an error or a `close` message the function returns (the
pump leaves `clientPumps`); otherwise it loops. -/
def handleWebSocketConnection (w : World) (env : PumpEnv) (p : ClientPump) :
    ReadResult → World
  | ReadResult.error _ => clientReadError w env.now env.saveFails p
  | ReadResult.text payload (some message) =>
    if message.MsgType = "resize" then handleResize w p message.Data
    else if message.MsgType = "heartbeat" then handleHeartbeat w env p
    else if message.MsgType = "close" then clientClose w env.toCloseEnv p
    else handleInput w env p payload
  | ReadResult.text payload none => handleInput w env p payload
  | ReadResult.binary payload => handleInput w env p payload

/-- Whether `handleWebSocketConnection` returns after an iteration: it does
after a read error (line 232) and after a `close` message (line 314); after
every other frame it reads again. -/
def pumpReturns : ReadResult → Bool
  | ReadResult.error _ => true
  | ReadResult.text _ (some message) =>
    !(message.MsgType == "resize") && !(message.MsgType == "heartbeat") &&
      message.MsgType == "close"
  | ReadResult.text _ none => false
  | ReadResult.binary _ => false

/-- Go `handleWebSocketConnection`, the whole loop (lines 201-337) while no
other handler runs: `reads` are the results of the successive calls of
`conn.ReadMessage`, each with the environment of its iteration. The function
returns at the first read error or `close` message; what the connection would
deliver after that is never read. -/
def clientPumpLoop (p : ClientPump) : World → List (PumpEnv × ReadResult) → World
  | w, [] => w
  | w, (env, r) :: rest =>
    if pumpReturns r then handleWebSocketConnection w env p r
    else clientPumpLoop p (handleWebSocketConnection w env p r) rest

/-! ## Observations and scenarios -/

/-- The session has been idle for more than thirty minutes at time `now`
(the test of `CleanInactiveSessions`, line 136). -/
def idleAt (now : Int) (w : World) (s : Nat) : Bool :=
  decide (now - (w.heap s).LastActive > thirtyMinutes)

/-- What `CleanInactiveSessions` does to one idle session (lines 137-165): save,
mark inactive, tear down, delete the entry. -/
def reapSession (w : World) (env : CleanEnv) (username terminalID : String)
    (session : Nat) : World :=
  deleteEntry
    (closeSession
      (MarkSessionInactive
        (SaveSessionToDatabase w env.now (env.saveFails username terminalID)
          username terminalID session)
        env.now (env.markFails username terminalID) username terminalID)
      session)
    username terminalID

/-- The table holds a row for `(username, terminalID)`. -/
def hasRow (db : List Row) (username terminalID : String) : Bool :=
  db.any (rowMatches username terminalID)

/-- The session is the registry's entry for the key it was created under. -/
def registered (w : World) (s : Nat) : Bool :=
  GetTerminalSession w (w.createdFor s).1 (w.createdFor s).2 == some s

/-- The session has a PTY on which `Close` was not called. -/
def ptyOpen (w : World) (s : Nat) : Bool :=
  match (w.heap s).Ptmx with
  | some p => !p.Closed
  | none => false

/-- The session's client set `Clients` is not empty. -/
def hasClient (w : World) (s : Nat) : Bool :=
  !(w.heap s).Clients.isEmpty

/-- The session's client set holds a connection on which `Close` was not
called. -/
def hasOpenClient (w : World) (s : Nat) : Bool :=
  (w.heap s).Clients.any (fun e => !w.connClosed e.2)

/-- A connection as `TerminalHandler` passes it to `HandleUnixTerminal`: just
upgraded, open, and in no session's client set. -/
def connFresh (w : World) (conn : Nat) : Prop :=
  w.connClosed conn = false ∧ ∀ s, ∀ e ∈ (w.heap s).Clients, e.2 ≠ conn

/-- The states the process reaches from start-up, each handler body taken as
one step: attach (`HandleUnixTerminal` up to its client pump), PTY output, PTY
end-of-file or read error, a client read error (detach), a `close` message,
the reaper, kill, and a call of `RemoveTerminalSession` on its own. The
environment (clock, failing calls) is arbitrary. -/
inductive Reachable : World → Prop where
  | init (db : List Row) : Reachable (World.init db)
  | attach (w : World) (env : AttachEnv) (conn : Nat) (clientIP terminalID username : String) :
      Reachable w → connFresh w conn →
      Reachable (HandleUnixTerminal w env conn clientIP terminalID username)
  | output (w : World) (s : Nat) (chunk : List Byte) :
      Reachable w → s ∈ w.ptyPumps →
      Reachable (ptyOutput w s (w.createdFor s).2 chunk)
  | ptyEnd (w : World) (s : Nat) :
      Reachable w → s ∈ w.ptyPumps → Reachable (ptyReadError w s)
  | detach (w : World) (now : Int) (saveFails : Bool) (p : ClientPump) :
      Reachable w → p ∈ w.clientPumps → Reachable (clientReadError w now saveFails p)
  | close (w : World) (env : CloseEnv) (p : ClientPump) :
      Reachable w → p ∈ w.clientPumps → Reachable (clientClose w env p)
  | clean (w : World) (env : CleanEnv) :
      Reachable w → Reachable (CleanInactiveSessions w env)
  | kill (w : World) (env : KillEnv) (username terminalID : String) :
      Reachable w → Reachable (KillTerminalSession w env username terminalID).1
  | remove (w : World) (username terminalID : String) :
      Reachable w → Reachable (RemoveTerminalSession w username terminalID)

/-- The invariant behind the registry property. Every registry entry points to
a session created under that key, below the allocation mark, whose PTY (if any)
and client connections are not closed, and which has a client while it has no
PTY (except the session `skip`, between its registration and the insertion of
its first client); a session that is not the entry of its key has its PTY and
client connections closed; no connection is in two client sets; every client
pump runs on an allocated session that has a PTY and was created under the
pump's key; a session with a shell has a PTY. -/
structure Inv (skip : Option Nat) (w : World) : Prop where
  key : ∀ u id s, GetTerminalSession w u id = some s →
    w.createdFor s = (u, id) ∧ s < w.nextSession
  regOpen : ∀ u id s, GetTerminalSession w u id = some s →
    (∀ p, (w.heap s).Ptmx = some p → p.Closed = false) ∧
    (∀ e ∈ (w.heap s).Clients, w.connClosed e.2 = false)
  regClient : ∀ u id s, skip ≠ some s → GetTerminalSession w u id = some s →
    (w.heap s).Ptmx = none → (w.heap s).Clients ≠ []
  unreg : ∀ s, GetTerminalSession w (w.createdFor s).1 (w.createdFor s).2 ≠ some s →
    (∀ p, (w.heap s).Ptmx = some p → p.Closed = true) ∧
    (∀ e ∈ (w.heap s).Clients, w.connClosed e.2 = true)
  uniq : ∀ s s' e e', e ∈ (w.heap s).Clients → e' ∈ (w.heap s').Clients →
    e.2 = e'.2 → s = s'
  pump : ∀ p ∈ w.clientPumps, (w.heap p.session).Ptmx ≠ none ∧
    w.createdFor p.session = (p.username, p.terminalID) ∧ p.session < w.nextSession
  cmdPty : ∀ s, (w.heap s).Cmd ≠ none → (w.heap s).Ptmx ≠ none

/-- The table holds a row for `(u, id)`, and every such row has buffer `B`, is
marked inactive and was last written at `now`. -/
def RowHibernated (db : List Row) (u id : String) (B : List Byte) (now : Int) : Prop :=
  (∃ r ∈ db, rowMatches u id r = true) ∧
  ∀ r ∈ db, rowMatches u id r = true → r.buffer = some B ∧ r.active = 0 ∧ r.last_active = now

/-- During a reaper run at time `now`: the idle session `s` registered under
`(u, id)` with scroll-back `B` has not been reached yet. -/
def ReapPending (w : World) (u id : String) (s : Nat) (B : List Byte) (now : Int) : Prop :=
  GetTerminalSession w u id = some s ∧ idleAt now w s = true ∧ (w.heap s).Buffer.Data = B

/-- During a reaper run at time `now`: the entry `(u, id)` has been removed and
its row is hibernated with scroll-back `B`. -/
def ReapDone (w : World) (u id : String) (B : List Byte) (now : Int) : Prop :=
  GetTerminalSession w u id = none ∧ RowHibernated w.db u id B now

/-- The environment in which nothing fails, at time `now`. -/
def AttachEnv.ok (now : Int) : AttachEnv :=
  { now := now, loadFails := false, spawnError := none }

/-- The environment of a kill in which no call fails. -/
def KillEnv.ok : KillEnv :=
  { sigtermFails := false, killFails := false, deleteFails := false }

/-- The environment of a reaper run at time `now` in which no call fails. -/
def CleanEnv.ok (now : Int) : CleanEnv :=
  { now := now, saveFails := fun _ _ => false, markFails := fun _ _ => false,
    vacuumFails := false }

/-- A live session: from an empty table client `c1` attaches to `(u, s3)`,
which creates the session (pointer 0, connection 0) and starts its shell, and
the PTY pump then reads the one byte `x`. -/
def liveWorld : World :=
  ptyOutput (HandleUnixTerminal (World.init []) (AttachEnv.ok 0) 0 "c1" "s3" "u") 0 "s3" [120]

/-- The client pump of `c1` in `liveWorld`. -/
def livePump : ClientPump :=
  { conn := 0, clientIP := "c1", session := 0, username := "u", terminalID := "s3" }

/-- The environment of a client-pump iteration at time `now` in which no call
fails. -/
def PumpEnv.ok (now : Int) : PumpEnv :=
  { now := now, saveFails := false, sigtermFails := false, killFails := false,
    markFails := false, replyFails := false }

/-- The decoded message `{"type":"resize","terminalId":"s3","data":{"cols":132,"rows":50}}`. -/
def resizeMessage : Message :=
  { MsgType := "resize", TerminalID := "s3",
    Data := JSON.object [("cols", JSON.number ((132 : Nat) : ℚ)),
                         ("rows", JSON.number ((50 : Nat) : ℚ))] }

/-- The text frame carrying `resizeMessage`. -/
def resizeFrame : ReadResult :=
  ReadResult.text
    (bytesOf "\x7b\"type\":\"resize\",\"terminalId\":\"s3\",\"data\":\x7b\"cols\":132,\"rows\":50\x7d\x7d")
    (some resizeMessage)

/-- The text frame carrying the decoded message
`{"type":"heartbeat","terminalId":"s3","data":"ping"}`. -/
def heartbeatFrame : ReadResult :=
  ReadResult.text
    (bytesOf "\x7b\"type\":\"heartbeat\",\"terminalId\":\"s3\",\"data\":\"ping\"\x7d")
    (some { MsgType := "heartbeat", TerminalID := "s3", Data := JSON.string "ping" })

/-- The text frame carrying the decoded message
`{"type":"close","terminalId":"s3","data":null}`. -/
def closeFrame : ReadResult :=
  ReadResult.text
    (bytesOf "\x7b\"type\":\"close\",\"terminalId\":\"s3\",\"data\":null\x7d")
    (some { MsgType := "close", TerminalID := "s3", Data := JSON.null })

/-- A hibernated row, for `(u, s3)` with buffer `x`. -/
def hibernatedRow : Row :=
  { terminal_id := "s3", username := "u", buffer := some [120],
    created_at := 0, last_active := 0, active := 0 }

/-- A table with the one row `hibernatedRow`. -/
def hibernatedTable : List Row := [hibernatedRow]

/-- A restored session: the table holds a hibernated row for `(u, s3)` with
buffer `x`, and client `c1` attaches, which restores the session (pointer 0,
connection 0) and starts its shell. -/
def restoredWorld : World :=
  HandleUnixTerminal
    (World.init [{ terminal_id := "s3", username := "u", buffer := some [120],
                   created_at := 0, last_active := 0, active := 0 }])
    (AttachEnv.ok 1) 0 "c1" "s3" "u"

/-- The text frame `{"type":"close","terminalId":5}`: a JSON object with type
`close` that `json.Unmarshal` rejects, because `terminalId` is a number and the
field `Message.TerminalID` is a string. -/
def undecodableCloseFrame : ReadResult :=
  ReadResult.text (bytesOf "\x7b\"type\":\"close\",\"terminalId\":5\x7d") none

/-- What the store holds for a row apart from its time stamps: the key, the
buffer and the active flag. -/
def rowView (r : Row) : String × String × Option (List Byte) × Int :=
  (r.username, r.terminal_id, r.buffer, r.active)

/-- The environment of an attach at time `now` in which `pty.Start` fails with
the error `err`. -/
def AttachEnv.spawnFailing (now : Int) (err : String) : AttachEnv :=
  { now := now, loadFails := false, spawnError := some err }

/-! ## The session list: database/terminal.go, terminal/session.go, api/handlers.go -/

/-- One entry of the session list, the Go `map[string]interface{}` with the
keys `terminal_id`, `created_at`, `last_active`, `active`, `age` and
`duration`. Times are nanoseconds; their formatting as text is left out. -/
structure SessionEntry where
  terminal_id : String
  created_at : Int
  last_active : Int
  active : Bool
  age : Int
  duration : Int
deriving DecidableEq, Repr

/-- The list entry that `GetUserTerminalSessions` builds from a row (lines
103-110). -/
def entryOfRow (now : Int) (r : Row) : SessionEntry :=
  { terminal_id := r.terminal_id, created_at := r.created_at, last_active := r.last_active,
    active := r.active == 1, age := now - r.last_active,
    duration := r.last_active - r.created_at }

/-- The list entry that `ListTerminals` builds from a registry entry (lines
213-220). -/
def entryOfSession (now : Int) (terminalID : String) (session : TerminalSession) :
    SessionEntry :=
  { terminal_id := terminalID, created_at := session.Created,
    last_active := session.LastActive, active := true, age := now - session.LastActive,
    duration := session.LastActive - session.Created }

/-- Go `database.GetUserTerminalSessions`: the rows of the user, latest
`last_active` first (rows with equal `last_active` in table order). `fail`
says that the query or a scan returned an error; the result is then `none`
(Go: `nil, err`). -/
def GetUserTerminalSessions (db : List Row) (now : Int) (fail : Bool) (username : String) :
    Option (List SessionEntry) :=
  if fail then none
  else
    some (((db.filter (fun r => r.username == username)).insertionSort
      (fun a b => a.last_active ≥ b.last_active)).map (entryOfRow now))

/-- Go `ListTerminals`: the entries of the store, followed by an entry for
every registry entry of the user whose terminal id is not in the list yet. The
registry entries are visited in the order of the association list (Go leaves
the order of a map range open). -/
def ListTerminals (w : World) (now : Int) (fail : Bool) (username : String) :
    List SessionEntry :=
  match GetUserTerminalSessions w.db now fail username with
  | none => []
  | some sessions =>
    match mget w.TerminalSessions username with
    | none => sessions
    | some userSessions =>
      userSessions.foldl
        (fun sessions e =>
          if sessions.any (fun s => s.terminal_id == e.1) then sessions
          else sessions ++ [entryOfSession now e.1 (w.heap e.2)])
        sessions

/-- Go `models.Response`, with the list of sessions as `Data`. -/
structure Response where
  Code : Int
  Message : String
  Data : Option (List SessionEntry)
deriving DecidableEq, Repr

/-- What `ListTerminalSessionsHandler` writes: status 401 with the body
`Unauthorized`, or a JSON response. -/
inductive HandlerResult where
  | unauthorized
  | json (resp : Response)
deriving DecidableEq, Repr

/-- Go `ListTerminalSessionsHandler` (`api/handlers.go` lines 268-288), the
handler of `/api/terminals`; `username` is what the request context holds. -/
def ListTerminalSessionsHandler (w : World) (now : Int) (fail : Bool) (username : String) :
    HandlerResult :=
  if username = "" then HandlerResult.unauthorized
  else
    match GetUserTerminalSessions w.db now fail username with
    | none =>
      HandlerResult.json
        { Code := 1, Message := "Failed to get terminal sessions", Data := none }
    | some sessions =>
      HandlerResult.json
        { Code := 0, Message := "Terminal sessions retrieved", Data := some sessions }

/-! ## database/user.go : GenerateStrongPassword -/

/-- The character set `lowercase` (line 43). -/
def lowercase : List Char := "abcdefghijklmnopqrstuvwxyz".toList

/-- The character set `uppercase` (line 44). -/
def uppercase : List Char := "ABCDEFGHIJKLMNOPQRSTUVWXYZ".toList

/-- The character set `numbers` (line 45). -/
def numbers : List Char := "0123456789".toList

/-- The character set `symbols` (line 46). -/
def symbols : List Char := "!@#$%^&*()-_=+[]\x7b\x7d|;:,.<>?".toList

/-- The character set `allChars` (line 67). -/
def allChars : List Char := lowercase ++ uppercase ++ numbers ++ symbols

/-- Go `r.Intn(n)` at the `k`-th call on the source `r`, where `r k` is the
raw value of that call: a number in `[0, n)`. -/
def Intn (r : Nat → Nat) (k n : Nat) : Nat := r k % n

/-- Go `password[i], password[j] = password[j], password[i]`. -/
def swapAt (password : List Char) (i j : Nat) : List Char :=
  (password.set i (password.getD j 'a')).set j (password.getD i 'a')

/-- The slice `password` before the shuffle (lines 49-70): one character of
each set, then `length - 4` characters of `allChars`; the `i`-th position is
filled by the `i`-th call of `Intn`. -/
def passwordDraft (r : Nat → Nat) (length : Nat) : List Char :=
  [lowercase.getD (Intn r 0 lowercase.length) 'a',
   uppercase.getD (Intn r 1 uppercase.length) 'a',
   numbers.getD (Intn r 2 numbers.length) 'a',
   symbols.getD (Intn r 3 symbols.length) 'a'] ++
    (List.range (length - 4)).map
      (fun i => allChars.getD (Intn r (4 + i) allChars.length) 'a')

/-- Go `GenerateStrongPassword` on the random source `r`. -/
def GenerateStrongPassword (r : Nat → Nat) (length : Int) : String :=
  let length : Nat := (if length < 8 then 8 else length).toNat
  let password := passwordDraft r length
  String.mk
    ((List.range length).foldl
      (fun password i => swapAt password i (Intn r (length + i) (i + 1))) password)

/-! ## The client side of an `output` message -/

/-- The 6-bit value of a base64 digit (0 for the padding character). -/
def base64Value (c : Char) : Nat := base64Alphabet.indexOf c % 64

/-- The byte `n mod 256`. -/
def byteOf (n : Nat) : Byte := ⟨n % 256, Nat.mod_lt _ (by decide)⟩

/-- Standard base64 decoding (RFC 4648, with padding), what a client applies
to the `data` of an `output` message. -/
def base64Decode : List Char → List Byte
  | c0 :: c1 :: c2 :: c3 :: rest =>
    let n := base64Value c0 * 262144 + base64Value c1 * 4096 + base64Value c2 * 64 +
      base64Value c3
    if c2 = '=' then [byteOf (n / 65536)]
    else if c3 = '=' then [byteOf (n / 65536), byteOf (n / 256)]
    else byteOf (n / 65536) :: byteOf (n / 256) :: byteOf n :: base64Decode rest
  | _ => []

/-- The `output` message of a chunk (lines 161-169). -/
def outputMessage (terminalID : String) (chunk : List Byte) : WireMessage :=
  { MsgType := "output", TerminalID := terminalID, Data := String.mk (base64Encode chunk) }

/-- The PTY pump of `HandleUnixTerminal` (lines 131-192) over the successive
non-empty reads `chunks`, while no other handler runs. -/
def ptyPump (w : World) (session : Nat) (terminalID : String) (chunks : List (List Byte)) :
    World :=
  chunks.foldl (fun w chunk => ptyOutput w session terminalID chunk) w

/-- The invariant behind the single close of `Done`: the `Done` channel of a
registered session has not been closed, and no `Done` channel has been closed
more than once. -/
structure DoneInv (w : World) : Prop where
  reg : ∀ u id s, GetTerminalSession w u id = some s → (w.heap s).Done = 0
  once : ∀ s, (w.heap s).Done ≤ 1

/-! ### Properties of `Append` -/

theorem Append_Max (b : OutputBuffer) (data : List Byte) :
    (b.Append data).Max = b.Max := rfl

/-- When the write is no longer than the capacity, `Append` keeps exactly the
last `Max` bytes of the concatenation (all of it when it fits). -/
theorem Append_data_of_le (b : OutputBuffer) (data : List Byte)
    (hold : (b.Data.length : Int) ≤ b.Max) (hdata : (data.length : Int) ≤ b.Max) :
    (b.Append data).Data =
      (b.Data ++ data).drop (b.Data.length + data.length - b.Max.toNat) := by
  obtain ⟨m, hm⟩ : ∃ m : Nat, b.Max = (m : Int) :=
    ⟨b.Max.toNat, (Int.toNat_of_nonneg (le_trans (Int.ofNat_nonneg _) hold)).symm⟩
  rw [hm] at hold hdata
  have hold' : b.Data.length ≤ m := by exact_mod_cast hold
  have hdata' : data.length ≤ m := by exact_mod_cast hdata
  simp only [OutputBuffer.Append, hm, Int.toNat_ofNat]
  by_cases hgt : ((b.Data.length : Int) + (data.length : Int)) > (m : Int)
  · have hgt' : m < b.Data.length + data.length := by exact_mod_cast hgt
    rw [if_pos hgt]
    have hex : ((b.Data.length : Int) + (data.length : Int) - (m : Int)).toNat
        = b.Data.length + data.length - m := by omega
    by_cases hlt : ((b.Data.length : Int) + (data.length : Int) - (m : Int))
        < (b.Data.length : Int)
    · rw [if_pos hlt, hex]
      have hle : b.Data.length + data.length - m ≤ b.Data.length := by omega
      rw [List.drop_append_of_le_length hle]
    · rw [if_neg hlt]
      have hge : b.Data.length ≤ b.Data.length + data.length - m := by omega
      have hz : b.Data.length + data.length - m - b.Data.length = 0 := by omega
      rw [List.drop_append_eq_append_drop, List.drop_of_length_le hge, hz]
      simp
  · rw [if_neg hgt]
    have hz : b.Data.length + data.length - m = 0 := by omega
    rw [hz]
    simp

/-- A write longer than the capacity empties the buffer and is stored whole,
whatever the capacity and the old contents. -/
theorem Append_data_of_gt (b : OutputBuffer) (data : List Byte)
    (h : b.Max < (data.length : Int)) : (b.Append data).Data = data := by
  unfold OutputBuffer.Append
  simp only
  have h1 : (b.Data.length : Int) + (data.length : Int) > b.Max := by
    have : (0 : Int) ≤ (b.Data.length : Int) := Int.ofNat_nonneg _
    omega
  have h2 : ¬ ((b.Data.length : Int) + (data.length : Int) - b.Max < (b.Data.length : Int)) := by
    omega
  rw [if_pos h1, if_neg h2]
  rfl

/-- With a write no longer than the capacity the buffer stays within it. -/
theorem Append_length_le_of_le (b : OutputBuffer) (data : List Byte)
    (hold : (b.Data.length : Int) ≤ b.Max) (hdata : (data.length : Int) ≤ b.Max) :
    ((b.Append data).Data.length : Int) ≤ b.Max := by
  rw [Append_data_of_le b data hold hdata]
  have h0 : (0 : Int) ≤ b.Max := le_trans (Int.ofNat_nonneg _) hold
  simp only [List.length_drop, List.length_append]
  omega

/-- Folding `Append` over chunks that each fit the capacity leaves the last
`Max` bytes of everything written. -/
theorem appendAll_data_of_le (m : Nat) (chunks : List (List Byte)) :
    ∀ b : OutputBuffer, b.Max = (m : Int) → b.Data.length ≤ m →
      (∀ c ∈ chunks, c.length ≤ m) →
      (appendAll b chunks).Data =
        (b.Data ++ chunks.flatten).drop (b.Data.length + chunks.flatten.length - m) := by
  induction chunks with
  | nil =>
    intro b _ hlen _
    have hz : b.Data.length - m = 0 := by omega
    simp [appendAll, hz]
  | cons c cs ih =>
    intro b hmax hlen hall
    have hc : c.length ≤ m := hall c (List.mem_cons_self _ _)
    have hcs : ∀ x ∈ cs, x.length ≤ m := fun x hx => hall x (List.mem_cons_of_mem _ hx)
    have hA : (b.Append c).Data = (b.Data ++ c).drop (b.Data.length + c.length - m) := by
      have := Append_data_of_le b c (by rw [hmax]; exact_mod_cast hlen)
        (by rw [hmax]; exact_mod_cast hc)
      rw [this, hmax, Int.toNat_ofNat]
    have hAlen : (b.Append c).Data.length ≤ m := by
      rw [hA, List.length_drop, List.length_append]; omega
    have hstep : appendAll b (c :: cs) = appendAll (b.Append c) cs := rfl
    rw [hstep, ih (b.Append c) (by rw [Append_Max, hmax]) hAlen hcs, hA]
    have hk : b.Data.length + c.length - m ≤ (b.Data ++ c).length := by
      rw [List.length_append]; omega
    rw [← List.drop_append_of_le_length hk, List.drop_drop, List.flatten_cons,
      List.length_drop, List.length_append, List.length_append, List.append_assoc]
    congr 1
    omega

/-! ### The scroll-back buffer: capacity and eviction (C1-C4) -/

/-- C1: the capacity invariant of `Append` fails for a write longer than the
capacity. A buffer with `Max = 2` and no contents satisfies `len(Data) ≤ Max`,
and after `Append` of three bytes it holds all three, more than `Max`. -/
theorem Append_oversize_write_exceeds_Max :
    ((({ Data := [], Max := 2 } : OutputBuffer).Data.length : Int) ≤ 2) ∧
    (({ Data := [], Max := 2 } : OutputBuffer).Append [1, 2, 3]).Data = [1, 2, 3] ∧
    ¬ (((({ Data := [], Max := 2 } : OutputBuffer).Append [1, 2, 3]).Data.length : Int) ≤
        (({ Data := [], Max := 2 } : OutputBuffer).Append [1, 2, 3]).Max) := by
  decide

/-- C2: the eviction rule of `Append` fails for a write longer than the
capacity. With contents `[9]`, `Max = 2` and a write of `[1, 2, 3]` the total
exceeds `Max`, yet the buffer ends up holding `[1, 2, 3]` and not the last two
bytes `[2, 3]` of the concatenation. -/
theorem Append_oversize_write_not_last_Max :
    (({ Data := [9], Max := 2 } : OutputBuffer).Append [1, 2, 3]).Data = [1, 2, 3] ∧
    (([9] : List Byte) ++ [1, 2, 3]).drop (([9] : List Byte).length + 3 - 2) = [2, 3] ∧
    (({ Data := [9], Max := 2 } : OutputBuffer).Append [1, 2, 3]).Data ≠
      (([9] : List Byte) ++ [1, 2, 3]).drop (([9] : List Byte).length + 3 - 2) := by
  decide

/-- C3: `Append` never rejects or truncates the write. After `Append data` the
contents are `kept ++ data` where `kept` is a suffix of the contents before
the call: only oldest bytes are evicted, and all of `data` is stored. -/
theorem Append_keeps_write_evicts_oldest (b : OutputBuffer) (data : List Byte) :
    ∃ kept : List Byte, (b.Append data).Data = kept ++ data ∧ kept <:+ b.Data := by
  unfold OutputBuffer.Append
  simp only
  split_ifs
  · exact ⟨_, rfl, List.drop_suffix _ _⟩
  · exact ⟨[], rfl, List.nil_suffix⟩
  · exact ⟨b.Data, rfl, List.suffix_refl _⟩

/-- C4: for chunks of at most 4096 bytes each, folding `Append` over them from
an empty buffer with `Max = 100*1024` leaves exactly the last
`min(total, Max)` bytes of their concatenation; when the total is 153600 the
buffer is the concatenation from byte 51200 on, 102400 bytes up to byte
153599. -/
theorem appendAll_pump_chunks (chunks : List (List Byte))
    (h : ∀ c ∈ chunks, c.length ≤ ptyReadSize) :
    (appendAll { Data := [], Max := scrollbackMax } chunks).Data =
        chunks.flatten.drop (chunks.flatten.length - min chunks.flatten.length 102400) ∧
    (appendAll { Data := [], Max := scrollbackMax } chunks).Data.length =
        min chunks.flatten.length 102400 ∧
    (chunks.flatten.length = 153600 →
      (appendAll { Data := [], Max := scrollbackMax } chunks).Data = chunks.flatten.drop 51200 ∧
      (appendAll { Data := [], Max := scrollbackMax } chunks).Data.length = 102400 ∧
      ∀ i : Nat, i < 102400 →
        (appendAll { Data := [], Max := scrollbackMax } chunks).Data[i]? =
          chunks.flatten[51200 + i]?) := by
  have hall : ∀ c ∈ chunks, c.length ≤ 102400 := fun c hc =>
    le_trans (h c hc) (by decide)
  have hmain := appendAll_data_of_le 102400 chunks { Data := [], Max := scrollbackMax }
    (by simp [scrollbackMax]) (by simp) hall
  simp only [List.nil_append, List.length_nil, Nat.zero_add] at hmain
  have hdrop : chunks.flatten.length - min chunks.flatten.length 102400
      = chunks.flatten.length - 102400 := by omega
  refine ⟨by rw [hmain, hdrop], by rw [hmain, List.length_drop]; omega, ?_⟩
  intro htot
  have h1 : (appendAll { Data := [], Max := scrollbackMax } chunks).Data
      = chunks.flatten.drop 51200 := by rw [hmain, htot]
  refine ⟨h1, by rw [h1, List.length_drop, htot], ?_⟩
  intro i _
  rw [h1, List.getElem?_drop]

/-- The statement of C4 at two chunks `[1, 2]` and `[3]`. -/
theorem appendAll_pump_chunks_witness :
    (∀ c ∈ ([[1, 2], [3]] : List (List Byte)), c.length ≤ ptyReadSize) ∧
    (appendAll { Data := [], Max := scrollbackMax } [[1, 2], [3]]).Data =
      ([[1, 2], [3]] : List (List Byte)).flatten.drop
        (([[1, 2], [3]] : List (List Byte)).flatten.length -
          min ([[1, 2], [3]] : List (List Byte)).flatten.length 102400) :=
  ⟨by decide, (appendAll_pump_chunks [[1, 2], [3]] (by decide)).1⟩

/-! ### Maps and the registry -/

theorem mget_mdel {V : Type} (m : List (String × V)) (k k' : String) :
    mget (mdel m k) k' = if k = k' then none else mget m k' := by
  induction m with
  | nil => simp [mdel, mget]
  | cons e rest ih =>
    obtain ⟨a, v⟩ := e
    have hcons : mdel ((a, v) :: rest) k =
        if a = k then mdel rest k else (a, v) :: mdel rest k := by
      by_cases h : a = k <;> simp [mdel, List.filter_cons, h]
    rw [hcons]
    by_cases hak : a = k
    · rw [if_pos hak, ih]
      subst hak
      by_cases hk : a = k' <;> simp [mget, hk]
    · rw [if_neg hak]
      simp only [mget]
      rw [ih]
      by_cases hk : k = k'
      · subst hk
        simp [hak]
      · simp [hk]

theorem mget_mset {V : Type} (m : List (String × V)) (k k' : String) (v : V) :
    mget (mset m k v) k' = if k = k' then some v else mget m k' := by
  by_cases hk : k = k'
  · simp [mset, mget, hk]
  · simp [mset, mget, hk, mget_mdel]

theorem Get_SaveTerminalSession (w : World) (u id u' id' : String) (s : Nat) :
    GetTerminalSession (SaveTerminalSession w u id s) u' id' =
      if u = u' ∧ id = id' then some s else GetTerminalSession w u' id' := by
  unfold GetTerminalSession SaveTerminalSession
  simp only [mget_mset]
  by_cases hu : u = u'
  · subst hu
    by_cases hid : id = id'
    · simp [hid, mget_mset]
    · cases h : mget w.TerminalSessions u <;> simp [hid, mget_mset, mget_mdel, mget]
  · simp [hu]

theorem Get_deleteEntry (w : World) (u id u' id' : String) :
    GetTerminalSession (deleteEntry w u id) u' id' =
      if u = u' ∧ id = id' then none else GetTerminalSession w u' id' := by
  unfold deleteEntry
  cases h : mget w.TerminalSessions u with
  | none =>
    by_cases hu : u = u'
    · subst hu
      simp [GetTerminalSession, h]
    · simp [hu]
  | some sessions =>
    simp only [GetTerminalSession, mget_mset]
    by_cases hu : u = u'
    · subst hu
      by_cases hid : id = id'
      · simp [hid, mget_mdel]
      · simp [hid, mget_mdel, h]
    · simp [hu]

/-- Closing every connection of a client list only changes `connClosed`. -/
theorem closeAll_eq (cl : List (String × Nat)) : ∀ w : World,
    cl.foldl (fun acc e => acc.closeConn e.2) w =
      { w with connClosed := fun k => decide (k ∈ cl.map Prod.snd) || w.connClosed k } := by
  induction cl with
  | nil => intro w; simp
  | cons e rest ih =>
    intro w
    rw [List.foldl_cons, ih]
    simp only [World.closeConn, List.map_cons, List.mem_cons]
    congr 1
    funext k
    by_cases hk : k = e.2
    · subst hk
      simp
    · simp [hk, Function.update_noteq hk]

theorem closeSession_eq (w : World) (s : Nat) :
    closeSession w s =
      { w with
        connClosed := fun k => decide (k ∈ (w.heap s).Clients.map Prod.snd) || w.connClosed k,
        heap := Function.update w.heap s
          { w.heap s with
            Ptmx := (w.heap s).Ptmx.map (fun p => { p with Closed := true }),
            Done := (w.heap s).Done + 1 } } := by
  simp [closeSession, closeAll_eq, World.setSession]

/-! ### Frame lemmas of the registry operations -/

theorem deleteEntry_eq (w : World) (u id : String) :
    deleteEntry w u id =
      { w with TerminalSessions :=
          match mget w.TerminalSessions u with
          | none => w.TerminalSessions
          | some sessions => mset w.TerminalSessions u (mdel sessions id) } := by
  unfold deleteEntry
  cases mget w.TerminalSessions u <;> rfl

theorem Get_RemoveTerminalSession (w : World) (u id u' id' : String) :
    GetTerminalSession (RemoveTerminalSession w u id) u' id' =
      if u = u' ∧ id = id' then none else GetTerminalSession w u' id' := by
  unfold RemoveTerminalSession
  cases h : mget w.TerminalSessions u with
  | none =>
    by_cases hk : u = u' ∧ id = id'
    · obtain ⟨rfl, rfl⟩ := hk
      simp [GetTerminalSession, h]
    · simp [hk]
  | some sessions =>
    simp only
    cases h2 : mget sessions id with
    | none => simp only [Get_deleteEntry]
    | some s =>
      simp only [Get_deleteEntry]
      have : ∀ a b, GetTerminalSession (closeSession w s) a b = GetTerminalSession w a b := by
        intro a b; rw [closeSession_eq]; rfl
      rw [this]

theorem RemoveTerminalSession_frame (w : World) (u id : String) :
    (RemoveTerminalSession w u id).db = w.db ∧
    (RemoveTerminalSession w u id).connSent = w.connSent ∧
    (RemoveTerminalSession w u id).nextSession = w.nextSession ∧
    (∀ s, ((RemoveTerminalSession w u id).heap s).Buffer = (w.heap s).Buffer) := by
  unfold RemoveTerminalSession
  cases h : mget w.TerminalSessions u with
  | none => simp
  | some sessions =>
    simp only
    cases h2 : mget sessions id with
    | none => simp [deleteEntry_eq]
    | some s =>
      simp only [deleteEntry_eq, closeSession_eq]
      refine ⟨trivial, trivial, trivial, ?_⟩
      intro s'
      by_cases hs : s' = s
      · subst hs; simp
      · simp [Function.update_noteq hs]

/-- What `attachSpawn` sends when the scroll-back is not empty: the buffer,
the sentinel, and after them only the spawn error if there is one. -/
theorem attachSpawn_sent (w : World) (env : AttachEnv) (conn : Nat)
    (clientIP terminalID username : String) (s : Nat) (h : (w.heap s).Buffer.Data ≠ []) :
    ∃ tail, (attachSpawn w env conn clientIP terminalID username s).connSent conn =
      w.connSent conn ++
        [Frame.binary (w.heap s).Buffer.Data, Frame.binary historySentinel] ++ tail := by
  have hlen : (w.heap s).Buffer.Data.length > 0 := List.length_pos.mpr h
  unfold attachSpawn
  cases hsp : env.spawnError with
  | some err =>
    refine ⟨[Frame.binary (bytesOf ("Failed to start terminal: " ++ err ++ "\r\n"))], ?_⟩
    simp [addClient, touch, World.setSession, World.send, hlen]
  | none =>
    refine ⟨[], ?_⟩
    simp [addClient, touch, World.setSession, World.send, hlen]

theorem attachSpawn_buffer (w : World) (env : AttachEnv) (conn : Nat)
    (clientIP terminalID username : String) (s : Nat) :
    ((attachSpawn w env conn clientIP terminalID username s).heap s).Buffer = (w.heap s).Buffer := by
  unfold attachSpawn
  cases hsp : env.spawnError <;>
    by_cases hlen : (w.heap s).Buffer.Data.length > 0 <;>
    simp [addClient, touch, World.setSession, World.send, hlen]

theorem Get_attachSpawn (w : World) (env : AttachEnv) (conn : Nat)
    (clientIP terminalID username : String) (s : Nat) (u id : String) :
    GetTerminalSession (attachSpawn w env conn clientIP terminalID username s) u id
      = GetTerminalSession w u id := by
  unfold attachSpawn
  cases hsp : env.spawnError <;>
    by_cases hlen : (w.heap s).Buffer.Data.length > 0 <;>
    simp [addClient, touch, World.setSession, World.send, hlen, GetTerminalSession]

/-! ### The persistence store -/

theorem find_Save (db : List Row) (now : Int) (u id : String) (B : Option (List Byte)) :
    ∃ r, (SaveTerminalSessionToDB db now false u id B).1.find? (rowMatches u id) = some r ∧
      r.buffer = B ∧ r.active = 1 := by
  unfold SaveTerminalSessionToDB
  simp only [Bool.false_eq_true, if_false]
  split_ifs with hc
  · -- UPDATE
    simp only
    induction db with
    | nil => simp at hc
    | cons r rest ih =>
      by_cases hr : rowMatches u id r = true
      · refine ⟨{ r with buffer := B, last_active := now, active := 1 }, ?_, rfl, rfl⟩
        have : rowMatches u id { r with buffer := B, last_active := now, active := 1 } = true := hr
        simp [List.find?, hr, this]
      · have hc' : (List.filter (rowMatches u id) rest).length > 0 := by
          simpa [List.filter_cons, hr] using hc
        obtain ⟨r', h1, h2, h3⟩ := ih hc'
        refine ⟨r', ?_, h2, h3⟩
        simp only [List.map_cons, hr]
        rw [List.find?_cons]
        simp only [hr, Bool.false_eq_true, if_false]
        simpa using h1
  · -- INSERT
    simp only
    have hnone : ∀ r ∈ db, rowMatches u id r = false := by
      intro r hr
      by_contra hne
      have hm : r ∈ db.filter (rowMatches u id) := by
        simp [List.mem_filter, hr] at hne ⊢
        exact hne
      have : 0 < (db.filter (rowMatches u id)).length := List.length_pos_of_mem hm
      exact hc this
    refine ⟨{ terminal_id := id, username := u, buffer := B,
              created_at := now, last_active := now, active := 1 }, ?_, rfl, rfl⟩
    rw [List.find?_append]
    have : db.find? (rowMatches u id) = none := by
      rw [List.find?_eq_none]
      intro r hr
      simp [hnone r hr]
    rw [this]
    simp [List.find?, rowMatches]


theorem find_map_rowMatches (u id : String) (f : Row → Row)
    (hf : ∀ r, rowMatches u id (f r) = rowMatches u id r) (db : List Row) :
    (db.map f).find? (rowMatches u id) = (db.find? (rowMatches u id)).map f := by
  induction db with
  | nil => rfl
  | cons r rest ih =>
    simp only [List.map_cons, List.find?_cons, hf]
    cases rowMatches u id r
    · simpa using ih
    · rfl

/-- Loading after a successful save, with or without the row being marked
inactive in between, returns the saved buffer. -/
theorem Load_Mark_Save (db : List Row) (now now' : Int) (markFails : Bool) (u id : String)
    (B : List Byte) :
    ∃ a, LoadTerminalSessionFromDB
      (SetTerminalSessionActive (SaveTerminalSessionToDB db now false u id (some B)).1
        now' markFails u id false).1 false u id = (some B, a, false) := by
  obtain ⟨r, h1, h2, h3⟩ := find_Save db now u id (some B)
  cases markFails with
  | true => exact ⟨true, by simp [SetTerminalSessionActive, LoadTerminalSessionFromDB, h1, h2, h3]⟩
  | false =>
    refine ⟨false, ?_⟩
    simp only [SetTerminalSessionActive, LoadTerminalSessionFromDB, Bool.false_eq_true, if_false]
    rw [find_map_rowMatches u id _ _ _, h1]
    · have hr : rowMatches u id r = true := List.find?_some h1
      simp [hr, h2]
    · intro r'
      by_cases hr : rowMatches u id r' = true
      · simp only [hr, if_true]
        exact hr
      · simp [hr]

/-! ### Kill: registry entry and row (C6) -/

theorem closeSession_db (w : World) (s : Nat) :
    (closeSession w s).db = w.db := by
  rw [closeSession_eq]

theorem deleteEntry_db (w : World) (u id : String) :
    (deleteEntry w u id).db = w.db := by
  unfold deleteEntry
  cases mget w.TerminalSessions u <;> rfl

theorem hasRow_Delete (db : List Row) (u id : String) :
    hasRow (DeleteTerminalSessionFromDB db false u id).1 u id = false := by
  simp [hasRow, DeleteTerminalSessionFromDB]

theorem killTeardown_spec (w : World) (env : KillEnv) (u id : String) (s : Nat) :
    (killTeardown w env u id s).2 = none ∧
    GetTerminalSession (killTeardown w env u id s).1 u id = none ∧
    (env.deleteFails = false → hasRow (killTeardown w env u id s).1.db u id = false) := by
  refine ⟨rfl, ?_, ?_⟩
  · simp [killTeardown, Get_deleteEntry]
  · intro h
    simp [killTeardown, h, hasRow_Delete, deleteEntry_db, closeSession_db]

/-- C6 (amended): after `KillTerminalSession(u, id)` returns nil the registry
has no entry for `(u, id)`, and the table has no row for `(u, id)` provided
the DELETE statement did not fail; both hold in the state the function
returns. -/
theorem Kill_success_removes_entry_and_row (w : World) (env : KillEnv) (u id : String)
    (hok : (KillTerminalSession w env u id).2 = none) :
    GetTerminalSession (KillTerminalSession w env u id).1 u id = none ∧
    (env.deleteFails = false → hasRow (KillTerminalSession w env u id).1.db u id = false) := by
  unfold KillTerminalSession at hok ⊢
  cases h1 : mget w.TerminalSessions u with
  | none => simp [h1] at hok
  | some sessions =>
    simp only [h1] at hok ⊢
    cases h2 : mget sessions id with
    | none => simp [h2] at hok
    | some s =>
      simp only [h2] at hok ⊢
      cases h3 : (w.heap s).Cmd with
      | none => simp only [h3]; exact (killTeardown_spec _ _ _ _ _).2
      | some proc =>
        simp only [h3] at hok ⊢
        by_cases hs : env.sigtermFails = true
        · by_cases hk : env.killFails = true
          · simp [hs, hk] at hok
          · simp only [hs, hk, if_true]
            exact (killTeardown_spec _ _ _ _ _).2
        · simp only [hs]
          exact (killTeardown_spec _ _ _ _ _).2

/-- The statement of C6 (amended) at the restored session of `restoredWorld`. -/
theorem Kill_success_removes_entry_and_row_witness :
    (KillTerminalSession restoredWorld KillEnv.ok "u" "s3").2 = none ∧
    GetTerminalSession (KillTerminalSession restoredWorld KillEnv.ok "u" "s3").1 "u" "s3" = none ∧
    hasRow (KillTerminalSession restoredWorld KillEnv.ok "u" "s3").1.db "u" "s3" = false :=
  ⟨by decide, (Kill_success_removes_entry_and_row restoredWorld KillEnv.ok "u" "s3" (by decide)).1,
    (Kill_success_removes_entry_and_row restoredWorld KillEnv.ok "u" "s3" (by decide)).2 (by decide)⟩

/-- C6 as stated fails: when the DELETE statement fails, the error is only
logged, `KillTerminalSession` still returns nil, and the row for `(u, s3)` is
still in the table. -/
theorem Kill_returns_nil_with_row_left :
    hasRow restoredWorld.db "u" "s3" = true ∧
    (KillTerminalSession restoredWorld
      { sigtermFails := false, killFails := false, deleteFails := true } "u" "s3").2 = none ∧
    hasRow (KillTerminalSession restoredWorld
      { sigtermFails := false, killFails := false, deleteFails := true } "u" "s3").1.db
        "u" "s3" = true := by
  decide

/-! ### Kill followed by detach (C7) -/

/-- C7: kill followed by the detach of the killed session's client brings the
row back. In `liveWorld` (buffer `x`, client `c1` attached) the kill succeeds,
deletes the row and closes connection 0; the pump of `c1` then handles its
read error, finds no client left and saves the buffer, so the table holds a
row for `(u, s3)` again, and a later attach of `c2` with the same id restores the
session from it and is sent `x` and the sentinel. -/
theorem kill_then_detach_restores_row :
    (liveWorld.heap 0).Buffer.Data = [120] ∧
    (liveWorld.heap 0).Clients = [("c1", 0)] ∧
    livePump ∈ liveWorld.clientPumps ∧
    (KillTerminalSession liveWorld KillEnv.ok "u" "s3").2 = none ∧
    hasRow (KillTerminalSession liveWorld KillEnv.ok "u" "s3").1.db "u" "s3" = false ∧
    (KillTerminalSession liveWorld KillEnv.ok "u" "s3").1.connClosed 0 = true ∧
    hasRow (clientReadError (KillTerminalSession liveWorld KillEnv.ok "u" "s3").1 5 false
      livePump).db "u" "s3" = true ∧
    (HandleUnixTerminal
      (clientReadError (KillTerminalSession liveWorld KillEnv.ok "u" "s3").1 5 false livePump)
      (AttachEnv.ok 9) 1 "c2" "s3" "u").connSent 1 =
        [Frame.binary [120], Frame.binary historySentinel] ∧
    ((HandleUnixTerminal
      (clientReadError (KillTerminalSession liveWorld KillEnv.ok "u" "s3").1 5 false livePump)
      (AttachEnv.ok 9) 1 "c2" "s3" "u").heap 1).Buffer.Data = [120] := by
  decide

/-! ### Kill when the signals fail (C8) -/

/-- C8 (amended): when the session has a shell and both `Signal(SIGTERM)` and
`Kill()` fail, `KillTerminalSession` returns the error and performs no
teardown: the state (store, registry, connections, PTY, `Done`) is returned
unchanged. -/
theorem Kill_signal_failure_returns_unchanged (w : World) (env : KillEnv) (u id : String)
    (s : Nat) (proc : Process)
    (hg : GetTerminalSession w u id = some s) (hcmd : (w.heap s).Cmd = some proc)
    (hterm : env.sigtermFails = true) (hkill : env.killFails = true) :
    KillTerminalSession w env u id = (w, some KillError.failedToTerminate) := by
  unfold GetTerminalSession at hg
  unfold KillTerminalSession
  cases h1 : mget w.TerminalSessions u with
  | none => rw [h1] at hg; simp at hg
  | some sessions =>
    rw [h1] at hg
    simp only at hg
    simp only [hg, hcmd, hterm, hkill, if_true]

/-- The statement of C8 (amended) at the session of `restoredWorld`. -/
theorem Kill_signal_failure_returns_unchanged_witness :
    GetTerminalSession restoredWorld "u" "s3" = some 0 ∧
    KillTerminalSession restoredWorld
      { sigtermFails := true, killFails := true, deleteFails := false } "u" "s3" =
        (restoredWorld, some KillError.failedToTerminate) :=
  ⟨by decide,
    Kill_signal_failure_returns_unchanged restoredWorld
      { sigtermFails := true, killFails := true, deleteFails := false } "u" "s3" 0
      { Signals := [] } (by decide) (by decide) rfl rfl⟩

/-- C8 as stated fails: when both `Signal(SIGTERM)` and `Kill()` fail,
`KillTerminalSession` returns the error before any teardown. In
`restoredWorld` the session stays in the registry, its row stays in the
table, its client connection and PTY stay open and `Done` is not closed. -/
theorem kill_signal_failure_skips_teardown :
    (KillTerminalSession restoredWorld
      { sigtermFails := true, killFails := true, deleteFails := false } "u" "s3").2 =
        some KillError.failedToTerminate ∧
    GetTerminalSession (KillTerminalSession restoredWorld
      { sigtermFails := true, killFails := true, deleteFails := false } "u" "s3").1 "u" "s3" =
        some 0 ∧
    hasRow (KillTerminalSession restoredWorld
      { sigtermFails := true, killFails := true, deleteFails := false } "u" "s3").1.db
        "u" "s3" = true ∧
    (KillTerminalSession restoredWorld
      { sigtermFails := true, killFails := true, deleteFails := false } "u" "s3").1.connClosed 0
        = false ∧
    ptyOpen (KillTerminalSession restoredWorld
      { sigtermFails := true, killFails := true, deleteFails := false } "u" "s3").1 0 = true ∧
    ((KillTerminalSession restoredWorld
      { sigtermFails := true, killFails := true, deleteFails := false } "u" "s3").1.heap 0).Done
        = 0 := by
  decide

/-! ### Restore after hibernate (C9) -/

/-- C9 (amended): a session hibernated with a non-empty scroll-back `B`
(`SaveSessionToDatabase` succeeds, the row is marked inactive or that update
fails, then the entry is removed from the registry) and attached again with
the same `(owner, id)`, the load not failing: `HandleUnixTerminal` sends the
new client first a frame with exactly `B`, then the sentinel, and the new
registry entry's scroll-back equals `B`. -/
theorem restore_replays_hibernated_buffer (w : World) (now now' : Int) (markFails : Bool)
    (u id : String) (s : Nat) (env : AttachEnv) (conn : Nat) (clientIP : String)
    (hload : env.loadFails = false) (hB : (w.heap s).Buffer.Data ≠ []) :
    (∃ tail,
      (HandleUnixTerminal
          (RemoveTerminalSession
            (MarkSessionInactive (SaveSessionToDatabase w now false u id s) now' markFails u id)
            u id)
          env conn clientIP id u).connSent conn =
        w.connSent conn ++
          [Frame.binary (w.heap s).Buffer.Data, Frame.binary historySentinel] ++ tail) ∧
    GetTerminalSession
      (HandleUnixTerminal
          (RemoveTerminalSession
            (MarkSessionInactive (SaveSessionToDatabase w now false u id s) now' markFails u id)
            u id)
          env conn clientIP id u) u id = some w.nextSession ∧
    ((HandleUnixTerminal
          (RemoveTerminalSession
            (MarkSessionInactive (SaveSessionToDatabase w now false u id s) now' markFails u id)
            u id)
          env conn clientIP id u).heap w.nextSession).Buffer.Data = (w.heap s).Buffer.Data := by
  set w0 := MarkSessionInactive (SaveSessionToDatabase w now false u id s) now' markFails u id
    with hw0
  set w1 := RemoveTerminalSession w0 u id with hw1
  have hget : GetTerminalSession w1 u id = none := by
    rw [hw1, Get_RemoveTerminalSession]; simp
  obtain ⟨hdb, hsent, hnext, hbuf⟩ := RemoveTerminalSession_frame w0 u id
  obtain ⟨a, ha⟩ := Load_Mark_Save w.db now now' markFails u id (w.heap s).Buffer.Data
  have hload1 : LoadTerminalSessionFromDB w1.db env.loadFails u id
      = (some (w.heap s).Buffer.Data, a, false) := by
    rw [hw1, hdb, hload]
    exact ha
  have hnext1 : w1.nextSession = w.nextSession := by rw [hw1, hnext]; rfl
  have hsent1 : w1.connSent = w.connSent := by rw [hw1, hsent]; rfl
  have hH : HandleUnixTerminal w1 env conn clientIP id u =
      attachSpawn (restoreOrCreate w1 env id u).1 env conn clientIP id u w.nextSession := by
    unfold HandleUnixTerminal
    rw [hget]
    simp [restoreOrCreate, hnext1]
  have hheap : ((restoreOrCreate w1 env id u).1.heap w.nextSession).Buffer.Data
      = (w.heap s).Buffer.Data := by
    simp [restoreOrCreate, hload1, SaveTerminalSession, hnext1, newSession]
  have hsent2 : (restoreOrCreate w1 env id u).1.connSent = w.connSent := by
    simp [restoreOrCreate, SaveTerminalSession, hsent1]
  rw [hH]
  refine ⟨?_, ?_, ?_⟩
  · obtain ⟨tail, ht⟩ := attachSpawn_sent (restoreOrCreate w1 env id u).1 env conn clientIP id u
      w.nextSession (by rw [hheap]; exact hB)
    exact ⟨tail, by rw [ht, hheap, hsent2]⟩
  · rw [Get_attachSpawn]
    simp [restoreOrCreate, Get_SaveTerminalSession, hnext1]
  · rw [attachSpawn_buffer, hheap]

/-- The statement of C9 (amended) at the session of `liveWorld`, hibernated
with buffer `x` and attached again by `c2`. -/
theorem restore_replays_hibernated_buffer_witness :
    (AttachEnv.ok 9).loadFails = false ∧ (liveWorld.heap 0).Buffer.Data ≠ [] ∧
    ∃ tail,
      (HandleUnixTerminal
          (RemoveTerminalSession
            (MarkSessionInactive (SaveSessionToDatabase liveWorld 5 false "u" "s3" 0)
              6 false "u" "s3")
            "u" "s3")
          (AttachEnv.ok 9) 1 "c2" "s3" "u").connSent 1 =
        liveWorld.connSent 1 ++
          [Frame.binary (liveWorld.heap 0).Buffer.Data, Frame.binary historySentinel] ++ tail :=
  ⟨rfl, by decide,
    (restore_replays_hibernated_buffer liveWorld 5 6 false "u" "s3" 0 (AttachEnv.ok 9) 1 "c2" rfl
      (by decide)).1⟩

/-- C9 as stated fails in two ways. A session hibernated with an empty
scroll-back and attached again is sent no frame at all, neither `B` nor the
sentinel; and when the load of the row fails, the session hibernated with
buffer `x` is created empty and nothing is replayed. -/
theorem restore_without_replay :
    ((HandleUnixTerminal (World.init []) (AttachEnv.ok 0) 0 "c1" "s3" "u").heap 0).Buffer.Data
      = [] ∧
    (HandleUnixTerminal
        (RemoveTerminalSession
          (SaveSessionToDatabase
            (HandleUnixTerminal (World.init []) (AttachEnv.ok 0) 0 "c1" "s3" "u")
            5 false "u" "s3" 0) "u" "s3")
        (AttachEnv.ok 9) 1 "c2" "s3" "u").connSent 1 = [] ∧
    (liveWorld.heap 0).Buffer.Data = [120] ∧
    (HandleUnixTerminal
        (RemoveTerminalSession (SaveSessionToDatabase liveWorld 5 false "u" "s3" 0) "u" "s3")
        { now := 9, loadFails := true, spawnError := none } 1 "c2" "s3" "u").connSent 1 = [] ∧
    ((HandleUnixTerminal
        (RemoveTerminalSession (SaveSessionToDatabase liveWorld 5 false "u" "s3" 0) "u" "s3")
        { now := 9, loadFails := true, spawnError := none } 1 "c2" "s3" "u").heap 1).Buffer.Data
      = [] := by
  decide

/-! ### Attach to a live session (C10) -/

/-- C10 (amended): when a client attaches to a session that is in the registry
with a PTY (or a shell) and a non-empty scroll-back, `HandleUnixTerminal`
sends that client exactly one frame, the current scroll-back; the sentinel is
not sent on this path. -/
theorem attach_live_sends_buffer_only (w : World) (env : AttachEnv) (conn : Nat)
    (clientIP id u : String) (s : Nat)
    (hreg : GetTerminalSession w u id = some s)
    (hlive : ((w.heap s).Ptmx.isSome || (w.heap s).Cmd.isSome) = true)
    (hB : (w.heap s).Buffer.Data ≠ []) :
    (HandleUnixTerminal w env conn clientIP id u).connSent conn =
      w.connSent conn ++ [Frame.binary (w.heap s).Buffer.Data] := by
  have hlen : (w.heap s).Buffer.Data.length > 0 := List.length_pos.mpr hB
  unfold HandleUnixTerminal
  rw [hreg]
  simp only [hlive, if_true]
  simp [attachExisting, addClient, touch, World.setSession, World.send, hlen]

/-- The statement of C10 (amended) at `liveWorld`, a second client `c2`
attaching. -/
theorem attach_live_sends_buffer_only_witness :
    GetTerminalSession liveWorld "u" "s3" = some 0 ∧
    (HandleUnixTerminal liveWorld (AttachEnv.ok 5) 1 "c2" "s3" "u").connSent 1 =
      liveWorld.connSent 1 ++ [Frame.binary (liveWorld.heap 0).Buffer.Data] :=
  ⟨by decide,
    attach_live_sends_buffer_only liveWorld (AttachEnv.ok 5) 1 "c2" "s3" "u" 0 (by decide)
      (by decide) (by decide)⟩

/-- C10 as stated fails: `liveWorld` has the session `(u, s3)` in the registry
with an open PTY and scroll-back `x`; a second client attaching is sent the
single frame `x`, not `x` followed by the sentinel. -/
theorem attach_live_sends_no_sentinel :
    GetTerminalSession liveWorld "u" "s3" = some 0 ∧
    ptyOpen liveWorld 0 = true ∧
    (liveWorld.heap 0).Buffer.Data = [120] ∧
    (HandleUnixTerminal liveWorld (AttachEnv.ok 5) 1 "c2" "s3" "u").connSent 1 =
      [Frame.binary [120]] ∧
    (HandleUnixTerminal liveWorld (AttachEnv.ok 5) 1 "c2" "s3" "u").connSent 1 ≠
      [Frame.binary [120], Frame.binary historySentinel] := by
  decide

/-! ### The registry invariant (C5) -/

theorem Inv.congr_pump {skip : Option Nat} {w w' : World} (h : Inv skip w)
    (hG : ∀ u id, GetTerminalSession w' u id = GetTerminalSession w u id)
    (hP : ∀ s, (w'.heap s).Ptmx = (w.heap s).Ptmx)
    (hC : ∀ s, (w'.heap s).Clients = (w.heap s).Clients)
    (hcl : w'.connClosed = w.connClosed)
    (hcf : w'.createdFor = w.createdFor)
    (hn : w'.nextSession = w.nextSession)
    (hK : ∀ s, (w'.heap s).Cmd ≠ none → (w.heap s).Cmd ≠ none)
    (hpm : ∀ p ∈ w'.clientPumps, (w'.heap p.session).Ptmx ≠ none ∧
      w'.createdFor p.session = (p.username, p.terminalID) ∧ p.session < w'.nextSession) :
    Inv skip w' where
  key := by
    intro u id s hg
    rw [hG] at hg
    rw [hcf, hn]
    exact h.key u id s hg
  regOpen := by
    intro u id s hg
    rw [hG] at hg
    rw [hP, hC, hcl]
    exact h.regOpen u id s hg
  regClient := by
    intro u id s hs hg
    rw [hG] at hg
    rw [hP, hC]
    exact h.regClient u id s hs hg
  unreg := by
    intro s hg
    rw [hG, hcf] at hg
    rw [hP, hC, hcl]
    exact h.unreg s hg
  uniq := by
    intro s s' e e' he he'
    rw [hC] at he he'
    exact h.uniq s s' e e' he he'
  pump := hpm
  cmdPty := by
    intro s hc
    rw [hP]
    exact h.cmdPty s (hK s hc)

theorem Inv.congr {skip : Option Nat} {w w' : World} (h : Inv skip w)
    (hG : ∀ u id, GetTerminalSession w' u id = GetTerminalSession w u id)
    (hP : ∀ s, (w'.heap s).Ptmx = (w.heap s).Ptmx)
    (hC : ∀ s, (w'.heap s).Clients = (w.heap s).Clients)
    (hcl : w'.connClosed = w.connClosed)
    (hcf : w'.createdFor = w.createdFor)
    (hn : w'.nextSession = w.nextSession)
    (hK : ∀ s, (w'.heap s).Cmd ≠ none → (w.heap s).Cmd ≠ none)
    (hpm : ∀ p ∈ w'.clientPumps, p ∈ w.clientPumps) :
    Inv skip w' :=
  h.congr_pump hG hP hC hcl hcf hn hK (fun p hp => by
    rw [hP, hcf, hn]
    exact h.pump p (hpm p hp))

/-- Tearing down the session registered under a key and deleting the entry. -/
theorem Inv.remove {w : World} (h : Inv none w) {u id : String} {s : Nat}
    (hg : GetTerminalSession w u id = some s) :
    Inv none (deleteEntry (closeSession w s) u id) := by
  have hcf : (deleteEntry (closeSession w s) u id).createdFor = w.createdFor := by
    rw [deleteEntry_eq, closeSession_eq]
  have hnx : (deleteEntry (closeSession w s) u id).nextSession = w.nextSession := by
    rw [deleteEntry_eq, closeSession_eq]
  have hpm : (deleteEntry (closeSession w s) u id).clientPumps = w.clientPumps := by
    rw [deleteEntry_eq, closeSession_eq]
  have hG : ∀ u' id', GetTerminalSession (deleteEntry (closeSession w s) u id) u' id' =
      if u = u' ∧ id = id' then none else GetTerminalSession w u' id' := by
    intro u' id'
    rw [Get_deleteEntry]
    have : GetTerminalSession (closeSession w s) u' id' = GetTerminalSession w u' id' := by
      rw [closeSession_eq]; rfl
    rw [this]
  have hheap : ∀ s', s' ≠ s → (deleteEntry (closeSession w s) u id).heap s' = w.heap s' := by
    intro s' hs'
    rw [deleteEntry_eq, closeSession_eq]
    simp [Function.update_noteq hs']
  have hheapP : ((deleteEntry (closeSession w s) u id).heap s).Ptmx =
      (w.heap s).Ptmx.map (fun p => { p with Closed := true }) := by
    rw [deleteEntry_eq, closeSession_eq]
    simp
  have hC : ∀ s', ((deleteEntry (closeSession w s) u id).heap s').Clients = (w.heap s').Clients := by
    intro s'
    by_cases hs' : s' = s
    · subst hs'
      rw [deleteEntry_eq, closeSession_eq]
      simp
    · rw [hheap s' hs']
  have hcl : ∀ k, (deleteEntry (closeSession w s) u id).connClosed k =
      (decide (k ∈ (w.heap s).Clients.map Prod.snd) || w.connClosed k) := by
    intro k
    rw [deleteEntry_eq, closeSession_eq]
  have hkey := h.key u id s hg
  -- a session registered elsewhere is not `s`
  have hne : ∀ u' id' s', ¬ (u = u' ∧ id = id') → GetTerminalSession w u' id' = some s' →
      s' ≠ s := by
    intro u' id' s' hk hg' hs
    subst hs
    have h1 := (h.key u' id' s' hg').1
    rw [hkey.1] at h1
    exact hk ⟨(Prod.mk.inj h1).1, (Prod.mk.inj h1).2⟩
  constructor
  · intro u' id' s' hg'
    rw [hG] at hg'
    split_ifs at hg' with hk
    rw [hcf, hnx]
    exact h.key u' id' s' hg'
  · intro u' id' s' hg'
    rw [hG] at hg'
    split_ifs at hg' with hk
    have hs' := hne u' id' s' hk hg'
    rw [hheap s' hs']
    refine ⟨(h.regOpen u' id' s' hg').1, ?_⟩
    intro e he
    rw [hcl]
    have hopen := (h.regOpen u' id' s' hg').2 e he
    rw [hopen]
    simp only [Bool.or_false, decide_eq_false_iff_not, List.mem_map, not_exists, not_and]
    intro e' he' heq
    exact hs' (h.uniq s' s e e' he he' heq.symm)
  · intro u' id' s' _ hg'
    rw [hG] at hg'
    split_ifs at hg' with hk
    have hs' := hne u' id' s' hk hg'
    rw [hheap s' hs']
    exact h.regClient u' id' s' (by simp) hg'
  · intro s' hg'
    rw [hcf, hG] at hg'
    by_cases hs' : s' = s
    · subst hs'
      refine ⟨?_, ?_⟩
      · intro p hp
        rw [hheapP] at hp
        cases hq : (w.heap s').Ptmx with
        | none => rw [hq] at hp; simp at hp
        | some q =>
          rw [hq] at hp
          simp only [Option.map_some', Option.some.injEq] at hp
          rw [← hp]
      · intro e he
        rw [hC] at he
        rw [hcl]
        have : e.2 ∈ (w.heap s').Clients.map Prod.snd := List.mem_map_of_mem _ he
        simp [this]
    · have hold : GetTerminalSession w (w.createdFor s').1 (w.createdFor s').2 ≠ some s' := by
        intro hcon
        split_ifs at hg' with hk
        · obtain ⟨h1, h2⟩ := hk
          rw [← h1, ← h2, hg] at hcon
          exact hs' (Option.some.inj hcon).symm
        · exact hg' hcon
      rw [hheap s' hs']
      refine ⟨(h.unreg s' hold).1, ?_⟩
      intro e he
      rw [hcl, (h.unreg s' hold).2 e he]
      simp
  · intro s1 s2 e e' he he'
    rw [hC] at he he'
    exact h.uniq s1 s2 e e' he he'
  · intro p hp
    rw [hpm] at hp
    obtain ⟨h1, h2, h3⟩ := h.pump p hp
    rw [hcf, hnx]
    refine ⟨?_, h2, h3⟩
    by_cases hs' : p.session = s
    · rw [hs', hheapP]
      rw [hs'] at h1
      cases hq : (w.heap s).Ptmx with
      | none => exact absurd hq h1
      | some q => simp
    · rw [hheap _ hs']
      exact h1
  · intro s' hc
    by_cases hs' : s' = s
    · subst hs'
      have hc' : (w.heap s').Cmd ≠ none := by
        rw [deleteEntry_eq, closeSession_eq] at hc
        simpa using hc
      have h1 := h.cmdPty s' hc'
      rw [hheapP]
      cases hq : (w.heap s').Ptmx with
      | none => exact absurd hq h1
      | some q => simp
    · rw [hheap s' hs'] at hc ⊢
      exact h.cmdPty s' hc

theorem mem_mdel {V : Type} {m : List (String × V)} {k : String} {e : String × V}
    (h : e ∈ mdel m k) : e ∈ m :=
  List.mem_of_mem_filter h

theorem mem_mset {V : Type} {m : List (String × V)} {k : String} {v : V} {e : String × V}
    (h : e ∈ mset m k v) : e = (k, v) ∨ e ∈ m := by
  rcases List.mem_cons.mp h with h1 | h1
  · exact Or.inl h1
  · exact Or.inr (mem_mdel h1)

/-- Adding a fresh connection to the client set of a registered session. -/
theorem Inv.add_client {skip : Option Nat} {w : World} (h : Inv skip w) {u id : String} {s : Nat}
    (hg : GetTerminalSession w u id = some s) (hskip : ∀ x, skip = some x → x = s)
    {conn : Nat} (hf : connFresh w conn) (clientIP : String) :
    Inv none (addClient w s clientIP conn) := by
  have hG : ∀ u' id', GetTerminalSession (addClient w s clientIP conn) u' id' =
      GetTerminalSession w u' id' := fun _ _ => rfl
  have hheap : ∀ s', s' ≠ s → (addClient w s clientIP conn).heap s' = w.heap s' := by
    intro s' hs'
    simp [addClient, World.setSession, Function.update_noteq hs']
  have hP : ∀ s', ((addClient w s clientIP conn).heap s').Ptmx = (w.heap s').Ptmx := by
    intro s'
    by_cases hs' : s' = s
    · subst hs'; simp [addClient, World.setSession]
    · rw [hheap s' hs']
  have hCs : ((addClient w s clientIP conn).heap s).Clients =
      mset (w.heap s).Clients clientIP conn := by
    simp [addClient, World.setSession]
  have hmem : ∀ s' e, e ∈ ((addClient w s clientIP conn).heap s').Clients →
      (s' = s ∧ e = (clientIP, conn)) ∨ e ∈ (w.heap s').Clients := by
    intro s' e he
    by_cases hs' : s' = s
    · subst hs'
      rw [hCs] at he
      rcases mem_mset he with h1 | h1
      · exact Or.inl ⟨rfl, h1⟩
      · exact Or.inr h1
    · rw [hheap s' hs'] at he
      exact Or.inr he
  constructor
  · intro u' id' s' hg'
    exact h.key u' id' s' hg'
  · intro u' id' s' hg'
    rw [hG] at hg'
    rw [hP]
    refine ⟨(h.regOpen u' id' s' hg').1, ?_⟩
    intro e he
    rcases hmem s' e he with ⟨_, h1⟩ | h1
    · rw [h1]; exact hf.1
    · exact (h.regOpen u' id' s' hg').2 e h1
  · intro u' id' s' _ hg' hnone
    rw [hG] at hg'
    rw [hP] at hnone
    by_cases hs' : s' = s
    · subst hs'
      rw [hCs]
      simp [mset]
    · rw [hheap s' hs']
      refine h.regClient u' id' s' ?_ hg' hnone
      intro hsk
      exact hs' (hskip s' hsk)
  · intro s' hg'
    have hs' : s' ≠ s := by
      intro hs
      subst hs
      apply hg'
      have := (h.key u id s' hg).1
      show GetTerminalSession w (w.createdFor s').1 (w.createdFor s').2 = some s'
      rw [this]
      exact hg
    rw [hheap s' hs']
    exact h.unreg s' hg'
  · intro s1 s2 e e' he he' heq
    rcases hmem s1 e he with ⟨h1, h1e⟩ | h1 <;> rcases hmem s2 e' he' with ⟨h2, h2e⟩ | h2
    · rw [h1, h2]
    · exfalso
      rw [h1e] at heq
      exact hf.2 s2 e' h2 heq.symm
    · exfalso
      rw [h2e] at heq
      exact hf.2 s1 e h1 heq
    · exact h.uniq s1 s2 e e' h1 h2 heq
  · intro p hp
    rw [hP]
    exact h.pump p hp
  · intro s' hc
    rw [hP]
    apply h.cmdPty s'
    by_cases hs' : s' = s
    · subst hs'
      simpa [addClient, World.setSession] using hc
    · rw [hheap s' hs'] at hc
      exact hc

/-- Storing a new open PTY in a registered session that has none. -/
theorem Inv.spawn_pty {w : World} (h : Inv none w) (s : Nat) (pty : Pty) (hpty : pty.Closed = false)
    (hreg : GetTerminalSession w (w.createdFor s).1 (w.createdFor s).2 = some s)
    (cmd : Option Process) :
    Inv none (w.setSession s { w.heap s with Ptmx := some pty, Cmd := cmd }) := by
  have hheap : ∀ s', s' ≠ s →
      (w.setSession s { w.heap s with Ptmx := some pty, Cmd := cmd }).heap s' = w.heap s' := by
    intro s' hs'
    simp [World.setSession, Function.update_noteq hs']
  have hs : (w.setSession s { w.heap s with Ptmx := some pty, Cmd := cmd }).heap s =
      { w.heap s with Ptmx := some pty, Cmd := cmd } := by
    simp [World.setSession]
  have hC : ∀ s', ((w.setSession s { w.heap s with Ptmx := some pty, Cmd := cmd }).heap s').Clients
      = (w.heap s').Clients := by
    intro s'
    by_cases hs' : s' = s
    · subst hs'; rw [hs]
    · rw [hheap s' hs']
  constructor
  · intro u' id' s' hg'
    exact h.key u' id' s' hg'
  · intro u' id' s' hg'
    have hg'' : GetTerminalSession w u' id' = some s' := hg'
    rw [hC]
    refine ⟨?_, (h.regOpen u' id' s' hg'').2⟩
    by_cases hs' : s' = s
    · subst hs'
      rw [hs]
      intro p hp
      simp only [Option.some.injEq] at hp
      rw [← hp]; exact hpty
    · rw [hheap s' hs']
      exact (h.regOpen u' id' s' hg'').1
  · intro u' id' s' _ hg' hnone
    have hg'' : GetTerminalSession w u' id' = some s' := hg'
    by_cases hs' : s' = s
    · subst hs'
      rw [hs] at hnone
      simp at hnone
    · rw [hheap s' hs'] at hnone ⊢
      exact h.regClient u' id' s' (by simp) hg'' hnone
  · intro s' hg'
    have hg'' : GetTerminalSession w (w.createdFor s').1 (w.createdFor s').2 ≠ some s' := hg'
    have hs' : s' ≠ s := by
      intro hs''
      subst hs''
      exact hg'' hreg
    rw [hheap s' hs']
    exact h.unreg s' hg''
  · intro s1 s2 e e' he he'
    rw [hC] at he he'
    exact h.uniq s1 s2 e e' he he'
  · intro p hp
    obtain ⟨h1, h2, h3⟩ := h.pump p hp
    refine ⟨?_, h2, h3⟩
    by_cases hs' : p.session = s
    · rw [hs', hs]; simp
    · rw [hheap _ hs']; exact h1
  · intro s' hc
    by_cases hs' : s' = s
    · subst hs'
      rw [hs]; simp
    · rw [hheap s' hs'] at hc ⊢
      exact h.cmdPty s' hc

/-- Deleting a client from the client set of a session that has a PTY. -/
theorem Inv.del_client {w : World} (h : Inv none w) (s : Nat) (hp : (w.heap s).Ptmx ≠ none)
    (clientIP : String) :
    Inv none (w.setSession s { w.heap s with Clients := mdel (w.heap s).Clients clientIP }) := by
  have hheap : ∀ s', s' ≠ s →
      (w.setSession s { w.heap s with Clients := mdel (w.heap s).Clients clientIP }).heap s'
        = w.heap s' := by
    intro s' hs'
    simp [World.setSession, Function.update_noteq hs']
  have hs : (w.setSession s { w.heap s with Clients := mdel (w.heap s).Clients clientIP }).heap s
      = { w.heap s with Clients := mdel (w.heap s).Clients clientIP } := by
    simp [World.setSession]
  have hP : ∀ s',
      ((w.setSession s { w.heap s with Clients := mdel (w.heap s).Clients clientIP }).heap s').Ptmx
        = (w.heap s').Ptmx := by
    intro s'
    by_cases hs' : s' = s
    · subst hs'; rw [hs]
    · rw [hheap s' hs']
  have hmem : ∀ s' e,
      e ∈ ((w.setSession s
        { w.heap s with Clients := mdel (w.heap s).Clients clientIP }).heap s').Clients →
      e ∈ (w.heap s').Clients := by
    intro s' e he
    by_cases hs' : s' = s
    · subst hs'
      rw [hs] at he
      exact mem_mdel he
    · rw [hheap s' hs'] at he
      exact he
  constructor
  · intro u' id' s' hg'
    exact h.key u' id' s' hg'
  · intro u' id' s' hg'
    have hg'' : GetTerminalSession w u' id' = some s' := hg'
    rw [hP]
    exact ⟨(h.regOpen u' id' s' hg'').1, fun e he => (h.regOpen u' id' s' hg'').2 e (hmem s' e he)⟩
  · intro u' id' s' _ hg' hnone
    have hg'' : GetTerminalSession w u' id' = some s' := hg'
    rw [hP] at hnone
    by_cases hs' : s' = s
    · subst hs'
      exact absurd hnone hp
    · rw [hheap s' hs']
      exact h.regClient u' id' s' (by simp) hg'' hnone
  · intro s' hg'
    have hg'' : GetTerminalSession w (w.createdFor s').1 (w.createdFor s').2 ≠ some s' := hg'
    rw [hP]
    exact ⟨(h.unreg s' hg'').1, fun e he => (h.unreg s' hg'').2 e (hmem s' e he)⟩
  · intro s1 s2 e e' he he'
    exact h.uniq s1 s2 e e' (hmem s1 e he) (hmem s2 e' he')
  · intro p hp'
    rw [hP]
    exact h.pump p hp'
  · intro s' hc
    rw [hP]
    apply h.cmdPty s'
    by_cases hs' : s' = s
    · subst hs'
      rw [hs] at hc
      exact hc
    · rw [hheap s' hs'] at hc
      exact hc

/-- Allocating and registering a new session under a key without entry. -/
theorem Inv.alloc {w : World} (h : Inv none w) {u id : String}
    (hg : GetTerminalSession w u id = none) (env : AttachEnv) :
    Inv (some w.nextSession) (restoreOrCreate w env id u).1 ∧
    (restoreOrCreate w env id u).2 = w.nextSession ∧
    GetTerminalSession (restoreOrCreate w env id u).1 u id = some w.nextSession ∧
    ((restoreOrCreate w env id u).1.heap w.nextSession).Ptmx = none ∧
    (restoreOrCreate w env id u).1.connClosed = w.connClosed ∧
    (∀ s, ∀ e ∈ ((restoreOrCreate w env id u).1.heap s).Clients, e ∈ (w.heap s).Clients) := by
  set w' := (restoreOrCreate w env id u).1 with hw'
  have hG : ∀ u' id', GetTerminalSession w' u' id' =
      if u = u' ∧ id = id' then some w.nextSession else GetTerminalSession w u' id' := by
    intro u' id'
    rw [hw']
    simp only [restoreOrCreate, Get_SaveTerminalSession]
    rfl
  obtain ⟨data, hheapN⟩ : ∃ data, w'.heap w.nextSession = newSession env.now data := by
    rw [hw']
    simp only [restoreOrCreate, SaveTerminalSession, Function.update_same]
    exact ⟨_, rfl⟩
  have hheap : ∀ s, s ≠ w.nextSession → w'.heap s = w.heap s := by
    intro s hs
    rw [hw']
    simp [restoreOrCreate, SaveTerminalSession, Function.update_noteq hs]
  have hcfN : w'.createdFor w.nextSession = (u, id) := by
    rw [hw']
    simp [restoreOrCreate, SaveTerminalSession]
  have hcf : ∀ s, s ≠ w.nextSession → w'.createdFor s = w.createdFor s := by
    intro s hs
    rw [hw']
    simp [restoreOrCreate, SaveTerminalSession, Function.update_noteq hs]
  have hcl : w'.connClosed = w.connClosed := by
    rw [hw']; simp [restoreOrCreate, SaveTerminalSession]
  have hnx : w'.nextSession = w.nextSession + 1 := by
    rw [hw']; simp [restoreOrCreate, SaveTerminalSession]
  have hpm : w'.clientPumps = w.clientPumps := by
    rw [hw']; simp [restoreOrCreate, SaveTerminalSession]
  have hmem : ∀ s, ∀ e ∈ (w'.heap s).Clients, e ∈ (w.heap s).Clients := by
    intro s e he
    by_cases hs : s = w.nextSession
    · subst hs
      rw [hheapN] at he
      simp [newSession] at he
    · rw [hheap s hs] at he
      exact he
  have hlt : ∀ u' id' s', GetTerminalSession w u' id' = some s' → s' ≠ w.nextSession := by
    intro u' id' s' hg'
    exact Nat.ne_of_lt (h.key u' id' s' hg').2
  refine ⟨?_, rfl, by rw [hG]; simp, by rw [hheapN]; rfl, hcl, hmem⟩
  constructor
  · intro u' id' s' hg'
    rw [hG] at hg'
    rw [hnx]
    split_ifs at hg' with hk
    · obtain ⟨rfl, rfl⟩ := hk
      have : s' = w.nextSession := (Option.some.inj hg').symm
      subst this
      exact ⟨hcfN, Nat.lt_succ_self _⟩
    · rw [hcf s' (hlt u' id' s' hg')]
      exact ⟨(h.key u' id' s' hg').1, Nat.lt_succ_of_lt (h.key u' id' s' hg').2⟩
  · intro u' id' s' hg'
    rw [hG] at hg'
    rw [hcl]
    split_ifs at hg' with hk
    · have : s' = w.nextSession := (Option.some.inj hg').symm
      subst this
      rw [hheapN]
      simp [newSession]
    · rw [hheap s' (hlt u' id' s' hg')]
      exact h.regOpen u' id' s' hg'
  · intro u' id' s' hsk hg' hnone
    rw [hG] at hg'
    split_ifs at hg' with hk
    · exact absurd (congrArg some (Option.some.inj hg')) hsk
    · rw [hheap s' (hlt u' id' s' hg')] at hnone ⊢
      exact h.regClient u' id' s' (by simp) hg' hnone
  · intro s' hg'
    rw [hG] at hg'
    rw [hcl]
    by_cases hs : s' = w.nextSession
    · subst hs
      rw [hcfN] at hg'
      simp at hg'
    · rw [hcf s' hs] at hg'
      rw [hheap s' hs]
      apply h.unreg s'
      intro hcon
      split_ifs at hg' with hk
      · obtain ⟨h1, h2⟩ := hk
        rw [← h1, ← h2, hg] at hcon
        exact Option.noConfusion hcon
      · exact hg' hcon
  · intro s1 s2 e e' he he'
    exact h.uniq s1 s2 e e' (hmem s1 e he) (hmem s2 e' he')
  · intro p hp
    rw [hpm] at hp
    obtain ⟨h1, h2, h3⟩ := h.pump p hp
    have hs : p.session ≠ w.nextSession := Nat.ne_of_lt h3
    rw [hheap _ hs, hcf _ hs, hnx]
    exact ⟨h1, h2, Nat.lt_succ_of_lt h3⟩
  · intro s' hc
    by_cases hs : s' = w.nextSession
    · subst hs
      rw [hheapN] at hc
      simp [newSession] at hc
    · rw [hheap s' hs] at hc ⊢
      exact h.cmdPty s' hc

theorem Inv.touch_inv {skip : Option Nat} {w : World} (h : Inv skip w) (s : Nat) (now : Int) :
    Inv skip (touch w s now) := by
  refine h.congr (fun _ _ => rfl) ?_ ?_ rfl rfl rfl ?_ (fun _ hp => hp)
  · intro s'
    by_cases hs : s' = s
    · subst hs; simp [touch, World.setSession]
    · simp [touch, World.setSession, Function.update_noteq hs]
  · intro s'
    by_cases hs : s' = s
    · subst hs; simp [touch, World.setSession]
    · simp [touch, World.setSession, Function.update_noteq hs]
  · intro s'
    by_cases hs : s' = s
    · subst hs; simp [touch, World.setSession]
    · simp [touch, World.setSession, Function.update_noteq hs]

theorem Inv.send_inv {skip : Option Nat} {w : World} (h : Inv skip w) (conn : Nat) (f : Frame) :
    Inv skip (w.send conn f) :=
  h.congr (fun _ _ => rfl) (fun _ => rfl) (fun _ => rfl) rfl rfl rfl (fun _ hc => hc)
    (fun _ hp => hp)

theorem Inv.db_inv {skip : Option Nat} {w : World} (h : Inv skip w) (db : List Row) :
    Inv skip { w with db := db } :=
  h.congr (fun _ _ => rfl) (fun _ => rfl) (fun _ => rfl) rfl rfl rfl (fun _ hc => hc)
    (fun _ hp => hp)

/-- The replay part of the attach paths: frames are sent, nothing else
changes. -/
theorem replay_fields (w : World) (c : Prop) [Decidable c] (w' : World)
    (hT : w'.TerminalSessions = w.TerminalSessions) (hh : w'.heap = w.heap)
    (hc : w'.connClosed = w.connClosed) (hcf : w'.createdFor = w.createdFor)
    (hn : w'.nextSession = w.nextSession) (hp : w'.clientPumps = w.clientPumps) :
    (if c then w' else w).TerminalSessions = w.TerminalSessions ∧
    (if c then w' else w).heap = w.heap ∧
    (if c then w' else w).connClosed = w.connClosed ∧
    (if c then w' else w).createdFor = w.createdFor ∧
    (if c then w' else w).nextSession = w.nextSession ∧
    (if c then w' else w).clientPumps = w.clientPumps := by
  split_ifs
  · exact ⟨hT, hh, hc, hcf, hn, hp⟩
  · exact ⟨rfl, rfl, rfl, rfl, rfl, rfl⟩

theorem Inv.attachSpawn_inv {skip : Option Nat} {w : World} (h : Inv skip w) {u id : String}
    {s : Nat} (hg : GetTerminalSession w u id = some s) (hskip : ∀ x, skip = some x → x = s)
    (hnone : (w.heap s).Ptmx = none) {conn : Nat} (hf : connFresh w conn)
    (env : AttachEnv) (clientIP : String) :
    Inv none (attachSpawn w env conn clientIP id u s) := by
  have h1 : Inv none (addClient w s clientIP conn) := h.add_client hg hskip hf clientIP
  have h2 := h1.touch_inv s env.now
  set w2 := touch (addClient w s clientIP conn) s env.now with hw2
  have hg2 : GetTerminalSession w2 u id = some s := hg
  have hcf2 : w2.createdFor = w.createdFor := rfl
  have hn2 : w2.nextSession = w.nextSession := rfl
  have hP2 : (w2.heap s).Ptmx = none := by
    rw [hw2]; simp [touch, addClient, World.setSession, hnone]
  obtain ⟨hT3, hh3, hc3, hcf3, hn3, hp3⟩ := replay_fields w2
    ((w2.heap s).Buffer.Data.length > 0)
    ((w2.send conn (Frame.binary (w2.heap s).Buffer.Data)).send conn (Frame.binary historySentinel))
    rfl rfl rfl rfl rfl rfl
  have h3 : Inv none (if (w2.heap s).Buffer.Data.length > 0 then
      (w2.send conn (Frame.binary (w2.heap s).Buffer.Data)).send conn
        (Frame.binary historySentinel) else w2) := by
    split_ifs
    · exact (h2.send_inv _ _).send_inv _ _
    · exact h2
  unfold attachSpawn
  simp only
  rw [← hw2]
  generalize (if (w2.heap s).Buffer.Data.length > 0 then
      (w2.send conn (Frame.binary (w2.heap s).Buffer.Data)).send conn
        (Frame.binary historySentinel) else w2) = w3 at hT3 hh3 hc3 hcf3 hn3 hp3 h3 ⊢
  have hg3 : GetTerminalSession w3 u id = some s := by
    unfold GetTerminalSession; rw [hT3]; exact hg2
  cases hsp : env.spawnError with
  | some err => exact h3.send_inv _ _
  | none =>
    simp only
    have hkey := h3.key u id s hg3
    have hreg : GetTerminalSession w3 (w3.createdFor s).1 (w3.createdFor s).2 = some s := by
      rw [hkey.1]; exact hg3
    have h4 := h3.spawn_pty s { Closed := false, Rows := 24, Cols := 80, Written := [] } rfl hreg
      (some { Signals := [] })
    refine h4.congr_pump (fun _ _ => rfl) (fun _ => rfl) (fun _ => rfl) rfl rfl rfl
      (fun _ hc => hc) ?_
    intro p hp
    simp only [List.mem_append, List.mem_singleton] at hp
    rcases hp with hp | hp
    · exact h4.pump p hp
    · subst hp
      refine ⟨?_, hkey.1, hkey.2⟩
      simp [World.setSession]

theorem Inv.attachExisting_inv {w : World} (h : Inv none w) {u id : String}
    {s : Nat} (hg : GetTerminalSession w u id = some s)
    (hsome : (w.heap s).Ptmx ≠ none) {conn : Nat} (hf : connFresh w conn)
    (env : AttachEnv) (clientIP : String) :
    Inv none (attachExisting w env conn clientIP id u s) := by
  have h1 : Inv none (addClient w s clientIP conn) :=
    h.add_client hg (fun x hx => by simp at hx) hf clientIP
  have h2 := h1.touch_inv s env.now
  set w2 := touch (addClient w s clientIP conn) s env.now with hw2
  have hg2 : GetTerminalSession w2 u id = some s := hg
  have hP2 : (w2.heap s).Ptmx ≠ none := by
    rw [hw2]
    simp only [touch, addClient, World.setSession, Function.update_same]
    exact hsome
  obtain ⟨hT3, hh3, hc3, hcf3, hn3, hp3⟩ := replay_fields w2
    ((w2.heap s).Buffer.Data.length > 0)
    (w2.send conn (Frame.binary (w2.heap s).Buffer.Data))
    rfl rfl rfl rfl rfl rfl
  have h3 : Inv none (if (w2.heap s).Buffer.Data.length > 0 then
      w2.send conn (Frame.binary (w2.heap s).Buffer.Data) else w2) := by
    split_ifs
    · exact h2.send_inv _ _
    · exact h2
  unfold attachExisting
  simp only
  rw [← hw2]
  generalize (if (w2.heap s).Buffer.Data.length > 0 then
      w2.send conn (Frame.binary (w2.heap s).Buffer.Data) else w2) = w3
    at hT3 hh3 hc3 hcf3 hn3 hp3 h3 ⊢
  have hg3 : GetTerminalSession w3 u id = some s := by
    unfold GetTerminalSession; rw [hT3]; exact hg2
  have hkey := h3.key u id s hg3
  refine h3.congr_pump (fun _ _ => rfl) (fun _ => rfl) (fun _ => rfl) rfl rfl rfl
    (fun _ hc => hc) ?_
  intro p hp
  simp only [List.mem_append, List.mem_singleton] at hp
  rcases hp with hp | hp
  · exact h3.pump p hp
  · subst hp
    refine ⟨?_, hkey.1, hkey.2⟩
    show (w3.heap s).Ptmx ≠ none
    rw [hh3]; exact hP2


theorem Inv.HandleUnixTerminal_inv {w : World} (h : Inv none w) {conn : Nat}
    (hf : connFresh w conn) (env : AttachEnv) (clientIP id u : String) :
    Inv none (HandleUnixTerminal w env conn clientIP id u) := by
  unfold HandleUnixTerminal
  cases hg : GetTerminalSession w u id with
  | some s =>
    simp only
    split_ifs with hc
    · have hsome : (w.heap s).Ptmx ≠ none := by
        cases hp : (w.heap s).Ptmx with
        | some p => simp
        | none =>
          rw [hp] at hc
          have hcmd : (w.heap s).Cmd ≠ none := by
            intro hcon
            rw [hcon] at hc
            simp at hc
          exact absurd hp (h.cmdPty s hcmd)
      exact h.attachExisting_inv hg hsome hf env clientIP
    · have hnone : (w.heap s).Ptmx = none := by
        cases hp : (w.heap s).Ptmx with
        | some p => rw [hp] at hc; simp at hc
        | none => rfl
      exact h.attachSpawn_inv hg (fun x hx => by simp at hx) hnone hf env clientIP
  | none =>
    simp only
    obtain ⟨h1, h2, h3, h4, h5, h6⟩ := h.alloc hg env
    have hf' : connFresh (restoreOrCreate w env id u).1 conn := by
      refine ⟨by rw [h5]; exact hf.1, ?_⟩
      intro s e he
      exact hf.2 s e (h6 s e he)
    have := h1.attachSpawn_inv h3 (fun x hx => (Option.some.inj hx).symm) h4 hf' env clientIP
    rw [h2]
    exact this

/-- Updating the signal log of the shell of a session. -/
theorem Inv.cmd_inv {skip : Option Nat} {w : World} (h : Inv skip w) (s : Nat) (proc : Process)
    (hc : (w.heap s).Cmd ≠ none) :
    Inv skip (w.setSession s { w.heap s with Cmd := some proc }) := by
  refine h.congr (fun _ _ => rfl) ?_ ?_ rfl rfl rfl ?_ (fun _ hp => hp)
  · intro s'
    by_cases hs : s' = s
    · subst hs; simp [World.setSession]
    · simp [World.setSession, Function.update_noteq hs]
  · intro s'
    by_cases hs : s' = s
    · subst hs; simp [World.setSession]
    · simp [World.setSession, Function.update_noteq hs]
  · intro s' hc'
    by_cases hs : s' = s
    · subst hs; exact hc
    · simpa [World.setSession, Function.update_noteq hs] using hc'

/-- Replacing the scroll-back of a session. -/
theorem Inv.buffer_inv {skip : Option Nat} {w : World} (h : Inv skip w) (s : Nat)
    (b : OutputBuffer) :
    Inv skip (w.setSession s { w.heap s with Buffer := b }) := by
  refine h.congr (fun _ _ => rfl) ?_ ?_ rfl rfl rfl ?_ (fun _ hp => hp)
  · intro s'
    by_cases hs : s' = s
    · subst hs; simp [World.setSession]
    · simp [World.setSession, Function.update_noteq hs]
  · intro s'
    by_cases hs : s' = s
    · subst hs; simp [World.setSession]
    · simp [World.setSession, Function.update_noteq hs]
  · intro s' hc'
    by_cases hs : s' = s
    · subst hs; simpa [World.setSession] using hc'
    · simpa [World.setSession, Function.update_noteq hs] using hc'

theorem Inv.sendAll_inv {skip : Option Nat} (f : Frame) (cl : List (String × Nat)) :
    ∀ w : World, Inv skip w → Inv skip (cl.foldl (fun acc e => acc.send e.2 f) w) := by
  induction cl with
  | nil => intro w h; exact h
  | cons e rest ih =>
    intro w h
    rw [List.foldl_cons]
    exact ih _ (h.send_inv _ _)

theorem Inv.ptyOutput_inv {w : World} (h : Inv none w) (s : Nat) (terminalID : String)
    (chunk : List Byte) : Inv none (ptyOutput w s terminalID chunk) := by
  unfold ptyOutput
  exact Inv.sendAll_inv _ _ _ (h.buffer_inv s _)

theorem Inv.ptyReadError_inv {w : World} (h : Inv none w) (s : Nat) :
    Inv none (ptyReadError w s) :=
  h.congr (fun _ _ => rfl) (fun _ => rfl) (fun _ => rfl) rfl rfl rfl (fun _ hc => hc)
    (fun _ hp => hp)

theorem Inv.clientReadError_inv {w : World} (h : Inv none w) (now : Int) (saveFails : Bool)
    {p : ClientPump} (hp : p ∈ w.clientPumps) :
    Inv none (clientReadError w now saveFails p) := by
  have h1 := h.del_client p.session (h.pump p hp).1 p.clientIP
  unfold clientReadError
  simp only
  refine Inv.congr (w := if _ then _ else _) ?_ (fun _ _ => rfl) (fun _ => rfl) (fun _ => rfl)
    rfl rfl rfl (fun _ hc => hc) ?_
  · split_ifs
    · exact h1.db_inv _
    · exact h1
  · intro q hq
    exact List.mem_of_mem_erase hq

theorem Inv.RemoveTerminalSession_inv {w : World} (h : Inv none w) (u id : String) :
    Inv none (RemoveTerminalSession w u id) := by
  cases hg : GetTerminalSession w u id with
  | some s =>
    have : RemoveTerminalSession w u id = deleteEntry (closeSession w s) u id := by
      unfold RemoveTerminalSession
      unfold GetTerminalSession at hg
      cases h1 : mget w.TerminalSessions u with
      | none => rw [h1] at hg; simp at hg
      | some sessions =>
        rw [h1] at hg
        simp only at hg
        simp only [hg]
    rw [this]
    exact h.remove hg
  | none =>
    refine h.congr ?_ ?_ ?_ ?_ ?_ ?_ ?_ ?_
    · intro u' id'
      rw [Get_RemoveTerminalSession]
      split_ifs with hk
      · obtain ⟨rfl, rfl⟩ := hk
        exact hg.symm
      · rfl
    all_goals
      unfold RemoveTerminalSession
      unfold GetTerminalSession at hg
      cases h1 : mget w.TerminalSessions u with
      | none => simp
      | some sessions =>
        rw [h1] at hg
        simp only at hg
        simp [hg, deleteEntry_eq]

theorem Inv.clientClose_inv {w : World} (h : Inv none w) (env : CloseEnv)
    {p : ClientPump} (hp : p ∈ w.clientPumps) :
    Inv none (clientClose w env p) := by
  have h1 := h.del_client p.session (h.pump p hp).1 p.clientIP
  unfold clientClose
  simp only
  refine Inv.congr (w := if _ then _ else _) ?_ (fun _ _ => rfl) (fun _ => rfl) (fun _ => rfl)
    rfl rfl rfl (fun _ hc => hc) ?_
  · split_ifs
    · apply Inv.RemoveTerminalSession_inv
      apply Inv.db_inv
      have h3 := h1.db_inv (SaveTerminalSessionToDB
        (w.setSession p.session
          { w.heap p.session with Clients := mdel (w.heap p.session).Clients p.clientIP }).db
        env.now env.saveFails p.username p.terminalID
        (some ((w.setSession p.session
          { w.heap p.session with
            Clients := mdel (w.heap p.session).Clients p.clientIP }).heap
              p.session).Buffer.Data)).1
      unfold SaveSessionToDatabase
      simp only
      split
      · rename_i proc hproc
        refine h3.cmd_inv p.session _ ?_
        rw [hproc]; simp
      · exact h3
    · exact h1
  · intro q hq
    exact List.mem_of_mem_erase hq

theorem Inv.killTeardown_inv {w : World} (h : Inv none w) (env : KillEnv) {u id : String}
    {s : Nat} (hg : GetTerminalSession w u id = some s) :
    Inv none (killTeardown w env u id s).1 := by
  unfold killTeardown
  simp only
  exact (h.db_inv _).remove hg

theorem Inv.KillTerminalSession_inv {w : World} (h : Inv none w) (env : KillEnv)
    (u id : String) : Inv none (KillTerminalSession w env u id).1 := by
  unfold KillTerminalSession
  cases h1 : mget w.TerminalSessions u with
  | none => exact h
  | some sessions =>
    simp only
    cases h2 : mget sessions id with
    | none => exact h
    | some s =>
      have hg : GetTerminalSession w u id = some s := by
        unfold GetTerminalSession; rw [h1]; exact h2
      simp only
      cases h3 : (w.heap s).Cmd with
      | none => exact h.killTeardown_inv env hg
      | some proc =>
        simp only
        have hc : (w.heap s).Cmd ≠ none := by rw [h3]; simp
        split_ifs
        · exact h
        · exact (h.cmd_inv s _ hc).killTeardown_inv env hg
        · exact (h.cmd_inv s _ hc).killTeardown_inv env hg

theorem Inv.cleanSessions_inv (env : CleanEnv) (u : String) (l : List (String × Nat)) :
    ∀ w : World, Inv none w → Inv none (cleanSessions env u w l) := by
  induction l with
  | nil => intro w h; exact h
  | cons e rest ih =>
    intro w h
    obtain ⟨id, s⟩ := e
    unfold cleanSessions
    apply ih
    simp only
    split_ifs with hc
    · exact ((h.db_inv _).db_inv _).remove hc.1
    · exact h

theorem Inv.cleanUsers_inv (env : CleanEnv) (l : List (String × List (String × Nat))) :
    ∀ w : World, Inv none w → Inv none (cleanUsers env w l) := by
  induction l with
  | nil => intro w h; exact h
  | cons e rest ih =>
    intro w h
    obtain ⟨u, ss⟩ := e
    unfold cleanUsers
    cases h1 : mget w.TerminalSessions u with
    | none => exact ih w h
    | some sessions =>
      simp only
      apply ih
      have h2 := Inv.cleanSessions_inv env u sessions w h
      split_ifs with hlen
      · refine h2.congr ?_ (fun _ => rfl) (fun _ => rfl) rfl rfl rfl (fun _ hc => hc)
          (fun _ hp => hp)
        intro u' id'
        unfold GetTerminalSession
        simp only [mget_mdel]
        split_ifs with hu
        · subst hu
          cases h3 : mget (cleanSessions env u w sessions).TerminalSessions u with
          | none => rfl
          | some inner =>
            rw [h3] at hlen
            simp only [Option.getD_some, List.length_eq_zero] at hlen
            subst hlen
            rfl
        · rfl
      · exact h2

theorem Inv.CleanInactiveSessions_inv {w : World} (h : Inv none w) (env : CleanEnv) :
    Inv none (CleanInactiveSessions w env) := by
  unfold CleanInactiveSessions
  exact (Inv.cleanUsers_inv env _ w h).db_inv _

theorem Inv.init_inv (db : List Row) : Inv none (World.init db) where
  key := by intro u id s hg; simp [World.init, GetTerminalSession, mget] at hg
  regOpen := by intro u id s hg; simp [World.init, GetTerminalSession, mget] at hg
  regClient := by intro u id s _ hg; simp [World.init, GetTerminalSession, mget] at hg
  unreg := by intro s _; simp [World.init, newSession]
  uniq := by intro s s' e e' he; simp [World.init, newSession] at he
  pump := by intro p hp; simp [World.init] at hp
  cmdPty := by intro s hc; simp [World.init, newSession] at hc

theorem Reachable.inv {w : World} (h : Reachable w) : Inv none w := by
  induction h with
  | init db => exact Inv.init_inv db
  | attach w env conn clientIP terminalID username _ hf ih =>
    exact ih.HandleUnixTerminal_inv hf env clientIP terminalID username
  | output w s chunk _ _ ih => exact ih.ptyOutput_inv s _ chunk
  | ptyEnd w s _ _ ih => exact ih.ptyReadError_inv s
  | detach w now saveFails p _ hp ih => exact ih.clientReadError_inv now saveFails hp
  | close w env p _ hp ih => exact ih.clientClose_inv env hp
  | clean w env _ ih => exact ih.CleanInactiveSessions_inv env
  | kill w env username terminalID _ ih => exact ih.KillTerminalSession_inv env username terminalID
  | remove w username terminalID _ ih => exact ih.RemoveTerminalSession_inv username terminalID

/-! ### The registry and the live sessions -/

theorem liveWorld_reachable : Reachable liveWorld := by
  have h0 : Reachable (World.init []) := Reachable.init []
  have hf : connFresh (World.init []) 0 := by
    refine ⟨rfl, ?_⟩
    intro s e he
    simp [World.init, newSession] at he
  have h1 := Reachable.attach (World.init []) (AttachEnv.ok 0) 0 "c1" "s3" "u" h0 hf
  exact Reachable.output _ 0 [120] h1 (by decide)

/-- C5 (amended): in every reachable state a session is the registry's entry
for its key exactly when its PTY is not closed or its client set holds a
connection that is not closed; and every registry entry points to a session
created under that key. -/
theorem registry_iff_pty_or_open_client (w : World) (h : Reachable w) :
    (∀ u id s, GetTerminalSession w u id = some s → w.createdFor s = (u, id)) ∧
    ∀ s, registered w s = true ↔ (ptyOpen w s = true ∨ hasOpenClient w s = true) := by
  have hinv := h.inv
  refine ⟨fun u id s hg => (hinv.key u id s hg).1, ?_⟩
  intro s
  constructor
  · intro hreg
    have hg : GetTerminalSession w (w.createdFor s).1 (w.createdFor s).2 = some s := by
      simpa [registered] using hreg
    obtain ⟨hp, hc⟩ := hinv.regOpen _ _ s hg
    cases hP : (w.heap s).Ptmx with
    | some p =>
      left
      simp [ptyOpen, hP, hp p hP]
    | none =>
      right
      have hne := hinv.regClient _ _ s (by simp) hg hP
      obtain ⟨e, he⟩ := List.exists_mem_of_ne_nil _ hne
      simp only [hasOpenClient, List.any_eq_true]
      exact ⟨e, he, by simp [hc e he]⟩
  · intro hlive
    by_contra hreg
    have hg : GetTerminalSession w (w.createdFor s).1 (w.createdFor s).2 ≠ some s := by
      simpa [registered] using hreg
    obtain ⟨hp, hc⟩ := hinv.unreg s hg
    rcases hlive with hl | hl
    · cases hP : (w.heap s).Ptmx with
      | some p => simp [ptyOpen, hP, hp p hP] at hl
      | none => simp [ptyOpen, hP] at hl
    · simp only [hasOpenClient, List.any_eq_true] at hl
      obtain ⟨e, he, hopen⟩ := hl
      simp [hc e he] at hopen

/-- The statement of C5 (amended) at `liveWorld` and its session 0. -/
theorem registry_iff_pty_or_open_client_witness :
    Reachable liveWorld ∧
    (registered liveWorld 0 = true ↔
      (ptyOpen liveWorld 0 = true ∨ hasOpenClient liveWorld 0 = true)) :=
  ⟨liveWorld_reachable, (registry_iff_pty_or_open_client liveWorld liveWorld_reachable).2 0⟩

/-- C5 as stated fails: after `KillTerminalSession` on `liveWorld` (a reachable
state) the session is no longer in the registry and its PTY is closed, but
its client set still holds `c1`, whose connection was closed and not removed:
"in the registry iff open PTY or at least one attached client" is false. -/
theorem killed_session_keeps_client :
    Reachable (KillTerminalSession liveWorld KillEnv.ok "u" "s3").1 ∧
    GetTerminalSession (KillTerminalSession liveWorld KillEnv.ok "u" "s3").1 "u" "s3" = none ∧
    ((KillTerminalSession liveWorld KillEnv.ok "u" "s3").1.heap 0).Clients = [("c1", 0)] ∧
    ¬ (registered (KillTerminalSession liveWorld KillEnv.ok "u" "s3").1 0 = true ↔
        (ptyOpen (KillTerminalSession liveWorld KillEnv.ok "u" "s3").1 0 = true ∨
          hasClient (KillTerminalSession liveWorld KillEnv.ok "u" "s3").1 0 = true)) :=
  ⟨Reachable.kill liveWorld KillEnv.ok "u" "s3" liveWorld_reachable, by decide, by decide,
    by decide⟩

/-! ### The reaper: which sessions are removed (C12) -/

theorem cleanSessions_cons (env : CleanEnv) (u : String) (w : World) (id : String) (s : Nat)
    (rest : List (String × Nat)) :
    cleanSessions env u w ((id, s) :: rest) =
      cleanSessions env u
        (if GetTerminalSession w u id = some s ∧ idleAt env.now w s = true then
          reapSession w env u id s else w) rest := by
  rw [cleanSessions]
  simp only [idleAt, decide_eq_true_eq, reapSession]

theorem reapSession_Get (w : World) (env : CleanEnv) (u id : String) (s : Nat) (a b : String) :
    GetTerminalSession (reapSession w env u id s) a b =
      if u = a ∧ id = b then none else GetTerminalSession w a b := by
  unfold reapSession
  rw [Get_deleteEntry]
  have : ∀ w' : World, GetTerminalSession (closeSession w' s) a b = GetTerminalSession w' a b := by
    intro w'; rw [closeSession_eq]; rfl
  rw [this]
  rfl

theorem reapSession_heap (w : World) (env : CleanEnv) (u id : String) (s s' : Nat) :
    (reapSession w env u id s).heap s' =
      if s' = s then
        { w.heap s with
          Ptmx := (w.heap s).Ptmx.map (fun p => { p with Closed := true }),
          Done := (w.heap s).Done + 1 }
      else w.heap s' := by
  unfold reapSession
  rw [deleteEntry_eq, closeSession_eq]
  simp only [MarkSessionInactive, SaveSessionToDatabase]
  by_cases h : s' = s
  · subst h; simp
  · simp [h, Function.update_noteq h]

theorem reapSession_idleAt (w : World) (env : CleanEnv) (u id : String) (s s' : Nat) (now : Int) :
    idleAt now (reapSession w env u id s) s' = idleAt now w s' := by
  unfold idleAt
  rw [reapSession_heap]
  by_cases h : s' = s
  · subst h; simp
  · simp [h]

theorem reapSession_nextSession (w : World) (env : CleanEnv) (u id : String) (s : Nat) :
    (reapSession w env u id s).nextSession = w.nextSession := by
  unfold reapSession
  rw [deleteEntry_eq, closeSession_eq]
  rfl

/-- The inner loop of the reaper: the registry afterwards. -/
theorem cleanSessions_Get (env : CleanEnv) (u : String) (l : List (String × Nat)) :
    ∀ (w : World) (a b : String),
      GetTerminalSession (cleanSessions env u w l) a b =
        if a = u ∧ ∃ s, GetTerminalSession w u b = some s ∧ idleAt env.now w s = true ∧
            (b, s) ∈ l then none
        else GetTerminalSession w a b := by
  induction l with
  | nil => intro w a b; simp [cleanSessions]
  | cons e rest ih =>
    intro w a b
    obtain ⟨id0, s0⟩ := e
    rw [cleanSessions_cons, ih]
    by_cases hc : GetTerminalSession w u id0 = some s0 ∧ idleAt env.now w s0 = true
    · rw [if_pos hc]
      simp only [reapSession_Get, reapSession_idleAt]
      by_cases ha : a = u
      · subst ha
        by_cases hb : id0 = b
        · subst hb
          have h1 : ∃ s, GetTerminalSession w a id0 = some s ∧ idleAt env.now w s = true ∧
              (id0, s) ∈ (id0, s0) :: rest := ⟨s0, hc.1, hc.2, List.mem_cons_self _ _⟩
          have h1' : ∃ s, GetTerminalSession w a id0 = some s ∧ idleAt env.now w s = true ∧
              (s = s0 ∨ (id0, s) ∈ rest) := ⟨s0, hc.1, hc.2, Or.inl rfl⟩
          simp [h1']
        · have hiff : (∃ s, GetTerminalSession w a b = some s ∧ idleAt env.now w s = true ∧
              (b, s) ∈ rest) ↔ (∃ s, GetTerminalSession w a b = some s ∧
                idleAt env.now w s = true ∧ (b, s) ∈ (id0, s0) :: rest) := by
            constructor
            · rintro ⟨s, h1, h2, h3⟩
              exact ⟨s, h1, h2, List.mem_cons_of_mem _ h3⟩
            · rintro ⟨s, h1, h2, h3⟩
              rcases List.mem_cons.mp h3 with h4 | h4
              · exact absurd (Prod.mk.inj h4).1.symm hb
              · exact ⟨s, h1, h2, h4⟩
          simp only [hb, and_false, if_false, true_and]
          by_cases hex : ∃ s, GetTerminalSession w a b = some s ∧ idleAt env.now w s = true ∧
              (b, s) ∈ rest
          · rw [if_pos hex, if_pos (hiff.mp hex)]
          · rw [if_neg hex, if_neg (fun h => hex (hiff.mpr h))]
      · have hne : ¬ (u = a ∧ id0 = b) := fun h => ha h.1.symm
        simp [ha, hne]
    · rw [if_neg hc]
      by_cases ha : a = u
      · subst ha
        have hiff : (∃ s, GetTerminalSession w a b = some s ∧ idleAt env.now w s = true ∧
            (b, s) ∈ rest) ↔ (∃ s, GetTerminalSession w a b = some s ∧
              idleAt env.now w s = true ∧ (b, s) ∈ (id0, s0) :: rest) := by
          constructor
          · rintro ⟨s, h1, h2, h3⟩
            exact ⟨s, h1, h2, List.mem_cons_of_mem _ h3⟩
          · rintro ⟨s, h1, h2, h3⟩
            rcases List.mem_cons.mp h3 with h4 | h4
            · exfalso
              obtain ⟨hb, hs⟩ := Prod.mk.inj h4
              subst hb; subst hs
              exact hc ⟨h1, h2⟩
            · exact ⟨s, h1, h2, h4⟩
        simp only [true_and]
        by_cases hex : ∃ s, GetTerminalSession w a b = some s ∧ idleAt env.now w s = true ∧
            (b, s) ∈ rest
        · rw [if_pos hex, if_pos (hiff.mp hex)]
        · rw [if_neg hex, if_neg (fun h => hex (hiff.mpr h))]
      · simp [ha]

theorem mget_mem {V : Type} {m : List (String × V)} {k : String} {v : V}
    (h : mget m k = some v) : (k, v) ∈ m := by
  induction m with
  | nil => simp [mget] at h
  | cons e rest ih =>
    obtain ⟨a, x⟩ := e
    simp only [mget] at h
    split_ifs at h with hk
    · subst hk
      rw [Option.some.inj h]
      exact List.mem_cons_self _ _
    · exact List.mem_cons_of_mem _ (ih h)

theorem mget_isSome_mem_keys {V : Type} {m : List (String × V)} {k : String} {v : V}
    (h : mget m k = some v) : k ∈ m.map Prod.fst :=
  List.mem_map.mpr ⟨(k, v), mget_mem h, rfl⟩

/-- The reaper's inner loop changes no session it does not reap, and no
`LastActive`. -/
theorem cleanSessions_heap (env : CleanEnv) (u : String) (l : List (String × Nat)) :
    ∀ (w : World),
      (∀ s, idleAt env.now (cleanSessions env u w l) s = idleAt env.now w s) ∧
      (∀ s, idleAt env.now w s = false → (cleanSessions env u w l).heap s = w.heap s) ∧
      (cleanSessions env u w l).nextSession = w.nextSession := by
  induction l with
  | nil => intro w; simp [cleanSessions]
  | cons e rest ih =>
    intro w
    obtain ⟨id0, s0⟩ := e
    rw [cleanSessions_cons]
    obtain ⟨h1, h2, h3⟩ := ih (if GetTerminalSession w u id0 = some s0 ∧
      idleAt env.now w s0 = true then reapSession w env u id0 s0 else w)
    by_cases hc : GetTerminalSession w u id0 = some s0 ∧ idleAt env.now w s0 = true
    · rw [if_pos hc] at h1 h2 h3 ⊢
      refine ⟨fun s => by rw [h1, reapSession_idleAt], ?_, by rw [h3, reapSession_nextSession]⟩
      intro s hs
      rw [h2 s (by rw [reapSession_idleAt]; exact hs), reapSession_heap]
      have : s ≠ s0 := by
        intro h; subst h; rw [hc.2] at hs; exact Bool.noConfusion hs
      simp [this]
    · rw [if_neg hc] at h1 h2 h3 ⊢
      exact ⟨h1, h2, h3⟩

/-- Deleting a user's empty map does not change any lookup. -/
theorem Get_dropEmpty (w : World) (u : String)
    (hlen : ((mget w.TerminalSessions u).getD []).length = 0) (a b : String) :
    GetTerminalSession { w with TerminalSessions := mdel w.TerminalSessions u } a b =
      GetTerminalSession w a b := by
  unfold GetTerminalSession
  simp only [mget_mdel]
  split_ifs with hu
  · subst hu
    cases h3 : mget w.TerminalSessions u with
    | none => rfl
    | some inner =>
      rw [h3] at hlen
      simp only [Option.getD_some, List.length_eq_zero] at hlen
      subst hlen
      rfl
  · rfl

theorem cleanUsers_cons (env : CleanEnv) (w : World) (u0 : String) (x : List (String × Nat))
    (rest : List (String × List (String × Nat))) :
    cleanUsers env w ((u0, x) :: rest) =
      match mget w.TerminalSessions u0 with
      | none => cleanUsers env w rest
      | some sessions =>
        cleanUsers env
          (if ((mget (cleanSessions env u0 w sessions).TerminalSessions u0).getD []).length = 0
            then { cleanSessions env u0 w sessions with
              TerminalSessions := mdel (cleanSessions env u0 w sessions).TerminalSessions u0 }
            else cleanSessions env u0 w sessions) rest := by
  conv_lhs => unfold cleanUsers

/-- The reaper's outer loop: the registry and the sessions afterwards. -/
theorem cleanUsers_spec (env : CleanEnv) (L : List (String × List (String × Nat))) :
    ∀ (w : World),
      (∀ a b, GetTerminalSession (cleanUsers env w L) a b =
        if a ∈ L.map Prod.fst ∧ ∃ s, GetTerminalSession w a b = some s ∧
            idleAt env.now w s = true then none
        else GetTerminalSession w a b) ∧
      (∀ s, idleAt env.now (cleanUsers env w L) s = idleAt env.now w s) ∧
      (∀ s, idleAt env.now w s = false → (cleanUsers env w L).heap s = w.heap s) ∧
      (cleanUsers env w L).nextSession = w.nextSession := by
  induction L with
  | nil => intro w; simp [cleanUsers]
  | cons e rest ih =>
    intro w
    obtain ⟨u0, x⟩ := e
    rw [cleanUsers_cons]
    cases hm : mget w.TerminalSessions u0 with
    | none =>
      simp only
      obtain ⟨h1, h2, h3, h4⟩ := ih w
      refine ⟨?_, h2, h3, h4⟩
      intro a b
      rw [h1]
      by_cases ha : a = u0
      · subst ha
        have hG : GetTerminalSession w a b = none := by
          unfold GetTerminalSession; rw [hm]
        simp [hG]
      · exact if_congr (by simp [ha]) rfl rfl
    | some sessions =>
      simp only
      obtain ⟨hi1, hh1, hn1⟩ := cleanSessions_heap env u0 sessions w
      have hG1 := cleanSessions_Get env u0 sessions w
      -- the world after the inner loop and the deletion of an empty map
      obtain ⟨w2, hw2, hG2, hheap2, hnext2⟩ : ∃ w2 : World,
          w2 = (if ((mget (cleanSessions env u0 w sessions).TerminalSessions u0).getD []).length = 0
            then { cleanSessions env u0 w sessions with
              TerminalSessions := mdel (cleanSessions env u0 w sessions).TerminalSessions u0 }
            else cleanSessions env u0 w sessions) ∧
          (∀ a b, GetTerminalSession w2 a b =
            GetTerminalSession (cleanSessions env u0 w sessions) a b) ∧
          w2.heap = (cleanSessions env u0 w sessions).heap ∧
          w2.nextSession = (cleanSessions env u0 w sessions).nextSession := by
        refine ⟨_, rfl, ?_, ?_, ?_⟩
        · intro a b
          split_ifs with hlen
          · exact Get_dropEmpty _ u0 hlen a b
          · rfl
        · split_ifs <;> rfl
        · split_ifs <;> rfl
      rw [← hw2]
      have hi2 : ∀ s, idleAt env.now w2 s = idleAt env.now w s := by
        intro s
        have : idleAt env.now w2 s = idleAt env.now (cleanSessions env u0 w sessions) s := by
          unfold idleAt; rw [hheap2]
        rw [this, hi1]
      obtain ⟨h1, h2, h3, h4⟩ := ih w2
      refine ⟨?_, fun s => by rw [h2, hi2], ?_, by rw [h4, hnext2, hn1]⟩
      · intro a b
        rw [h1]
        simp only [hG2, hG1, hi2]
        have hmem : ∀ s, GetTerminalSession w u0 b = some s → (b, s) ∈ sessions := by
          intro s hs
          unfold GetTerminalSession at hs
          rw [hm] at hs
          exact mget_mem hs
        by_cases hex : ∃ s, GetTerminalSession w a b = some s ∧ idleAt env.now w s = true
        · by_cases ha : a = u0
          · subst ha
            obtain ⟨s, hs1, hs2⟩ := hex
            have hin : ∃ s, GetTerminalSession w a b = some s ∧ idleAt env.now w s = true ∧
                (b, s) ∈ sessions := ⟨s, hs1, hs2, hmem s hs1⟩
            have hex' : ∃ s, GetTerminalSession w a b = some s ∧ idleAt env.now w s = true :=
              ⟨s, hs1, hs2⟩
            simp [hin, hex']
          · have hinner : ¬ (a = u0 ∧ ∃ s, GetTerminalSession w u0 b = some s ∧
                idleAt env.now w s = true ∧ (b, s) ∈ sessions) := fun h => ha h.1
            simp only [if_neg hinner]
            exact if_congr (by simp [ha]) rfl rfl
        · have hinner : ¬ (a = u0 ∧ ∃ s, GetTerminalSession w u0 b = some s ∧
              idleAt env.now w s = true ∧ (b, s) ∈ sessions) := by
            rintro ⟨rfl, s, hs1, hs2, _⟩
            exact hex ⟨s, hs1, hs2⟩
          simp only [if_neg hinner]
          rw [if_neg (fun h => hex h.2), if_neg (fun h => hex h.2)]
      · intro s hs
        rw [h3 s (by rw [hi2]; exact hs), hheap2, hh1 s hs]

theorem CleanInactiveSessions_Get (w : World) (env : CleanEnv) (u id : String) :
    GetTerminalSession (CleanInactiveSessions w env) u id =
      if ∃ s, GetTerminalSession w u id = some s ∧ idleAt env.now w s = true then none
      else GetTerminalSession w u id := by
  have h := (cleanUsers_spec env w.TerminalSessions w).1 u id
  have hG : GetTerminalSession (CleanInactiveSessions w env) u id =
      GetTerminalSession (cleanUsers env w w.TerminalSessions) u id := rfl
  rw [hG, h]
  refine if_congr ?_ rfl rfl
  constructor
  · exact fun hh => hh.2
  · rintro ⟨s, hs1, hs2⟩
    refine ⟨?_, s, hs1, hs2⟩
    unfold GetTerminalSession at hs1
    cases hm : mget w.TerminalSessions u with
    | none => rw [hm] at hs1; simp at hs1
    | some sessions => exact mget_isSome_mem_keys hm

/-- C12: `CleanInactiveSessions` removes from the registry exactly the
sessions idle for strictly more than thirty minutes. An entry whose session
has `now - LastActive > 30 min` is gone afterwards; an entry whose session has
`now - LastActive ≤ 30 min` (thirty minutes exactly included) is still there
and its session is unchanged; no entry appears. -/
theorem CleanInactiveSessions_removes_exactly_idle (w : World) (env : CleanEnv) :
    (∀ u id s, GetTerminalSession w u id = some s →
      env.now - (w.heap s).LastActive > thirtyMinutes →
      GetTerminalSession (CleanInactiveSessions w env) u id = none) ∧
    (∀ u id s, GetTerminalSession w u id = some s →
      env.now - (w.heap s).LastActive ≤ thirtyMinutes →
      GetTerminalSession (CleanInactiveSessions w env) u id = some s ∧
      (CleanInactiveSessions w env).heap s = w.heap s) ∧
    (∀ u id, GetTerminalSession w u id = none →
      GetTerminalSession (CleanInactiveSessions w env) u id = none) := by
  refine ⟨?_, ?_, ?_⟩
  · intro u id s hg hidle
    rw [CleanInactiveSessions_Get, if_pos ⟨s, hg, by simpa [idleAt] using hidle⟩]
  · intro u id s hg hidle
    have hni : idleAt env.now w s = false := by
      simp only [idleAt, decide_eq_false_iff_not, not_lt]
      exact hidle
    constructor
    · rw [CleanInactiveSessions_Get, if_neg, hg]
      rintro ⟨s', hs1, hs2⟩
      rw [hg] at hs1
      rw [← Option.some.inj hs1, hni] at hs2
      exact Bool.noConfusion hs2
    · exact (cleanUsers_spec env w.TerminalSessions w).2.2.1 s hni
  · intro u id hg
    rw [CleanInactiveSessions_Get, if_neg, hg]
    rintro ⟨s, hs1, _⟩
    rw [hg] at hs1
    exact Option.noConfusion hs1

/-- The statement of C12 at `liveWorld`, whose session was last active at
time 0: a run thirty minutes later keeps it, a run one nanosecond after that
removes it. -/
theorem CleanInactiveSessions_removes_exactly_idle_witness :
    GetTerminalSession liveWorld "u" "s3" = some 0 ∧
    GetTerminalSession (CleanInactiveSessions liveWorld (CleanEnv.ok thirtyMinutes)) "u" "s3"
      = some 0 ∧
    GetTerminalSession (CleanInactiveSessions liveWorld (CleanEnv.ok (thirtyMinutes + 1)))
      "u" "s3" = none :=
  ⟨by decide,
    ((CleanInactiveSessions_removes_exactly_idle liveWorld (CleanEnv.ok thirtyMinutes)).2.1
      "u" "s3" 0 (by decide) (by decide)).1,
    (CleanInactiveSessions_removes_exactly_idle liveWorld (CleanEnv.ok (thirtyMinutes + 1))).1
      "u" "s3" 0 (by decide) (by decide)⟩

/-! ### The reaper: hibernate before removing (C13) -/

theorem rowMatches_eq {u id u' id' : String} {r : Row}
    (h : rowMatches u id r = true) (h' : rowMatches u' id' r = true) : u = u' ∧ id = id' := by
  simp only [rowMatches, Bool.and_eq_true, beq_iff_eq] at h h'
  exact ⟨h.1.symm.trans h'.1, h.2.symm.trans h'.2⟩

/-- A successful save followed by a successful mark leaves the row
hibernated. -/
theorem RowHibernated_Mark_Save (db : List Row) (now : Int) (u id : String) (B : List Byte) :
    RowHibernated
      (SetTerminalSessionActive (SaveTerminalSessionToDB db now false u id (some B)).1
        now false u id false).1 u id B now := by
  simp only [SetTerminalSessionActive, SaveTerminalSessionToDB, Bool.false_eq_true, if_false]
  split_ifs with hc
  · -- UPDATE
    constructor
    · obtain ⟨r, hr⟩ := List.exists_mem_of_length_pos hc
      obtain ⟨hr1, hr2⟩ := List.mem_filter.mp hr
      refine ⟨_, List.mem_map.mpr ⟨_, List.mem_map.mpr ⟨r, hr1, rfl⟩, rfl⟩, ?_⟩
      simp only [hr2, if_true]
      have : rowMatches u id { r with buffer := some B, last_active := now, active := 1 } = true :=
        hr2
      simp only [this, if_true]
      exact hr2
    · intro r hr hm
      obtain ⟨r1, hr1, rfl⟩ := List.mem_map.mp hr
      obtain ⟨r0, hr0, rfl⟩ := List.mem_map.mp hr1
      by_cases h0 : rowMatches u id r0 = true
      · have : rowMatches u id { r0 with buffer := some B, last_active := now, active := 1 }
            = true := h0
        simp [h0, this]
      · simp [h0] at hm
  · -- INSERT
    have hnone : ∀ r ∈ db, rowMatches u id r = false := by
      intro r hr
      by_contra hne
      have hm : r ∈ db.filter (rowMatches u id) := by
        simp [List.mem_filter, hr] at hne ⊢
        exact hne
      exact hc (List.length_pos_of_mem hm)
    have hnew : rowMatches u id
        { terminal_id := id, username := u, buffer := some B,
          created_at := now, last_active := now, active := 1 } = true := by
      simp [rowMatches]
    constructor
    · refine ⟨_, List.mem_map.mpr ⟨_, List.mem_append_right _ (List.mem_singleton_self _), rfl⟩,
        ?_⟩
      simp only [hnew, if_true]
      exact hnew
    · intro r hr hm
      obtain ⟨r1, hr1, rfl⟩ := List.mem_map.mp hr
      rcases List.mem_append.mp hr1 with h1 | h1
      · simp [hnone r1 h1] at hm
      · rw [List.mem_singleton.mp h1]
        simp [hnew]

/-- A save of another key keeps the row hibernated. -/
theorem RowHibernated_Save_other {db : List Row} {u id : String} {B : List Byte} {now : Int}
    (h : RowHibernated db u id B now) (now' : Int) (fail : Bool) (u' id' : String)
    (hne : ¬ (u' = u ∧ id' = id)) (B' : Option (List Byte)) :
    RowHibernated (SaveTerminalSessionToDB db now' fail u' id' B').1 u id B now := by
  have hnm : ∀ r, rowMatches u id r = true → rowMatches u' id' r = false := by
    intro r hr
    by_contra hcon
    have : rowMatches u' id' r = true := by simpa using hcon
    exact hne (rowMatches_eq this hr)
  simp only [SaveTerminalSessionToDB]
  split_ifs with hf hc
  · exact h
  · constructor
    · obtain ⟨r, hr, hm⟩ := h.1
      exact ⟨r, List.mem_map.mpr ⟨r, hr, by simp [hnm r hm]⟩, hm⟩
    · intro r hr hm
      obtain ⟨r0, hr0, rfl⟩ := List.mem_map.mp hr
      by_cases h0 : rowMatches u' id' r0 = true
      · exfalso
        simp only [h0, if_true] at hm
        have : rowMatches u id r0 = true := hm
        rw [hnm r0 this] at h0
        exact Bool.noConfusion h0
      · simp only [h0] at hm ⊢
        exact h.2 r0 hr0 hm
  · constructor
    · obtain ⟨r, hr, hm⟩ := h.1
      exact ⟨r, List.mem_append_left _ hr, hm⟩
    · intro r hr hm
      rcases List.mem_append.mp hr with h1 | h1
      · exact h.2 r h1 hm
      · exfalso
        rw [List.mem_singleton.mp h1] at hm
        have h2 : rowMatches u' id'
            { terminal_id := id', username := u', buffer := B',
              created_at := now', last_active := now', active := 1 } = true := by
          simp [rowMatches]
        rw [hnm _ hm] at h2
        exact Bool.noConfusion h2

/-- Marking another key keeps the row hibernated. -/
theorem RowHibernated_Mark_other {db : List Row} {u id : String} {B : List Byte} {now : Int}
    (h : RowHibernated db u id B now) (now' : Int) (fail : Bool) (u' id' : String)
    (hne : ¬ (u' = u ∧ id' = id)) (a : Bool) :
    RowHibernated (SetTerminalSessionActive db now' fail u' id' a).1 u id B now := by
  have hnm : ∀ r, rowMatches u id r = true → rowMatches u' id' r = false := by
    intro r hr
    by_contra hcon
    have : rowMatches u' id' r = true := by simpa using hcon
    exact hne (rowMatches_eq this hr)
  cases fail with
  | true => exact h
  | false =>
    simp only [SetTerminalSessionActive, Bool.false_eq_true, if_false]
    generalize (if a = true then (1 : Int) else 0) = v
    constructor
    · obtain ⟨r, hr, hm⟩ := h.1
      exact ⟨r, List.mem_map.mpr ⟨r, hr, by simp [hnm r hm]⟩, hm⟩
    · intro r hr hm
      obtain ⟨r0, hr0, rfl⟩ := List.mem_map.mp hr
      by_cases h0 : rowMatches u' id' r0 = true
      · exfalso
        simp only [h0, if_true] at hm
        have : rowMatches u id r0 = true := hm
        rw [hnm r0 this] at h0
        exact Bool.noConfusion h0
      · simp only [h0] at hm ⊢
        exact h.2 r0 hr0 hm

/-- The vacuum at the same clock keeps the row hibernated. -/
theorem RowHibernated_Cleanup {db : List Row} {u id : String} {B : List Byte} {now : Int}
    (h : RowHibernated db u id B now) (fail : Bool) (days : Int) (hd : 0 ≤ days) :
    RowHibernated (CleanupOldTerminalSessions db now fail days).1 u id B now := by
  unfold CleanupOldTerminalSessions
  split_ifs with hf
  · exact h
  · have hkeep : ∀ r ∈ db, rowMatches u id r = true →
        (!(r.active == 0 && decide (now - r.last_active > days * dayNs))) = true := by
      intro r hr hm
      obtain ⟨_, _, h3⟩ := h.2 r hr hm
      have : ¬ (now - r.last_active > days * dayNs) := by
        rw [h3]
        have : (0 : Int) ≤ days * dayNs := Int.mul_nonneg hd (by decide)
        omega
      simp [this]
    constructor
    · obtain ⟨r, hr, hm⟩ := h.1
      exact ⟨r, List.mem_filter.mpr ⟨hr, hkeep r hr hm⟩, hm⟩
    · intro r hr hm
      exact h.2 r (List.mem_filter.mp hr).1 hm

/-- A hibernated row is what a load finds. -/
theorem RowHibernated_find {db : List Row} {u id : String} {B : List Byte} {now : Int}
    (h : RowHibernated db u id B now) :
    ∃ r, db.find? (rowMatches u id) = some r ∧ r.buffer = some B ∧ r.active = 0 := by
  cases hf : db.find? (rowMatches u id) with
  | none =>
    obtain ⟨r, hr, hm⟩ := h.1
    rw [List.find?_eq_none] at hf
    exact absurd hm (hf r hr)
  | some r =>
    have hr := List.mem_of_find?_eq_some hf
    have hm := List.find?_some hf
    obtain ⟨h1, h2, _⟩ := h.2 r hr hm
    exact ⟨r, rfl, h1, h2⟩

theorem reapSession_db (w : World) (env : CleanEnv) (u id : String) (s : Nat) :
    (reapSession w env u id s).db =
      (SetTerminalSessionActive
        (SaveTerminalSessionToDB w.db env.now (env.saveFails u id) u id
          (some (w.heap s).Buffer.Data)).1
        env.now (env.markFails u id) u id false).1 := by
  unfold reapSession
  rw [deleteEntry_db, closeSession_db]
  rfl

theorem reapSession_Buffer (w : World) (env : CleanEnv) (u id : String) (s s' : Nat) :
    ((reapSession w env u id s).heap s').Buffer = (w.heap s').Buffer := by
  rw [reapSession_heap]
  by_cases h : s' = s
  · subst h; simp
  · simp [h]

/-- Once the entry is reaped, the visit of any entry keeps it so. -/
theorem ReapDone_step {w : World} {env : CleanEnv} {u id : String} {B : List Byte}
    (h : ReapDone w u id B env.now) (u' id' : String) (s' : Nat) :
    ReapDone
      (if GetTerminalSession w u' id' = some s' ∧ idleAt env.now w s' = true then
        reapSession w env u' id' s' else w) u id B env.now := by
  split_ifs with hc
  · have hne : ¬ (u' = u ∧ id' = id) := by
      rintro ⟨rfl, rfl⟩
      rw [h.1] at hc
      exact Option.noConfusion hc.1
    refine ⟨?_, ?_⟩
    · rw [reapSession_Get, if_neg hne]
      exact h.1
    · rw [reapSession_db]
      exact RowHibernated_Mark_other (RowHibernated_Save_other h.2 _ _ u' id' hne _) _ _ u' id'
        hne false
  · exact h

/-- The visit of an entry under another key leaves the pending session
pending. -/
theorem ReapPending_step {w : World} {env : CleanEnv} {u id : String} {s : Nat} {B : List Byte}
    (h : ReapPending w u id s B env.now) (u' id' : String) (s' : Nat)
    (hne : ¬ (u' = u ∧ id' = id)) :
    ReapPending
      (if GetTerminalSession w u' id' = some s' ∧ idleAt env.now w s' = true then
        reapSession w env u' id' s' else w) u id s B env.now := by
  split_ifs with hc
  · refine ⟨?_, ?_, ?_⟩
    · rw [reapSession_Get, if_neg hne]
      exact h.1
    · rw [reapSession_idleAt]
      exact h.2.1
    · rw [reapSession_Buffer]
      exact h.2.2
  · exact h

/-- The visit of the pending entry itself reaps it. -/
theorem ReapPending_reap {w : World} {env : CleanEnv} {u id : String} {s : Nat} {B : List Byte}
    (h : ReapPending w u id s B env.now)
    (hsave : env.saveFails u id = false) (hmark : env.markFails u id = false) :
    ReapDone
      (if GetTerminalSession w u id = some s ∧ idleAt env.now w s = true then
        reapSession w env u id s else w) u id B env.now := by
  rw [if_pos ⟨h.1, h.2.1⟩]
  refine ⟨?_, ?_⟩
  · rw [reapSession_Get]
    simp
  · rw [reapSession_db, hsave, hmark, h.2.2]
    exact RowHibernated_Mark_Save w.db env.now u id B

theorem cleanSessions_ReapDone (env : CleanEnv) (u id : String) (B : List Byte) (u' : String)
    (l : List (String × Nat)) :
    ∀ w : World, ReapDone w u id B env.now → ReapDone (cleanSessions env u' w l) u id B env.now := by
  induction l with
  | nil => intro w h; exact h
  | cons e rest ih =>
    intro w h
    obtain ⟨id0, s0⟩ := e
    rw [cleanSessions_cons]
    exact ih _ (ReapDone_step h u' id0 s0)

theorem cleanSessions_ReapPending_other (env : CleanEnv) (u id : String) (s : Nat)
    (B : List Byte) (u' : String) (hu : u' ≠ u) (l : List (String × Nat)) :
    ∀ w : World, ReapPending w u id s B env.now →
      ReapPending (cleanSessions env u' w l) u id s B env.now := by
  induction l with
  | nil => intro w h; exact h
  | cons e rest ih =>
    intro w h
    obtain ⟨id0, s0⟩ := e
    rw [cleanSessions_cons]
    exact ih _ (ReapPending_step h u' id0 s0 (fun hh => hu hh.1))

/-- The inner loop over the user's entries reaps the pending session when it
is among them. -/
theorem cleanSessions_reaps (env : CleanEnv) (u id : String) (s : Nat) (B : List Byte)
    (hsave : env.saveFails u id = false) (hmark : env.markFails u id = false)
    (l : List (String × Nat)) :
    ∀ w : World, ReapPending w u id s B env.now → (id, s) ∈ l →
      ReapDone (cleanSessions env u w l) u id B env.now := by
  induction l with
  | nil => intro w _ hmem; simp at hmem
  | cons e rest ih =>
    intro w h hmem
    obtain ⟨id0, s0⟩ := e
    rw [cleanSessions_cons]
    by_cases hid : id0 = id
    · subst hid
      by_cases hs : s0 = s
      · subst hs
        exact cleanSessions_ReapDone env u id0 B u rest _ (ReapPending_reap h hsave hmark)
      · have hguard : ¬ (GetTerminalSession w u id0 = some s0 ∧ idleAt env.now w s0 = true) := by
          rintro ⟨h1, _⟩
          rw [h.1] at h1
          exact hs (Option.some.inj h1).symm
        rw [if_neg hguard]
        refine ih w h ?_
        rcases List.mem_cons.mp hmem with h1 | h1
        · exact absurd (Prod.mk.inj h1).2.symm hs
        · exact h1
    · refine ih _ (ReapPending_step h u id0 s0 (fun hh => hid hh.2)) ?_
      rcases List.mem_cons.mp hmem with h1 | h1
      · exact absurd (Prod.mk.inj h1).1.symm hid
      · exact h1

/-- The world after the inner loop and the deletion of the user's map if it
is empty (lines 171-174). -/
theorem dropEmpty_ReapDone {w : World} {u id : String} {B : List Byte} {now : Int} (u0 : String)
    (h : ReapDone w u id B now) :
    ReapDone
      (if ((mget w.TerminalSessions u0).getD []).length = 0
        then { w with TerminalSessions := mdel w.TerminalSessions u0 } else w) u id B now := by
  split_ifs with hlen
  · exact ⟨by rw [Get_dropEmpty w u0 hlen]; exact h.1, h.2⟩
  · exact h

theorem dropEmpty_ReapPending {w : World} {u id : String} {s : Nat} {B : List Byte} {now : Int}
    (u0 : String) (h : ReapPending w u id s B now) :
    ReapPending
      (if ((mget w.TerminalSessions u0).getD []).length = 0
        then { w with TerminalSessions := mdel w.TerminalSessions u0 } else w) u id s B now := by
  split_ifs with hlen
  · exact ⟨by rw [Get_dropEmpty w u0 hlen]; exact h.1, h.2.1, h.2.2⟩
  · exact h

theorem cleanUsers_ReapDone (env : CleanEnv) (u id : String) (B : List Byte)
    (L : List (String × List (String × Nat))) :
    ∀ w : World, ReapDone w u id B env.now → ReapDone (cleanUsers env w L) u id B env.now := by
  induction L with
  | nil => intro w h; exact h
  | cons e rest ih =>
    intro w h
    obtain ⟨u0, x⟩ := e
    rw [cleanUsers_cons]
    cases hm : mget w.TerminalSessions u0 with
    | none => exact ih w h
    | some sessions =>
      exact ih _ (dropEmpty_ReapDone u0 (cleanSessions_ReapDone env u id B u0 sessions w h))

/-- The outer loop reaps the pending session when its user is among the
users visited. -/
theorem cleanUsers_reaps (env : CleanEnv) (u id : String) (s : Nat) (B : List Byte)
    (hsave : env.saveFails u id = false) (hmark : env.markFails u id = false)
    (L : List (String × List (String × Nat))) :
    ∀ w : World, ReapPending w u id s B env.now → u ∈ L.map Prod.fst →
      ReapDone (cleanUsers env w L) u id B env.now := by
  induction L with
  | nil => intro w _ hmem; simp at hmem
  | cons e rest ih =>
    intro w h hmem
    obtain ⟨u0, x⟩ := e
    rw [cleanUsers_cons]
    by_cases hu : u0 = u
    · subst hu
      have hg := h.1
      unfold GetTerminalSession at hg
      cases hm : mget w.TerminalSessions u0 with
      | none => rw [hm] at hg; simp at hg
      | some sessions =>
        rw [hm] at hg
        exact cleanUsers_ReapDone env u0 id B rest _
          (dropEmpty_ReapDone u0
            (cleanSessions_reaps env u0 id s B hsave hmark sessions w h (mget_mem hg)))
    · have hmem' : u ∈ rest.map Prod.fst := by
        simp only [List.map_cons, List.mem_cons] at hmem
        rcases hmem with h1 | h1
        · exact absurd h1.symm hu
        · exact h1
      cases hm : mget w.TerminalSessions u0 with
      | none => exact ih w h hmem'
      | some sessions =>
        exact ih _ (dropEmpty_ReapPending u0
          (cleanSessions_ReapPending_other env u id s B u0 hu sessions w h)) hmem'

/-- C13: the reaper hibernates before it removes. For a session registered
under `(owner, id)` and idle for more than thirty minutes, when the save and
the mark of that key succeed: after `CleanInactiveSessions` the table holds a
row for `(owner, id)` whose buffer is the session's scroll-back and whose
active flag is 0; and in every reap the row is written first, in a state where
the session is still in the registry, and only then is the entry deleted. -/
theorem reaper_hibernates_before_removing (w : World) (env : CleanEnv) (u id : String) (s : Nat)
    (hg : GetTerminalSession w u id = some s)
    (hidle : env.now - (w.heap s).LastActive > thirtyMinutes)
    (hsave : env.saveFails u id = false) (hmark : env.markFails u id = false) :
    (∃ r, (CleanInactiveSessions w env).db.find? (rowMatches u id) = some r ∧
      r.buffer = some (w.heap s).Buffer.Data ∧ r.active = 0) ∧
    GetTerminalSession (CleanInactiveSessions w env) u id = none ∧
    (∀ w' : World, GetTerminalSession w' u id = some s →
      reapSession w' env u id s =
        deleteEntry (closeSession
          (MarkSessionInactive (SaveSessionToDatabase w' env.now false u id s)
            env.now false u id) s) u id ∧
      GetTerminalSession
        (MarkSessionInactive (SaveSessionToDatabase w' env.now false u id s)
          env.now false u id) u id = some s ∧
      ∃ r, (MarkSessionInactive (SaveSessionToDatabase w' env.now false u id s)
          env.now false u id).db.find? (rowMatches u id) = some r ∧
        r.buffer = some (w'.heap s).Buffer.Data ∧ r.active = 0) := by
  have hpend : ReapPending w u id s (w.heap s).Buffer.Data env.now :=
    ⟨hg, by simpa [idleAt] using hidle, rfl⟩
  have hkeys : u ∈ w.TerminalSessions.map Prod.fst := by
    unfold GetTerminalSession at hg
    cases hm : mget w.TerminalSessions u with
    | none => rw [hm] at hg; simp at hg
    | some sessions => exact mget_isSome_mem_keys hm
  have hdone := cleanUsers_reaps env u id s _ hsave hmark w.TerminalSessions w hpend hkeys
  refine ⟨?_, hdone.1, ?_⟩
  · have hrow : RowHibernated (CleanInactiveSessions w env).db u id (w.heap s).Buffer.Data
        env.now := RowHibernated_Cleanup hdone.2 env.vacuumFails 7 (by decide)
    exact RowHibernated_find hrow
  · intro w' hg'
    refine ⟨?_, hg', ?_⟩
    · unfold reapSession
      rw [hsave, hmark]
    · exact RowHibernated_find (RowHibernated_Mark_Save w'.db env.now u id _)

/-- The statement of C13 at `liveWorld` with a reaper run one nanosecond past
thirty minutes of idleness. -/
theorem reaper_hibernates_before_removing_witness :
    GetTerminalSession liveWorld "u" "s3" = some 0 ∧
    (∃ r, (CleanInactiveSessions liveWorld (CleanEnv.ok (thirtyMinutes + 1))).db.find?
        (rowMatches "u" "s3") = some r ∧
      r.buffer = some (liveWorld.heap 0).Buffer.Data ∧ r.active = 0) :=
  ⟨by decide,
    (reaper_hibernates_before_removing liveWorld (CleanEnv.ok (thirtyMinutes + 1)) "u" "s3" 0
      (by decide) (by decide) rfl rfl).1⟩

/-! ### The attach decision table (C11) -/

/-- What `attachSpawn` leaves in the session when `pty.Start` succeeds. -/
theorem attachSpawn_spawned (w : World) (env : AttachEnv) (conn : Nat)
    (clientIP terminalID username : String) (s : Nat) (hs : env.spawnError = none) :
    ((attachSpawn w env conn clientIP terminalID username s).heap s).Ptmx =
      some { Closed := false, Rows := 24, Cols := 80, Written := [] } ∧
    s ∈ (attachSpawn w env conn clientIP terminalID username s).ptyPumps := by
  unfold attachSpawn
  simp only [hs]
  by_cases hlen : (w.heap s).Buffer.Data.length > 0 <;>
    simp [addClient, touch, World.setSession, World.send, hlen]

/-- What `attachSpawn` leaves in the session when `pty.Start` fails. -/
theorem attachSpawn_failed (w : World) (env : AttachEnv) (conn : Nat)
    (clientIP terminalID username : String) (s : Nat) (err : String)
    (hs : env.spawnError = some err) :
    ((attachSpawn w env conn clientIP terminalID username s).heap s).Ptmx = (w.heap s).Ptmx ∧
    (attachSpawn w env conn clientIP terminalID username s).ptyPumps = w.ptyPumps := by
  unfold attachSpawn
  simp only [hs]
  by_cases hlen : (w.heap s).Buffer.Data.length > 0 <;>
    simp [addClient, touch, World.setSession, World.send, hlen]

theorem attachSpawn_Clients (w : World) (env : AttachEnv) (conn : Nat)
    (clientIP terminalID username : String) (s : Nat) :
    ((attachSpawn w env conn clientIP terminalID username s).heap s).Clients =
      mset (w.heap s).Clients clientIP conn := by
  unfold attachSpawn
  cases hsp : env.spawnError <;>
    by_cases hlen : (w.heap s).Buffer.Data.length > 0 <;>
    simp [addClient, touch, World.setSession, World.send, hlen]

/-- The attach of a client to a session with a PTY or a shell changes the
session's client set and `LastActive` and nothing else of the registry or the
sessions. -/
theorem attachExisting_fields (w : World) (env : AttachEnv) (conn : Nat)
    (clientIP terminalID username : String) (s : Nat) :
    (∀ a b, GetTerminalSession (attachExisting w env conn clientIP terminalID username s) a b =
      GetTerminalSession w a b) ∧
    (attachExisting w env conn clientIP terminalID username s).nextSession = w.nextSession ∧
    (attachExisting w env conn clientIP terminalID username s).ptyPumps = w.ptyPumps ∧
    (attachExisting w env conn clientIP terminalID username s).db = w.db ∧
    (∀ s', s' ≠ s →
      (attachExisting w env conn clientIP terminalID username s).heap s' = w.heap s') ∧
    (attachExisting w env conn clientIP terminalID username s).heap s =
      { w.heap s with Clients := mset (w.heap s).Clients clientIP conn,
                      LastActive := env.now } := by
  unfold attachExisting
  by_cases hlen : (w.heap s).Buffer.Data.length > 0
  · refine ⟨fun _ _ => ?_, ?_, ?_, ?_, fun s' hs' => ?_, ?_⟩
    · simp [addClient, touch, World.setSession, World.send, hlen, GetTerminalSession]
    · simp [addClient, touch, World.setSession, World.send, hlen]
    · simp [addClient, touch, World.setSession, World.send, hlen]
    · simp [addClient, touch, World.setSession, World.send, hlen]
    · simp [addClient, touch, World.setSession, World.send, hlen, Function.update_noteq hs']
    · simp [addClient, touch, World.setSession, World.send, hlen]
  · refine ⟨fun _ _ => ?_, ?_, ?_, ?_, fun s' hs' => ?_, ?_⟩
    · simp [addClient, touch, World.setSession, World.send, hlen, GetTerminalSession]
    · simp [addClient, touch, World.setSession, World.send, hlen]
    · simp [addClient, touch, World.setSession, World.send, hlen]
    · simp [addClient, touch, World.setSession, World.send, hlen]
    · simp [addClient, touch, World.setSession, World.send, hlen, Function.update_noteq hs']
    · simp [addClient, touch, World.setSession, World.send, hlen]

/-- The session that `restoreOrCreate` registers. -/
theorem restoreOrCreate_fields (w : World) (env : AttachEnv) (id u : String) :
    (restoreOrCreate w env id u).2 = w.nextSession ∧
    GetTerminalSession (restoreOrCreate w env id u).1 u id = some w.nextSession ∧
    (restoreOrCreate w env id u).1.ptyPumps = w.ptyPumps ∧
    (∀ r B, env.loadFails = false → w.db.find? (rowMatches u id) = some r →
      r.buffer = some B →
      (restoreOrCreate w env id u).1.heap w.nextSession = newSession env.now B) ∧
    (hasRow w.db u id = false →
      (restoreOrCreate w env id u).1.heap w.nextSession = newSession env.now []) := by
  refine ⟨rfl, ?_, rfl, ?_, ?_⟩
  · simp [restoreOrCreate, Get_SaveTerminalSession]
  · intro r B hl hf hb
    simp [restoreOrCreate, SaveTerminalSession, LoadTerminalSessionFromDB, hl, hf, hb]
  · intro hrow
    have hf : w.db.find? (rowMatches u id) = none := by
      rw [List.find?_eq_none]
      intro r hr
      simp only [hasRow, List.any_eq_false] at hrow
      exact hrow r hr
    cases hl : env.loadFails <;>
      simp [restoreOrCreate, SaveTerminalSession, LoadTerminalSessionFromDB, hl, hf]

/-- C11 (amended): the attach decision table. (1) When the registry holds a
session for `(owner, id)` that has a PTY or a shell, the attach only adds the
client: every registry entry, the allocation mark, the PTY pumps and the
session's PTY, shell and scroll-back are as before. (2) When the registry has
no entry, the load does not fail and the store's row has buffer `B`, a new
session with scroll-back `B` is registered; (3) when the registry has no entry
and the store has no row, a new session with empty scroll-back is registered.
In (2) and (3) the session holds a new open 24x80 PTY with its pump running
when `pty.Start` succeeds. -/
theorem attach_decision_table (w : World) (env : AttachEnv) (conn : Nat)
    (clientIP id u : String) :
    (∀ s, GetTerminalSession w u id = some s →
      ((w.heap s).Ptmx.isSome || (w.heap s).Cmd.isSome) = true →
      (∀ a b, GetTerminalSession (HandleUnixTerminal w env conn clientIP id u) a b =
        GetTerminalSession w a b) ∧
      (HandleUnixTerminal w env conn clientIP id u).nextSession = w.nextSession ∧
      (HandleUnixTerminal w env conn clientIP id u).ptyPumps = w.ptyPumps ∧
      (HandleUnixTerminal w env conn clientIP id u).heap s =
        { w.heap s with Clients := mset (w.heap s).Clients clientIP conn,
                        LastActive := env.now }) ∧
    (GetTerminalSession w u id = none → env.loadFails = false →
      ∀ r B, w.db.find? (rowMatches u id) = some r → r.buffer = some B →
      GetTerminalSession (HandleUnixTerminal w env conn clientIP id u) u id =
        some w.nextSession ∧
      ((HandleUnixTerminal w env conn clientIP id u).heap w.nextSession).Buffer =
        { Data := B, Max := scrollbackMax } ∧
      (env.spawnError = none →
        ((HandleUnixTerminal w env conn clientIP id u).heap w.nextSession).Ptmx =
          some { Closed := false, Rows := 24, Cols := 80, Written := [] } ∧
        w.nextSession ∈ (HandleUnixTerminal w env conn clientIP id u).ptyPumps)) ∧
    (GetTerminalSession w u id = none → hasRow w.db u id = false →
      GetTerminalSession (HandleUnixTerminal w env conn clientIP id u) u id =
        some w.nextSession ∧
      ((HandleUnixTerminal w env conn clientIP id u).heap w.nextSession).Buffer =
        { Data := [], Max := scrollbackMax } ∧
      (env.spawnError = none →
        ((HandleUnixTerminal w env conn clientIP id u).heap w.nextSession).Ptmx =
          some { Closed := false, Rows := 24, Cols := 80, Written := [] } ∧
        w.nextSession ∈ (HandleUnixTerminal w env conn clientIP id u).ptyPumps)) := by
  have hnew : GetTerminalSession w u id = none →
      HandleUnixTerminal w env conn clientIP id u =
        attachSpawn (restoreOrCreate w env id u).1 env conn clientIP id u w.nextSession := by
    intro hg
    unfold HandleUnixTerminal
    rw [hg]
    rfl
  obtain ⟨_, hG, _, hrow, hnone⟩ := restoreOrCreate_fields w env id u
  refine ⟨?_, ?_, ?_⟩
  · intro s hg hlive
    have hH : HandleUnixTerminal w env conn clientIP id u =
        attachExisting w env conn clientIP id u s := by
      unfold HandleUnixTerminal
      rw [hg]
      simp only [hlive, if_true]
    rw [hH]
    obtain ⟨h1, h2, h3, _, _, h6⟩ := attachExisting_fields w env conn clientIP id u s
    exact ⟨h1, h2, h3, h6⟩
  · intro hg hl r B hf hb
    rw [hnew hg]
    refine ⟨by rw [Get_attachSpawn]; exact hG, ?_, ?_⟩
    · rw [attachSpawn_buffer, hrow r B hl hf hb]
      rfl
    · intro hs
      exact attachSpawn_spawned _ env conn clientIP id u w.nextSession hs
  · intro hg hr
    rw [hnew hg]
    refine ⟨by rw [Get_attachSpawn]; exact hG, ?_, ?_⟩
    · rw [attachSpawn_buffer, hnone hr]
      rfl
    · intro hs
      exact attachSpawn_spawned _ env conn clientIP id u w.nextSession hs

/-- The statement of C11 (amended) at the table `hibernatedTable`: the attach
restores the session with scroll-back `x`. -/
theorem attach_decision_table_witness :
    GetTerminalSession (World.init hibernatedTable) "u" "s3" = none ∧
    GetTerminalSession
      (HandleUnixTerminal (World.init hibernatedTable) (AttachEnv.ok 1) 0 "c1" "s3" "u")
      "u" "s3" = some 0 ∧
    ((HandleUnixTerminal (World.init hibernatedTable) (AttachEnv.ok 1) 0 "c1" "s3" "u").heap
      0).Buffer = { Data := [120], Max := scrollbackMax } :=
  ⟨by decide,
    ((attach_decision_table (World.init hibernatedTable) (AttachEnv.ok 1) 0 "c1" "s3" "u").2.1
      (by decide) rfl hibernatedRow [120] (by decide) rfl).1,
    ((attach_decision_table (World.init hibernatedTable) (AttachEnv.ok 1) 0 "c1" "s3" "u").2.1
      (by decide) rfl hibernatedRow [120] (by decide) rfl).2.1⟩

/-- C11 as stated fails: the registry has no entry for `(u, s3)` and the store
has a row with buffer `x`, but the load fails, so the attach registers a new
session with an empty scroll-back and not the stored buffer. -/
theorem attach_load_failure_creates_empty :
    GetTerminalSession (World.init hibernatedTable) "u" "s3" = none ∧
    (hibernatedTable.find? (rowMatches "u" "s3")).map Row.buffer = some (some [120]) ∧
    GetTerminalSession
      (HandleUnixTerminal (World.init hibernatedTable)
        { now := 1, loadFails := true, spawnError := none } 0 "c1" "s3" "u") "u" "s3" = some 0 ∧
    ((HandleUnixTerminal (World.init hibernatedTable)
        { now := 1, loadFails := true, spawnError := none } 0 "c1" "s3" "u").heap 0).Buffer.Data
      = [] := by
  decide

/-! ### The client pump: read errors (C14, C15) -/

/-- What the read-error path of the client pump does to the state. -/
theorem clientReadError_spec (w : World) (now : Int) (saveFails : Bool) (p : ClientPump) :
    ((clientReadError w now saveFails p).heap p.session).Clients =
      mdel (w.heap p.session).Clients p.clientIP ∧
    (mdel (w.heap p.session).Clients p.clientIP = [] →
      (clientReadError w now saveFails p).db =
        (SaveTerminalSessionToDB w.db now saveFails p.username p.terminalID
          (some (w.heap p.session).Buffer.Data)).1) ∧
    (mdel (w.heap p.session).Clients p.clientIP ≠ [] →
      (clientReadError w now saveFails p).db = w.db) ∧
    (clientReadError w now saveFails p).heap p.session =
      { w.heap p.session with Clients := mdel (w.heap p.session).Clients p.clientIP } ∧
    (∀ s, s ≠ p.session → (clientReadError w now saveFails p).heap s = w.heap s) ∧
    (∀ a b, GetTerminalSession (clientReadError w now saveFails p) a b =
      GetTerminalSession w a b) ∧
    (clientReadError w now saveFails p).connClosed = w.connClosed ∧
    (clientReadError w now saveFails p).clientPumps = w.clientPumps.erase p := by
  unfold clientReadError
  by_cases hc : (mdel (w.heap p.session).Clients p.clientIP).length = 0
  · have hnil : mdel (w.heap p.session).Clients p.clientIP = [] := List.length_eq_zero.mp hc
    refine ⟨?_, fun _ => ?_, fun h => absurd hnil h, ?_, fun s hs => ?_, fun _ _ => ?_, ?_, ?_⟩
    · simp [World.setSession, SaveSessionToDatabase, hc]
    · simp [World.setSession, SaveSessionToDatabase, hc]
    · simp [World.setSession, SaveSessionToDatabase, hc]
    · simp [World.setSession, SaveSessionToDatabase, hc, Function.update_noteq hs]
    · simp [World.setSession, SaveSessionToDatabase, hc, GetTerminalSession]
    · simp [World.setSession, SaveSessionToDatabase, hc]
    · simp [World.setSession, SaveSessionToDatabase, hc]
  · have hne : mdel (w.heap p.session).Clients p.clientIP ≠ [] :=
      fun h => hc (List.length_eq_zero.mpr h)
    refine ⟨?_, fun h => absurd h hne, fun _ => ?_, ?_, fun s hs => ?_, fun _ _ => ?_, ?_, ?_⟩
    · simp [World.setSession, hc]
    · simp [World.setSession, hc]
    · simp [World.setSession, hc]
    · simp [World.setSession, hc, Function.update_noteq hs]
    · simp [World.setSession, hc, GetTerminalSession]
    · simp [World.setSession, hc]
    · simp [World.setSession, hc]

/-- C14 (amended): a read timeout is handled like every other read error. The
client is deleted from the session's client set, the scroll-back is saved when
no client is left, and the pump returns. -/
theorem read_timeout_detaches (w : World) (env : PumpEnv) (p : ClientPump) :
    mget ((handleWebSocketConnection w env p (ReadResult.error true)).heap p.session).Clients
      p.clientIP = none ∧
    ((handleWebSocketConnection w env p (ReadResult.error true)).heap p.session).Clients =
      mdel (w.heap p.session).Clients p.clientIP ∧
    (mdel (w.heap p.session).Clients p.clientIP = [] →
      (handleWebSocketConnection w env p (ReadResult.error true)).db =
        (SaveTerminalSessionToDB w.db env.now env.saveFails p.username p.terminalID
          (some (w.heap p.session).Buffer.Data)).1) ∧
    (handleWebSocketConnection w env p (ReadResult.error true)).clientPumps =
      w.clientPumps.erase p ∧
    handleWebSocketConnection w env p (ReadResult.error true) =
      handleWebSocketConnection w env p (ReadResult.error false) := by
  obtain ⟨h1, h2, _, _, _, _, _, h8⟩ := clientReadError_spec w env.now env.saveFails p
  refine ⟨?_, h1, h2, h8, rfl⟩
  show mget ((clientReadError w env.now env.saveFails p).heap p.session).Clients p.clientIP = none
  rw [h1, mget_mdel]
  simp

theorem read_timeout_detaches_witness :
    mdel (liveWorld.heap 0).Clients "c1" = [] ∧
    (handleWebSocketConnection liveWorld (PumpEnv.ok 100) livePump (ReadResult.error true)).db =
      (SaveTerminalSessionToDB liveWorld.db 100 false "u" "s3" (some [120])).1 :=
  ⟨by decide, (read_timeout_detaches liveWorld (PumpEnv.ok 100) livePump).2.2.1 (by decide)⟩

/-- C14 as stated fails: in `liveWorld` the read of client `c1` times out, and
the client is deleted from the client set, the scroll-back is written to the
store, and the pump has returned. -/
theorem read_timeout_removes_client :
    (liveWorld.heap 0).Clients = [("c1", 0)] ∧
    hasRow liveWorld.db "u" "s3" = false ∧
    livePump ∈ liveWorld.clientPumps ∧
    ((handleWebSocketConnection liveWorld (PumpEnv.ok 100) livePump
      (ReadResult.error true)).heap 0).Clients = [] ∧
    hasRow (handleWebSocketConnection liveWorld (PumpEnv.ok 100) livePump
      (ReadResult.error true)).db "u" "s3" = true ∧
    livePump ∉ (handleWebSocketConnection liveWorld (PumpEnv.ok 100) livePump
      (ReadResult.error true)).clientPumps := by
  decide

/-- C15: on a read error that is not a timeout the client pump detaches that
client only. The client is deleted from the session's client set and every
other client stays; when no client remains the scroll-back is passed to
`SaveTerminalSessionToDB` (and is in the row if the save does not fail), and
when a client remains the store is untouched; the session's PTY, shell and
`Done`, every other session, every connection and every registry entry are
unchanged. -/
theorem read_error_detaches_client_only (w : World) (env : PumpEnv) (p : ClientPump) :
    mget ((handleWebSocketConnection w env p (ReadResult.error false)).heap p.session).Clients
      p.clientIP = none ∧
    (∀ k, k ≠ p.clientIP →
      mget ((handleWebSocketConnection w env p (ReadResult.error false)).heap p.session).Clients k
        = mget (w.heap p.session).Clients k) ∧
    (((handleWebSocketConnection w env p (ReadResult.error false)).heap p.session).Clients = [] →
      (handleWebSocketConnection w env p (ReadResult.error false)).db =
        (SaveTerminalSessionToDB w.db env.now env.saveFails p.username p.terminalID
          (some (w.heap p.session).Buffer.Data)).1 ∧
      (env.saveFails = false →
        ∃ r, (handleWebSocketConnection w env p (ReadResult.error false)).db.find?
            (rowMatches p.username p.terminalID) = some r ∧
          r.buffer = some (w.heap p.session).Buffer.Data)) ∧
    (((handleWebSocketConnection w env p (ReadResult.error false)).heap p.session).Clients ≠ [] →
      (handleWebSocketConnection w env p (ReadResult.error false)).db = w.db) ∧
    ((handleWebSocketConnection w env p (ReadResult.error false)).heap p.session).Ptmx =
      (w.heap p.session).Ptmx ∧
    ((handleWebSocketConnection w env p (ReadResult.error false)).heap p.session).Cmd =
      (w.heap p.session).Cmd ∧
    ((handleWebSocketConnection w env p (ReadResult.error false)).heap p.session).Done =
      (w.heap p.session).Done ∧
    (∀ s, s ≠ p.session →
      (handleWebSocketConnection w env p (ReadResult.error false)).heap s = w.heap s) ∧
    (handleWebSocketConnection w env p (ReadResult.error false)).connClosed = w.connClosed ∧
    (∀ a b, GetTerminalSession (handleWebSocketConnection w env p (ReadResult.error false)) a b =
      GetTerminalSession w a b) := by
  obtain ⟨h1, h2, h3, h4, h5, h6, h7, _⟩ := clientReadError_spec w env.now env.saveFails p
  have hH : handleWebSocketConnection w env p (ReadResult.error false) =
      clientReadError w env.now env.saveFails p := rfl
  rw [hH]
  refine ⟨?_, ?_, ?_, ?_, ?_, ?_, ?_, h5, h7, h6⟩
  · rw [h1, mget_mdel]; simp
  · intro k hk
    rw [h1, mget_mdel, if_neg (fun h => hk h.symm)]
  · intro hnil
    rw [h1] at hnil
    refine ⟨h2 hnil, ?_⟩
    intro hs
    rw [h2 hnil, hs]
    obtain ⟨r, hr1, hr2, _⟩ := find_Save w.db env.now p.username p.terminalID
      (some (w.heap p.session).Buffer.Data)
    exact ⟨r, hr1, hr2⟩
  · intro hne
    rw [h1] at hne
    exact h3 hne
  · rw [h4]
  · rw [h4]
  · rw [h4]

theorem read_error_detaches_client_only_witness :
    ((handleWebSocketConnection liveWorld (PumpEnv.ok 100) livePump
      (ReadResult.error false)).heap 0).Clients = [] ∧
    ∃ r, (handleWebSocketConnection liveWorld (PumpEnv.ok 100) livePump
        (ReadResult.error false)).db.find? (rowMatches "u" "s3") = some r ∧
      r.buffer = some [120] :=
  ⟨by decide,
   ((read_error_detaches_client_only liveWorld (PumpEnv.ok 100) livePump).2.2.1
      (by decide)).2 rfl⟩

/-! ### The client pump: message dispatch (C19) -/

theorem RemoveTerminalSession_eq (w : World) (u id : String) :
    RemoveTerminalSession w u id =
      match GetTerminalSession w u id with
      | some s => deleteEntry (closeSession w s) u id
      | none => deleteEntry w u id := by
  unfold RemoveTerminalSession GetTerminalSession
  cases h : mget w.TerminalSessions u with
  | none => simp [deleteEntry, h]
  | some sessions =>
    simp only
    cases mget sessions id <;> rfl

theorem closeSession_Written (w : World) (s t : Nat) :
    ((closeSession w s).heap t).Ptmx.map Pty.Written = (w.heap t).Ptmx.map Pty.Written := by
  rw [closeSession_eq]
  by_cases h : t = s
  · subst h
    cases hp : (w.heap t).Ptmx <;> simp [hp]
  · simp [Function.update_noteq h]

theorem deleteEntry_heap (w : World) (u id : String) :
    (deleteEntry w u id).heap = w.heap := by
  rw [deleteEntry_eq]

theorem RemoveTerminalSession_Written (w : World) (u id : String) (t : Nat) :
    ((RemoveTerminalSession w u id).heap t).Ptmx.map Pty.Written =
      (w.heap t).Ptmx.map Pty.Written := by
  rw [RemoveTerminalSession_eq]
  cases GetTerminalSession w u id with
  | none => simp only [deleteEntry_heap]
  | some s => simp only [deleteEntry_heap, closeSession_Written]

theorem clientClose_Written (w : World) (env : CloseEnv) (p : ClientPump) (t : Nat) :
    ((clientClose w env p).heap t).Ptmx.map Pty.Written = (w.heap t).Ptmx.map Pty.Written := by
  unfold clientClose
  simp only
  split_ifs with hc
  · simp only [RemoveTerminalSession_Written]
    simp only [MarkSessionInactive, SaveSessionToDatabase, World.setSession]
    by_cases h : t = p.session
    · subst h
      cases hcmd : (w.heap p.session).Cmd <;> simp [hcmd]
    · cases hcmd : (w.heap p.session).Cmd <;> simp [hcmd, Function.update_noteq h]
  · simp only [World.setSession]
    by_cases h : t = p.session
    · subst h; simp
    · simp [Function.update_noteq h]

theorem handleResize_Written (w : World) (p : ClientPump) (data : JSON) (t : Nat) :
    ((handleResize w p data).heap t).Ptmx.map Pty.Written = (w.heap t).Ptmx.map Pty.Written := by
  unfold handleResize
  split
  · split
    · split
      · unfold setWindowSize
        split
        · rename_i pty hp
          split_ifs with hcl
          · rfl
          · by_cases h : t = p.session
            · subst h; simp [World.setSession, hp]
            · simp [World.setSession, Function.update_noteq h]
        · rfl
      · rfl
    · rfl
  · rfl

theorem handleHeartbeat_Written (w : World) (env : PumpEnv) (p : ClientPump) (t : Nat) :
    ((handleHeartbeat w env p).heap t).Ptmx.map Pty.Written = (w.heap t).Ptmx.map Pty.Written := by
  unfold handleHeartbeat
  by_cases h : t = p.session
  · subst h
    cases env.replyFails <;> simp [touch, World.setSession, World.send]
  · cases env.replyFails <;> simp [touch, World.setSession, World.send, Function.update_noteq h]

theorem handleInput_Ptmx (w : World) (env : PumpEnv) (p : ClientPump) (payload : List Byte) :
    ((handleInput w env p payload).heap p.session).Ptmx =
      (w.heap p.session).Ptmx.map (fun pty =>
        if pty.Closed then pty else { pty with Written := pty.Written ++ [payload] }) ∧
    ∀ t, t ≠ p.session → (handleInput w env p payload).heap t = w.heap t := by
  unfold handleInput writePty
  constructor
  · cases hp : (w.heap p.session).Ptmx with
    | none => simp [touch, World.setSession, hp]
    | some pty =>
      simp only
      by_cases hcl : pty.Closed = true
      · simp [touch, World.setSession, hp, hcl]
      · simp [touch, World.setSession, hcl]
  · intro t ht
    cases hp : (w.heap p.session).Ptmx with
    | none => simp [touch, World.setSession, Function.update_noteq ht]
    | some pty =>
      simp only
      by_cases hcl : pty.Closed = true
      · simp [touch, World.setSession, hcl, Function.update_noteq ht]
      · simp [touch, World.setSession, hcl, Function.update_noteq ht]

/-- A frame that is not decoded as a `resize`, `heartbeat` or `close` message
is handled as input. -/
theorem handle_text_input (w : World) (env : PumpEnv) (p : ClientPump) (payload : List Byte)
    (parsed : Option Message)
    (h : ∀ m, parsed = some m →
      m.MsgType ≠ "resize" ∧ m.MsgType ≠ "heartbeat" ∧ m.MsgType ≠ "close") :
    handleWebSocketConnection w env p (ReadResult.text payload parsed) =
      handleInput w env p payload := by
  cases parsed with
  | none => rfl
  | some m =>
    obtain ⟨h1, h2, h3⟩ := h m rfl
    simp [handleWebSocketConnection, h1, h2, h3]

/-- C19 (amended): message dispatch in the client pump. For every binary frame,
and for every text frame that `json.Unmarshal` does not decode into a `Message`
of type `resize`, `heartbeat` or `close`, exactly the payload is written to the
session's open PTY (appended to what was written before; no other session is
touched). For every text frame decoded into a `Message` of one of those three
types, what has been written to the PTY of every session stays as it was. -/
theorem dispatch_writes_input_to_pty (w : World) (env : PumpEnv) (p : ClientPump)
    (payload : List Byte) :
    (∀ pty, (w.heap p.session).Ptmx = some pty → pty.Closed = false →
      ((handleWebSocketConnection w env p (ReadResult.binary payload)).heap p.session).Ptmx =
        some { pty with Written := pty.Written ++ [payload] } ∧
      ∀ t, t ≠ p.session →
        (handleWebSocketConnection w env p (ReadResult.binary payload)).heap t = w.heap t) ∧
    (∀ parsed pty,
      (∀ m, parsed = some m →
        m.MsgType ≠ "resize" ∧ m.MsgType ≠ "heartbeat" ∧ m.MsgType ≠ "close") →
      (w.heap p.session).Ptmx = some pty → pty.Closed = false →
      ((handleWebSocketConnection w env p (ReadResult.text payload parsed)).heap p.session).Ptmx =
        some { pty with Written := pty.Written ++ [payload] } ∧
      ∀ t, t ≠ p.session →
        (handleWebSocketConnection w env p (ReadResult.text payload parsed)).heap t = w.heap t) ∧
    (∀ m, m.MsgType = "resize" ∨ m.MsgType = "heartbeat" ∨ m.MsgType = "close" →
      ∀ t, ((handleWebSocketConnection w env p (ReadResult.text payload (some m))).heap t).Ptmx.map
          Pty.Written = (w.heap t).Ptmx.map Pty.Written) := by
  refine ⟨?_, ?_, ?_⟩
  · intro pty hp hcl
    have hI : handleWebSocketConnection w env p (ReadResult.binary payload) =
        handleInput w env p payload := rfl
    rw [hI]
    obtain ⟨h1, h2⟩ := handleInput_Ptmx w env p payload
    refine ⟨?_, h2⟩
    rw [h1, hp]
    simp [hcl]
  · intro parsed pty hm hp hcl
    rw [handle_text_input w env p payload parsed hm]
    obtain ⟨h1, h2⟩ := handleInput_Ptmx w env p payload
    refine ⟨?_, h2⟩
    rw [h1, hp]
    simp [hcl]
  · intro m hm t
    rcases hm with h | h | h
    · have hH : handleWebSocketConnection w env p (ReadResult.text payload (some m)) =
          handleResize w p m.Data := by
        simp [handleWebSocketConnection, h]
      rw [hH]
      exact handleResize_Written w p m.Data t
    · have hH : handleWebSocketConnection w env p (ReadResult.text payload (some m)) =
          handleHeartbeat w env p := by
        simp [handleWebSocketConnection, h]
      rw [hH]
      exact handleHeartbeat_Written w env p t
    · have hH : handleWebSocketConnection w env p (ReadResult.text payload (some m)) =
          clientClose w env.toCloseEnv p := by
        simp [handleWebSocketConnection, h]
      rw [hH]
      exact clientClose_Written w env.toCloseEnv p t

theorem dispatch_writes_input_to_pty_witness :
    ((handleWebSocketConnection liveWorld (PumpEnv.ok 100) livePump
        (ReadResult.binary [108, 115])).heap 0).Ptmx =
      some { Closed := false, Rows := 24, Cols := 80, Written := [[108, 115]] } ∧
    ((handleWebSocketConnection liveWorld (PumpEnv.ok 100) livePump
        (ReadResult.text [108, 115] none)).heap 0).Ptmx =
      some { Closed := false, Rows := 24, Cols := 80, Written := [[108, 115]] } ∧
    ((handleWebSocketConnection liveWorld (PumpEnv.ok 100) livePump
        (ReadResult.text [108, 115] (some resizeMessage))).heap 0).Ptmx.map Pty.Written =
      some [] :=
  ⟨((dispatch_writes_input_to_pty liveWorld (PumpEnv.ok 100) livePump [108, 115]).1
      { Closed := false, Rows := 24, Cols := 80, Written := [] } (by decide) (by decide)).1,
   ((dispatch_writes_input_to_pty liveWorld (PumpEnv.ok 100) livePump [108, 115]).2.1 none
      { Closed := false, Rows := 24, Cols := 80, Written := [] } (by simp) (by decide)
      (by decide)).1,
   (dispatch_writes_input_to_pty liveWorld (PumpEnv.ok 100) livePump [108, 115]).2.2
      resizeMessage (Or.inl (by decide)) 0⟩

/-- C19 as stated fails: the text frame `{"type":"close","terminalId":5}` is a
JSON object with type `close`, but `json.Unmarshal` returns an error for it, so
the pump takes it for input and writes its bytes to the PTY (and the client
stays attached). -/
theorem undecodable_close_frame_written_to_pty :
    ((handleWebSocketConnection liveWorld (PumpEnv.ok 100) livePump
        undecodableCloseFrame).heap 0).Ptmx.map Pty.Written =
      some [bytesOf "\x7b\"type\":\"close\",\"terminalId\":5\x7d"] ∧
    ((handleWebSocketConnection liveWorld (PumpEnv.ok 100) livePump
        undecodableCloseFrame).heap 0).Clients = [("c1", 0)] := by
  decide

/-! ### The client pump: resize and LastActive (C18, C20) -/

/-- C18 fails for `resize`: in `liveWorld` (session last active at time 0) the
client pump receives, at time 100, the resize message
`{"type":"resize","terminalId":"s3","data":{"cols":132,"rows":50}}`. The window
size is set, but `LastActive` is still 0 afterwards; the same pump sets it to
100 on a heartbeat, on another text frame and on a binary frame. -/
theorem resize_does_not_advance_LastActive :
    (liveWorld.heap 0).LastActive = 0 ∧
    ((handleWebSocketConnection liveWorld (PumpEnv.ok 100) livePump resizeFrame).heap 0).Ptmx =
      some { Closed := false, Rows := 50, Cols := 132, Written := [] } ∧
    ((handleWebSocketConnection liveWorld (PumpEnv.ok 100) livePump
      resizeFrame).heap 0).LastActive = 0 ∧
    ((handleWebSocketConnection liveWorld (PumpEnv.ok 100) livePump
      heartbeatFrame).heap 0).LastActive = 100 ∧
    ((handleWebSocketConnection liveWorld (PumpEnv.ok 100) livePump
      (ReadResult.text [108, 115] none)).heap 0).LastActive = 100 ∧
    ((handleWebSocketConnection liveWorld (PumpEnv.ok 100) livePump
      (ReadResult.binary [108, 115])).heap 0).LastActive = 100 := by
  decide

theorem uint16OfFloat_natCast (n : Nat) (h : n ≤ 65535) : uint16OfFloat (n : ℚ) = n := by
  unfold uint16OfFloat
  rw [if_pos (Nat.cast_nonneg n), Int.floor_natCast]
  omega

/-- C20: a `resize` message whose data is an object with numeric `cols` and
`rows` in 0..65535 sets the window size of the session's open PTY to exactly
`rows` rows and `cols` columns, and nothing else of the PTY changes; the state
returned is the one in which the next frame is handled. A `resize` message
whose data is not an object with a numeric `cols` and a numeric `rows` leaves
the whole state, and so the window size, unchanged. -/
theorem resize_sets_window_size (w : World) (env : PumpEnv) (p : ClientPump)
    (payload : List Byte) (m : Message) (ht : m.MsgType = "resize") :
    (∀ fields (cols rows : Nat) pty,
      m.Data = JSON.object fields →
      mget fields "cols" = some (JSON.number (cols : ℚ)) →
      mget fields "rows" = some (JSON.number (rows : ℚ)) →
      cols ≤ 65535 → rows ≤ 65535 →
      (w.heap p.session).Ptmx = some pty → pty.Closed = false →
      ((handleWebSocketConnection w env p (ReadResult.text payload (some m))).heap p.session).Ptmx =
        some { pty with Rows := rows, Cols := cols }) ∧
    ((¬ ∃ fields x y, m.Data = JSON.object fields ∧
        mget fields "cols" = some (JSON.number x) ∧
        mget fields "rows" = some (JSON.number y)) →
      handleWebSocketConnection w env p (ReadResult.text payload (some m)) = w) := by
  have hH : handleWebSocketConnection w env p (ReadResult.text payload (some m)) =
      handleResize w p m.Data := by
    simp [handleWebSocketConnection, ht]
  rw [hH]
  constructor
  · intro fields cols rows pty hd hc hr hc' hr' hp hcl
    rw [hd]
    simp only [handleResize, hc, hr, setWindowSize, hp, hcl, uint16OfFloat_natCast cols hc',
      uint16OfFloat_natCast rows hr']
    simp [World.setSession]
  · intro hno
    unfold handleResize
    split
    · rename_i fields hf
      split
      · rename_i x hx
        split
        · rename_i y hy
          exact absurd ⟨fields, x, y, hf, hx, hy⟩ hno
        · rfl
      · rfl
    · rfl

theorem resize_sets_window_size_witness :
    ((handleWebSocketConnection liveWorld (PumpEnv.ok 100) livePump resizeFrame).heap 0).Ptmx =
      some { Closed := false, Rows := 50, Cols := 132, Written := [] } ∧
    handleWebSocketConnection liveWorld (PumpEnv.ok 100) livePump
      (ReadResult.text [] (some { MsgType := "resize", TerminalID := "s3",
                                  Data := JSON.string "132x50" })) = liveWorld :=
  ⟨(resize_sets_window_size liveWorld (PumpEnv.ok 100) livePump _ resizeMessage rfl).1
      [("cols", JSON.number ((132 : Nat) : ℚ)), ("rows", JSON.number ((50 : Nat) : ℚ))]
      132 50 { Closed := false, Rows := 24, Cols := 80, Written := [] }
      rfl rfl rfl (by decide) (by decide) (by decide) rfl,
   (resize_sets_window_size liveWorld (PumpEnv.ok 100) livePump []
      { MsgType := "resize", TerminalID := "s3", Data := JSON.string "132x50" } rfl).2
      (by rintro ⟨fields, x, y, h, _⟩; cases h)⟩

/-! ### The client pump: the close message (C16, C17) -/

theorem RemoveTerminalSession_heap (w : World) (u id : String) (t : Nat) :
    (RemoveTerminalSession w u id).heap t =
      if GetTerminalSession w u id = some t then
        { w.heap t with
          Ptmx := (w.heap t).Ptmx.map (fun p => { p with Closed := true }),
          Done := (w.heap t).Done + 1 }
      else w.heap t := by
  rw [RemoveTerminalSession_eq]
  cases h : GetTerminalSession w u id with
  | none => simp [deleteEntry_heap]
  | some s =>
    simp only [deleteEntry_heap, closeSession_eq, Option.some.injEq]
    by_cases hs : s = t
    · subst hs; simp
    · rw [if_neg hs, Function.update_noteq (Ne.symm hs)]

theorem RemoveTerminalSession_connClosed (w : World) (u id : String) :
    (RemoveTerminalSession w u id).connClosed =
      match GetTerminalSession w u id with
      | some s => fun k => decide (k ∈ (w.heap s).Clients.map Prod.snd) || w.connClosed k
      | none => w.connClosed := by
  rw [RemoveTerminalSession_eq]
  cases h : GetTerminalSession w u id with
  | none => simp [deleteEntry_eq]
  | some s => simp [deleteEntry_eq, closeSession_eq]

/-- The state in which the `close` branch calls `RemoveTerminalSession` when
the last client has gone: the client deleted, the buffer saved, the shell
signalled, the row marked. -/
theorem clientClose_last (w : World) (env : CloseEnv) (p : ClientPump)
    (h : mdel (w.heap p.session).Clients p.clientIP = []) :
    ∃ w5 : World,
      clientClose w env p =
        { RemoveTerminalSession w5 p.username p.terminalID with
          clientPumps := (RemoveTerminalSession w5 p.username p.terminalID).clientPumps.erase p } ∧
      w5.TerminalSessions = w.TerminalSessions ∧
      w5.connClosed = w.connClosed ∧
      w5.db = (SetTerminalSessionActive
        (SaveTerminalSessionToDB w.db env.now env.saveFails p.username p.terminalID
          (some (w.heap p.session).Buffer.Data)).1
        env.now env.markFails p.username p.terminalID false).1 ∧
      w5.heap p.session =
        { w.heap p.session with
          Clients := [],
          Cmd := (w.heap p.session).Cmd.map
            (fun proc => { proc with Signals := proc.Signals ++ closeSignals env }) } ∧
      ∀ t, t ≠ p.session → w5.heap t = w.heap t := by
  unfold clientClose
  simp only [World.setSession, Function.update_same, h, List.length_nil, if_true]
  cases hcmd : (w.heap p.session).Cmd with
  | none =>
    refine ⟨_, rfl, ?_, ?_, ?_, ?_, ?_⟩
    · simp [MarkSessionInactive, SaveSessionToDatabase, hcmd]
    · simp [MarkSessionInactive, SaveSessionToDatabase, hcmd]
    · simp [MarkSessionInactive, SaveSessionToDatabase, hcmd]
    · simp [MarkSessionInactive, SaveSessionToDatabase, hcmd]
    · intro t ht
      simp [MarkSessionInactive, SaveSessionToDatabase, hcmd, Function.update_noteq ht]
  | some proc =>
    refine ⟨_, rfl, ?_, ?_, ?_, ?_, ?_⟩
    · simp [MarkSessionInactive, SaveSessionToDatabase, hcmd]
    · simp [MarkSessionInactive, SaveSessionToDatabase, hcmd]
    · simp [MarkSessionInactive, SaveSessionToDatabase, hcmd]
    · simp [MarkSessionInactive, SaveSessionToDatabase, hcmd]
    · intro t ht
      simp [MarkSessionInactive, SaveSessionToDatabase, hcmd, Function.update_noteq ht]

/-- The `close` branch when another client remains: only the sender is
deleted from the client set. -/
theorem clientClose_others (w : World) (env : CloseEnv) (p : ClientPump)
    (h : mdel (w.heap p.session).Clients p.clientIP ≠ []) :
    clientClose w env p =
      { w.setSession p.session
          { w.heap p.session with Clients := mdel (w.heap p.session).Clients p.clientIP } with
        clientPumps := w.clientPumps.erase p } := by
  unfold clientClose
  have hc : ¬ (mdel (w.heap p.session).Clients p.clientIP).length = 0 :=
    fun hl => h (List.length_eq_zero.mp hl)
  simp [World.setSession, hc]

/-- C16: on a `close` message the client pump deletes the sending client from
the session's client set and keeps every other client. If another client
remains nothing else changes: the registry, the store, the connections, the
session's other fields (its PTY among them) and every other session are as
before. If it was the last client, the scroll-back is passed to
`SaveTerminalSessionToDB`, SIGTERM and the hard kill are sent to the shell,
the row is passed to `SetTerminalSessionActive(false)` (so that it holds the
scroll-back and is inactive when neither call fails), and the registry has no
entry for the session's key. -/
theorem close_message_detaches_or_tears_down (w : World) (env : PumpEnv) (p : ClientPump)
    (payload : List Byte) (m : Message) (ht : m.MsgType = "close") :
    handleWebSocketConnection w env p (ReadResult.text payload (some m)) =
      clientClose w env.toCloseEnv p ∧
    ((clientClose w env.toCloseEnv p).heap p.session).Clients =
      mdel (w.heap p.session).Clients p.clientIP ∧
    mget ((clientClose w env.toCloseEnv p).heap p.session).Clients p.clientIP = none ∧
    (∀ k, k ≠ p.clientIP →
      mget ((clientClose w env.toCloseEnv p).heap p.session).Clients k =
        mget (w.heap p.session).Clients k) ∧
    (mdel (w.heap p.session).Clients p.clientIP ≠ [] →
      (∀ a b, GetTerminalSession (clientClose w env.toCloseEnv p) a b =
        GetTerminalSession w a b) ∧
      (clientClose w env.toCloseEnv p).db = w.db ∧
      (clientClose w env.toCloseEnv p).connClosed = w.connClosed ∧
      (clientClose w env.toCloseEnv p).heap p.session =
        { w.heap p.session with Clients := mdel (w.heap p.session).Clients p.clientIP } ∧
      ∀ t, t ≠ p.session → (clientClose w env.toCloseEnv p).heap t = w.heap t) ∧
    (mdel (w.heap p.session).Clients p.clientIP = [] →
      (clientClose w env.toCloseEnv p).db =
        (SetTerminalSessionActive
          (SaveTerminalSessionToDB w.db env.now env.saveFails p.username p.terminalID
            (some (w.heap p.session).Buffer.Data)).1
          env.now env.markFails p.username p.terminalID false).1 ∧
      (env.saveFails = false → env.markFails = false →
        RowHibernated (clientClose w env.toCloseEnv p).db p.username p.terminalID
          (w.heap p.session).Buffer.Data env.now) ∧
      ((clientClose w env.toCloseEnv p).heap p.session).Cmd =
        (w.heap p.session).Cmd.map
          (fun proc => { proc with Signals := proc.Signals ++ closeSignals env.toCloseEnv }) ∧
      (env.sigtermFails = false → ∀ proc,
        ((clientClose w env.toCloseEnv p).heap p.session).Cmd = some proc →
          Signal.SIGTERM ∈ proc.Signals) ∧
      GetTerminalSession (clientClose w env.toCloseEnv p) p.username p.terminalID = none) := by
  have hH : handleWebSocketConnection w env p (ReadResult.text payload (some m)) =
      clientClose w env.toCloseEnv p := by
    simp [handleWebSocketConnection, ht]
  have hlast : mdel (w.heap p.session).Clients p.clientIP = [] →
      ((clientClose w env.toCloseEnv p).heap p.session).Clients = [] ∧
      (clientClose w env.toCloseEnv p).db =
        (SetTerminalSessionActive
          (SaveTerminalSessionToDB w.db env.now env.saveFails p.username p.terminalID
            (some (w.heap p.session).Buffer.Data)).1
          env.now env.markFails p.username p.terminalID false).1 ∧
      ((clientClose w env.toCloseEnv p).heap p.session).Cmd =
        (w.heap p.session).Cmd.map
          (fun proc => { proc with Signals := proc.Signals ++ closeSignals env.toCloseEnv }) ∧
      GetTerminalSession (clientClose w env.toCloseEnv p) p.username p.terminalID = none := by
    intro h
    obtain ⟨w5, he, _, _, hdb, hs, _⟩ := clientClose_last w env.toCloseEnv p h
    rw [he]
    refine ⟨?_, ?_, ?_, ?_⟩
    · show ((RemoveTerminalSession w5 p.username p.terminalID).heap p.session).Clients = []
      rw [RemoveTerminalSession_heap]
      split_ifs <;> simp [hs]
    · show (RemoveTerminalSession w5 p.username p.terminalID).db = _
      rw [(RemoveTerminalSession_frame w5 p.username p.terminalID).1, hdb]
    · show ((RemoveTerminalSession w5 p.username p.terminalID).heap p.session).Cmd = _
      rw [RemoveTerminalSession_heap]
      split_ifs <;> simp [hs]
    · show GetTerminalSession (RemoveTerminalSession w5 p.username p.terminalID)
        p.username p.terminalID = none
      rw [Get_RemoveTerminalSession]
      simp
  have hcl : ((clientClose w env.toCloseEnv p).heap p.session).Clients =
      mdel (w.heap p.session).Clients p.clientIP := by
    by_cases h : mdel (w.heap p.session).Clients p.clientIP = []
    · rw [(hlast h).1, h]
    · rw [clientClose_others w env.toCloseEnv p h]
      simp [World.setSession]
  refine ⟨hH, hcl, ?_, ?_, ?_, ?_⟩
  · rw [hcl, mget_mdel]; simp
  · intro k hk
    rw [hcl, mget_mdel, if_neg (fun h => hk h.symm)]
  · intro h
    rw [clientClose_others w env.toCloseEnv p h]
    refine ⟨fun _ _ => rfl, rfl, rfl, ?_, ?_⟩
    · simp [World.setSession]
    · intro t ht'
      simp [World.setSession, Function.update_noteq ht']
  · intro h
    obtain ⟨_, hdb, hcmd, hget⟩ := hlast h
    refine ⟨hdb, ?_, hcmd, ?_, hget⟩
    · intro hs hm
      rw [hdb, hs, hm]
      exact RowHibernated_Mark_Save w.db env.now p.username p.terminalID _
    · intro hs proc hp
      rw [hcmd] at hp
      cases hc : (w.heap p.session).Cmd with
      | none => rw [hc] at hp; cases hp
      | some q =>
        rw [hc] at hp
        simp only [Option.map_some', Option.some.injEq] at hp
        rw [← hp]
        simp [closeSignals, hs]

theorem close_message_detaches_or_tears_down_witness :
    (liveWorld.heap 0).Clients = [("c1", 0)] ∧
    GetTerminalSession liveWorld "u" "s3" = some 0 ∧
    RowHibernated (clientClose liveWorld (PumpEnv.ok 100).toCloseEnv livePump).db "u" "s3"
      [120] 100 ∧
    GetTerminalSession (clientClose liveWorld (PumpEnv.ok 100).toCloseEnv livePump)
      "u" "s3" = none :=
  ⟨by decide, by decide,
   ((close_message_detaches_or_tears_down liveWorld (PumpEnv.ok 100) livePump []
      { MsgType := "close", TerminalID := "s3", Data := JSON.null } rfl).2.2.2.2.2
      (by decide)).2.1 rfl rfl,
   ((close_message_detaches_or_tears_down liveWorld (PumpEnv.ok 100) livePump []
      { MsgType := "close", TerminalID := "s3", Data := JSON.null } rfl).2.2.2.2.2
      (by decide)).2.2.2.2⟩

/-! ### Closing twice (C17) -/

theorem mdel_mdel {V : Type} (m : List (String × V)) (k : String) :
    mdel (mdel m k) k = mdel m k := by
  simp [mdel, List.filter_filter]

theorem view_map_congr (D : List Row) (g : Row → Row)
    (h : ∀ r ∈ D, rowView (g r) = rowView r) :
    (D.map g).map rowView = D.map rowView := by
  rw [List.map_map]
  exact List.map_congr_left (fun r hr => h r hr)

/-- After a successful save the table has a row for the key, and every row for
the key holds the buffer and is active. -/
theorem Save_rows (db : List Row) (now : Int) (u id : String) (B : Option (List Byte)) :
    (∃ r ∈ (SaveTerminalSessionToDB db now false u id B).1, rowMatches u id r = true) ∧
    ∀ r ∈ (SaveTerminalSessionToDB db now false u id B).1, rowMatches u id r = true →
      r.buffer = B ∧ r.active = 1 := by
  simp only [SaveTerminalSessionToDB, Bool.false_eq_true, if_false]
  split_ifs with hc
  · constructor
    · obtain ⟨r, hr⟩ := List.exists_mem_of_length_pos hc
      obtain ⟨hr1, hr2⟩ := List.mem_filter.mp hr
      refine ⟨_, List.mem_map.mpr ⟨r, hr1, rfl⟩, ?_⟩
      simp only [hr2, if_true]
      exact hr2
    · intro r hr hm
      obtain ⟨r0, hr0, rfl⟩ := List.mem_map.mp hr
      by_cases h0 : rowMatches u id r0 = true
      · simp [h0]
      · simp [h0] at hm
  · have hnone : ∀ r ∈ db, rowMatches u id r = false := by
      intro r hr
      by_contra hne
      have hm : r ∈ db.filter (rowMatches u id) := by
        simp [List.mem_filter, hr] at hne ⊢
        exact hne
      exact hc (List.length_pos_of_mem hm)
    have hnew : rowMatches u id
        { terminal_id := id, username := u, buffer := B,
          created_at := now, last_active := now, active := 1 } = true := by
      simp [rowMatches]
    constructor
    · exact ⟨_, List.mem_append_right _ (List.mem_singleton_self _), hnew⟩
    · intro r hr hm
      rcases List.mem_append.mp hr with h1 | h1
      · simp [hnone r h1] at hm
      · rw [List.mem_singleton.mp h1]
        simp

/-- A successful save into a table whose rows for the key already hold the
buffer changes neither the key, the buffer nor the row set; it sets the flag. -/
theorem Save_existing (D : List Row) (now : Int) (u id : String) (B : Option (List Byte))
    (hex : ∃ r ∈ D, rowMatches u id r = true) :
    (SaveTerminalSessionToDB D now false u id B).1 =
      D.map (fun r => if rowMatches u id r then
        { r with buffer := B, last_active := now, active := 1 } else r) := by
  obtain ⟨r, hr, hm⟩ := hex
  have hc : (D.filter (rowMatches u id)).length > 0 :=
    List.length_pos_of_mem (List.mem_filter.mpr ⟨hr, hm⟩)
  simp [SaveTerminalSessionToDB, hc]

theorem Mark_rows (D : List Row) (now : Int) (u id : String) :
    (SetTerminalSessionActive D now false u id false).1 =
      D.map (fun r => if rowMatches u id r then
        { r with active := 0, last_active := now } else r) := by
  simp [SetTerminalSessionActive]

/-- Saving and marking a second time, with each call failing or succeeding as
it did the first time, leaves key, buffer and flag of every row as they were
after the first time. -/
theorem view_Mark_Save_twice (db : List Row) (now now' : Int) ( sf mf : Bool) (u id : String)
    (B : Option (List Byte)) :
    ((SetTerminalSessionActive
        (SaveTerminalSessionToDB
          (SetTerminalSessionActive (SaveTerminalSessionToDB db now sf u id B).1
            now mf u id false).1
          now' sf u id B).1
        now' mf u id false).1).map rowView =
      ((SetTerminalSessionActive (SaveTerminalSessionToDB db now sf u id B).1
        now mf u id false).1).map rowView := by
  cases sf with
  | true =>
    have hS : ∀ D t, (SaveTerminalSessionToDB D t true u id B).1 = D := by
      intro D t; simp [SaveTerminalSessionToDB]
    rw [hS, hS]
    cases mf with
    | true => simp [SetTerminalSessionActive]
    | false =>
      rw [Mark_rows _ now', Mark_rows _ now]
      apply view_map_congr
      intro r hr
      obtain ⟨r0, _, rfl⟩ := List.mem_map.mp hr
      by_cases h0 : rowMatches u id r0 = true
      · have h1 : rowMatches u id { r0 with active := 0, last_active := now } = true := h0
        simp [h0, h1, rowView]
      · simp [h0]
  | false =>
    obtain ⟨hex, hall⟩ := Save_rows db now u id B
    cases mf with
    | true =>
      have hM : ∀ D t, (SetTerminalSessionActive D t true u id false).1 = D := by
        intro D t; simp [SetTerminalSessionActive]
      rw [hM, hM, Save_existing _ now' u id B hex]
      apply view_map_congr
      intro r hr
      by_cases h0 : rowMatches u id r = true
      · obtain ⟨hb, ha⟩ := hall r hr h0
        simp [h0, rowView, hb, ha]
      · simp [h0]
    | false =>
      rw [Mark_rows _ now', Mark_rows _ now]
      have hex1 : ∃ r ∈ (SaveTerminalSessionToDB db now false u id B).1.map
          (fun r => if rowMatches u id r then
            { r with active := 0, last_active := now } else r), rowMatches u id r = true := by
        obtain ⟨r, hr, hm⟩ := hex
        refine ⟨_, List.mem_map.mpr ⟨r, hr, rfl⟩, ?_⟩
        simp only [hm, if_true]
        exact hm
      have hall1 : ∀ r ∈ (SaveTerminalSessionToDB db now false u id B).1.map
          (fun r => if rowMatches u id r then
            { r with active := 0, last_active := now } else r), rowMatches u id r = true →
            r.buffer = B ∧ r.active = 0 := by
        intro r hr hm
        obtain ⟨r0, hr0, rfl⟩ := List.mem_map.mp hr
        by_cases h0 : rowMatches u id r0 = true
        · simp [h0, (hall r0 hr0 h0).1]
        · simp only [h0] at hm
          exact absurd hm h0
      rw [Save_existing _ now' u id B hex1]
      generalize (SaveTerminalSessionToDB db now false u id B).1.map
          (fun r => if rowMatches u id r then
            { r with active := 0, last_active := now } else r) = D1 at hall1
      simp only [List.map_map]
      apply List.map_congr_left
      intro r hr
      by_cases h0 : rowMatches u id r = true
      · obtain ⟨hb, ha⟩ := hall1 r hr h0
        have h2 : rowMatches u id
            { r with active := 1, last_active := now', buffer := B } = true := h0
        simp [h0, h2, rowView, hb, ha]
      · simp [h0]

/-- What the first handling of `close` leaves behind when the sender was the
last client. -/
theorem clientClose_last_state (w : World) (env : CloseEnv) (p : ClientPump)
    (h : mdel (w.heap p.session).Clients p.clientIP = []) :
    ((clientClose w env p).heap p.session).Clients = [] ∧
    ((clientClose w env p).heap p.session).Buffer = (w.heap p.session).Buffer ∧
    (clientClose w env p).db =
      (SetTerminalSessionActive
        (SaveTerminalSessionToDB w.db env.now env.saveFails p.username p.terminalID
          (some (w.heap p.session).Buffer.Data)).1
        env.now env.markFails p.username p.terminalID false).1 ∧
    (∀ a b, GetTerminalSession (clientClose w env p) a b =
      if p.username = a ∧ p.terminalID = b then none else GetTerminalSession w a b) ∧
    (∀ t, ((clientClose w env p).heap t).Done =
      (w.heap t).Done + if GetTerminalSession w p.username p.terminalID = some t then 1 else 0) ∧
    (clientClose w env p).connClosed =
      match GetTerminalSession w p.username p.terminalID with
      | some s => fun k =>
        decide (k ∈ ((if s = p.session then [] else (w.heap s).Clients)).map Prod.snd) ||
          w.connClosed k
      | none => w.connClosed := by
  obtain ⟨w5, he, hT, hC, hdb, hs, ho⟩ := clientClose_last w env p h
  have hG : ∀ a b, GetTerminalSession w5 a b = GetTerminalSession w a b := by
    intro a b
    simp only [GetTerminalSession, hT]
  rw [he]
  refine ⟨?_, ?_, ?_, ?_, ?_, ?_⟩
  · show ((RemoveTerminalSession w5 p.username p.terminalID).heap p.session).Clients = []
    rw [RemoveTerminalSession_heap]
    split_ifs <;> simp [hs]
  · show ((RemoveTerminalSession w5 p.username p.terminalID).heap p.session).Buffer = _
    rw [(RemoveTerminalSession_frame w5 p.username p.terminalID).2.2.2, hs]
  · show (RemoveTerminalSession w5 p.username p.terminalID).db = _
    rw [(RemoveTerminalSession_frame w5 p.username p.terminalID).1, hdb]
  · intro a b
    show GetTerminalSession (RemoveTerminalSession w5 p.username p.terminalID) a b = _
    rw [Get_RemoveTerminalSession, hG]
  · intro t
    show ((RemoveTerminalSession w5 p.username p.terminalID).heap t).Done = _
    rw [RemoveTerminalSession_heap, hG]
    have hD : (w5.heap t).Done = (w.heap t).Done := by
      by_cases ht : t = p.session
      · subst ht; rw [hs]
      · rw [ho t ht]
    split_ifs <;> simp [hD]
  · show (RemoveTerminalSession w5 p.username p.terminalID).connClosed = _
    rw [RemoveTerminalSession_connClosed, hG, hC]
    cases GetTerminalSession w p.username p.terminalID with
    | none => rfl
    | some s =>
      by_cases hsp : s = p.session
      · subst hsp; simp [hs]
      · show (fun k => decide (k ∈ List.map Prod.snd (w5.heap s).Clients) || w.connClosed k) = _
        rw [ho s hsp]
        simp only [if_neg hsp]

/-- The `close` handling run once more on the state it left: the registry, the
client set, the `Done` count and the PTY of every session and the connections
are as it left them, and so are the store rows (key, buffer and active flag)
when the save and the mark fail or succeed as they did the first time. -/
theorem clientClose_again (w : World) (env env' : CloseEnv) (p : ClientPump) :
    (∀ a b, GetTerminalSession (clientClose (clientClose w env p) env' p) a b =
      GetTerminalSession (clientClose w env p) a b) ∧
    ((clientClose (clientClose w env p) env' p).heap p.session).Clients =
      ((clientClose w env p).heap p.session).Clients ∧
    (∀ t, ((clientClose (clientClose w env p) env' p).heap t).Done =
      ((clientClose w env p).heap t).Done) ∧
    (∀ t, ((clientClose (clientClose w env p) env' p).heap t).Ptmx =
      ((clientClose w env p).heap t).Ptmx) ∧
    (clientClose (clientClose w env p) env' p).connClosed =
      (clientClose w env p).connClosed ∧
    (env'.saveFails = env.saveFails → env'.markFails = env.markFails →
      (clientClose (clientClose w env p) env' p).db.map rowView =
        (clientClose w env p).db.map rowView) := by
  by_cases h : mdel (w.heap p.session).Clients p.clientIP = []
  · obtain ⟨hc1, hb1, hdb1, hg1, hd1, hcc1⟩ := clientClose_last_state w env p h
    have h' : mdel ((clientClose w env p).heap p.session).Clients p.clientIP = [] := by
      rw [hc1]; rfl
    have hn1 : GetTerminalSession (clientClose w env p) p.username p.terminalID = none := by
      rw [hg1]; simp
    obtain ⟨hc2, _, hdb2, hg2, hd2, hcc2⟩ := clientClose_last_state (clientClose w env p) env' p h'
    refine ⟨?_, ?_, ?_, ?_, ?_, ?_⟩
    · intro a b
      rw [hg2]
      split_ifs with hk
      · rw [← hk.1, ← hk.2, hn1]
      · rfl
    · rw [hc2, hc1]
    · intro t
      rw [hd2, hn1]
      simp
    · intro t
      obtain ⟨w5, he, hT, _, _, hs, ho⟩ := clientClose_last (clientClose w env p) env' p h'
      have hn5 : GetTerminalSession w5 p.username p.terminalID = none := by
        simp only [GetTerminalSession, hT]
        exact hn1
      rw [he]
      show ((RemoveTerminalSession w5 p.username p.terminalID).heap t).Ptmx = _
      rw [RemoveTerminalSession_heap, hn5, if_neg (by simp)]
      by_cases ht : t = p.session
      · subst ht; rw [hs]
      · rw [ho t ht]
    · rw [hcc2, hn1]
    · intro hs hm
      rw [hdb2, hdb1, hb1, hs, hm]
      exact view_Mark_Save_twice w.db env.now env'.now env.saveFails env.markFails
        p.username p.terminalID _
  · have h1 := clientClose_others w env p h
    have hcl : ((clientClose w env p).heap p.session).Clients =
        mdel (w.heap p.session).Clients p.clientIP := by
      rw [h1]; simp [World.setSession]
    have h' : mdel ((clientClose w env p).heap p.session).Clients p.clientIP ≠ [] := by
      rw [hcl, mdel_mdel]; exact h
    rw [clientClose_others (clientClose w env p) env' p h']
    refine ⟨fun _ _ => rfl, ?_, ?_, ?_, rfl, fun _ _ => rfl⟩
    · simp [World.setSession, mdel_mdel, hcl]
    · intro t
      by_cases ht : t = p.session
      · subst ht; simp [World.setSession]
      · simp [World.setSession, Function.update_noteq ht]
    · intro t
      by_cases ht : t = p.session
      · subst ht; simp [World.setSession]
      · simp [World.setSession, Function.update_noteq ht]

theorem clientClose_clientPumps (w : World) (env : CloseEnv) (p : ClientPump) :
    (clientClose w env p).clientPumps = w.clientPumps.erase p := by
  by_cases h : mdel (w.heap p.session).Clients p.clientIP = []
  · obtain ⟨w5, he, _⟩ := clientClose_last w env p h
    have hcp : ∀ w0 : World, (RemoveTerminalSession w0 p.username p.terminalID).clientPumps =
        w0.clientPumps := by
      intro w0
      rw [RemoveTerminalSession_eq]
      cases GetTerminalSession w0 p.username p.terminalID <;>
        simp [deleteEntry_eq, closeSession_eq]
    unfold clientClose
    simp only [World.setSession, Function.update_same, h, List.length_nil, if_true, hcp]
    cases (w.heap p.session).Cmd <;> simp [MarkSessionInactive, SaveSessionToDatabase]
  · rw [clientClose_others w env p h]

/-- C17: handling `close` is idempotent. After a `close` message the pump
returns, so whatever the client sends next, a second `close` in particular, is
never read: the state after the two messages is the state after the first. The
registry, the session's client set, the store rows (buffer and active flag)
and the `Done` count of every session are exactly as after the first `close`,
which closed `Done` at most once, and the pump is no longer running. Moreover
the `close` handling itself, run again on the state it left, keeps the
registry, the client set, the PTY, the connections and `Done` (it is not
closed again), and keeps the store rows when its save and mark fail or succeed
as the first time. -/
theorem close_twice_idempotent (w : World) (p : ClientPump) (env : PumpEnv)
    (payload : List Byte) (m : Message) (rest : List (PumpEnv × ReadResult))
    (hm : m.MsgType = "close") :
    clientPumpLoop p w ((env, ReadResult.text payload (some m)) :: rest) =
      clientPumpLoop p w [(env, ReadResult.text payload (some m))] ∧
    clientPumpLoop p w [(env, ReadResult.text payload (some m))] =
      clientClose w env.toCloseEnv p ∧
    (∀ a b,
      GetTerminalSession
          (clientPumpLoop p w ((env, ReadResult.text payload (some m)) :: rest)) a b =
        GetTerminalSession (clientPumpLoop p w [(env, ReadResult.text payload (some m))]) a b) ∧
    ((clientPumpLoop p w ((env, ReadResult.text payload (some m)) :: rest)).heap
        p.session).Clients =
      ((clientPumpLoop p w [(env, ReadResult.text payload (some m))]).heap p.session).Clients ∧
    (clientPumpLoop p w ((env, ReadResult.text payload (some m)) :: rest)).db =
      (clientPumpLoop p w [(env, ReadResult.text payload (some m))]).db ∧
    (∀ t,
      ((clientPumpLoop p w ((env, ReadResult.text payload (some m)) :: rest)).heap t).Done =
        ((clientPumpLoop p w [(env, ReadResult.text payload (some m))]).heap t).Done ∧
      ((clientPumpLoop p w [(env, ReadResult.text payload (some m))]).heap t).Done ≤
        (w.heap t).Done + 1) ∧
    (w.clientPumps.Nodup → p ∉ (clientClose w env.toCloseEnv p).clientPumps) ∧
    (∀ again : CloseEnv,
      (∀ a b,
        GetTerminalSession (clientClose (clientClose w env.toCloseEnv p) again p) a b =
          GetTerminalSession (clientClose w env.toCloseEnv p) a b) ∧
      ((clientClose (clientClose w env.toCloseEnv p) again p).heap p.session).Clients =
        ((clientClose w env.toCloseEnv p).heap p.session).Clients ∧
      (∀ t, ((clientClose (clientClose w env.toCloseEnv p) again p).heap t).Done =
        ((clientClose w env.toCloseEnv p).heap t).Done) ∧
      (∀ t, ((clientClose (clientClose w env.toCloseEnv p) again p).heap t).Ptmx =
        ((clientClose w env.toCloseEnv p).heap t).Ptmx) ∧
      (clientClose (clientClose w env.toCloseEnv p) again p).connClosed =
        (clientClose w env.toCloseEnv p).connClosed ∧
      (again.saveFails = env.saveFails → again.markFails = env.markFails →
        (clientClose (clientClose w env.toCloseEnv p) again p).db.map rowView =
          (clientClose w env.toCloseEnv p).db.map rowView)) := by
  have hret : pumpReturns (ReadResult.text payload (some m)) = true := by
    simp [pumpReturns, hm]
  have h2 : clientPumpLoop p w ((env, ReadResult.text payload (some m)) :: rest) =
      handleWebSocketConnection w env p (ReadResult.text payload (some m)) := by
    simp only [clientPumpLoop, hret, if_true]
  have h1 : clientPumpLoop p w [(env, ReadResult.text payload (some m))] =
      handleWebSocketConnection w env p (ReadResult.text payload (some m)) := by
    simp only [clientPumpLoop, hret, if_true]
  have hH : handleWebSocketConnection w env p (ReadResult.text payload (some m)) =
      clientClose w env.toCloseEnv p := by
    simp [handleWebSocketConnection, hm]
  refine ⟨h2.trans h1.symm, h1.trans hH, fun _ _ => by rw [h2, h1], by rw [h2, h1],
    by rw [h2, h1], fun t => ⟨by rw [h2, h1], ?_⟩, ?_, fun again => ?_⟩
  · rw [h1, hH]
    by_cases h : mdel (w.heap p.session).Clients p.clientIP = []
    · rw [(clientClose_last_state w env.toCloseEnv p h).2.2.2.2.1 t]
      split_ifs <;> omega
    · rw [clientClose_others w env.toCloseEnv p h]
      by_cases ht : t = p.session
      · subst ht; simp [World.setSession]
      · simp [World.setSession, Function.update_noteq ht]
  · intro hnd
    rw [clientClose_clientPumps]
    exact fun hmem => (List.Nodup.mem_erase_iff hnd).mp hmem |>.1 rfl
  · exact clientClose_again w env.toCloseEnv again p

theorem close_twice_idempotent_witness :
    clientPumpLoop livePump liveWorld
        [(PumpEnv.ok 100, closeFrame), (PumpEnv.ok 101, closeFrame)] =
      clientPumpLoop livePump liveWorld [(PumpEnv.ok 100, closeFrame)] ∧
    (clientPumpLoop livePump liveWorld
        [(PumpEnv.ok 100, closeFrame), (PumpEnv.ok 101, closeFrame)]).db.map rowView =
      [("u", "s3", some [120], 0)] ∧
    livePump ∉ (clientClose liveWorld (PumpEnv.ok 100).toCloseEnv livePump).clientPumps :=
  ⟨(close_twice_idempotent liveWorld livePump (PumpEnv.ok 100)
      (bytesOf "\x7b\"type\":\"close\",\"terminalId\":\"s3\",\"data\":null\x7d")
      { MsgType := "close", TerminalID := "s3", Data := JSON.null }
      [(PumpEnv.ok 101, closeFrame)] rfl).1,
   by decide,
   (close_twice_idempotent liveWorld livePump (PumpEnv.ok 100)
      (bytesOf "\x7b\"type\":\"close\",\"terminalId\":\"s3\",\"data\":null\x7d")
      { MsgType := "close", TerminalID := "s3", Data := JSON.null }
      [(PumpEnv.ok 101, closeFrame)] rfl).2.2.2.2.2.2.1 (by decide)⟩

/-! ### Owner isolation of kill and remove (C30) -/

/-- The three ways `KillTerminalSession` ends. -/
theorem Kill_cases (w : World) (env : KillEnv) (u id : String) :
    (GetTerminalSession w u id = none ∧
      ∃ e, KillTerminalSession w env u id = (w, some e)) ∨
    (∃ s, GetTerminalSession w u id = some s ∧
      KillTerminalSession w env u id = (w, some KillError.failedToTerminate)) ∨
    (∃ s w0, GetTerminalSession w u id = some s ∧
      KillTerminalSession w env u id = killTeardown w0 env u id s ∧
      w0.TerminalSessions = w.TerminalSessions ∧ w0.db = w.db ∧
      w0.connClosed = w.connClosed ∧ (∀ t, t ≠ s → w0.heap t = w.heap t) ∧
      (w0.heap s).Clients = (w.heap s).Clients ∧ (w0.heap s).Done = (w.heap s).Done ∧
      (w0.heap s).Ptmx = (w.heap s).Ptmx) := by
  unfold KillTerminalSession GetTerminalSession
  cases h1 : mget w.TerminalSessions u with
  | none => exact Or.inl ⟨rfl, _, rfl⟩
  | some sessions =>
    simp only
    cases h2 : mget sessions id with
    | none => exact Or.inl ⟨rfl, _, rfl⟩
    | some s =>
      simp only
      cases h3 : (w.heap s).Cmd with
      | none =>
        exact Or.inr (Or.inr ⟨s, w, rfl, rfl, rfl, rfl, rfl, fun _ _ => rfl, rfl, rfl, rfl⟩)
      | some proc =>
        simp only
        by_cases ht : env.sigtermFails = true
        · by_cases hk : env.killFails = true
          · rw [if_pos ht, if_pos hk]
            exact Or.inr (Or.inl ⟨s, rfl, rfl⟩)
          · rw [if_pos ht, if_neg hk]
            refine Or.inr (Or.inr ⟨s, _, rfl, rfl, rfl, rfl, rfl, fun t ht' => ?_, ?_, ?_, ?_⟩)
            · simp [World.setSession, Function.update_noteq ht']
            · simp [World.setSession]
            · simp [World.setSession]
            · simp [World.setSession]
        · rw [if_neg ht]
          refine Or.inr (Or.inr ⟨s, _, rfl, rfl, rfl, rfl, rfl, fun t ht' => ?_, ?_, ?_, ?_⟩)
          · simp [World.setSession, Function.update_noteq ht']
          · simp [World.setSession]
          · simp [World.setSession]
          · simp [World.setSession]

/-- The state `killTeardown` returns. -/
theorem killTeardown_fields (w : World) (env : KillEnv) (u id : String) (s : Nat) :
    (∀ a b, GetTerminalSession (killTeardown w env u id s).1 a b =
      if u = a ∧ id = b then none else GetTerminalSession w a b) ∧
    (killTeardown w env u id s).1.db =
      (DeleteTerminalSessionFromDB w.db env.deleteFails u id).1 ∧
    (∀ t, t ≠ s → (killTeardown w env u id s).1.heap t = w.heap t) ∧
    ((killTeardown w env u id s).1.heap s).Done = (w.heap s).Done + 1 := by
  refine ⟨fun a b => ?_, ?_, fun t ht => ?_, ?_⟩
  · simp only [killTeardown, Get_deleteEntry]
    split_ifs
    · rfl
    · simp [GetTerminalSession, closeSession_eq]
  · simp [killTeardown, deleteEntry_db, closeSession_db]
  · simp [killTeardown, deleteEntry_heap, closeSession_eq, Function.update_noteq ht]
  · simp [killTeardown, deleteEntry_heap, closeSession_eq]

theorem Delete_other_rows (db : List Row) (fail : Bool) (u id : String) :
    (DeleteTerminalSessionFromDB db fail u id).1.filter (fun r => !rowMatches u id r) =
      db.filter (fun r => !rowMatches u id r) := by
  cases fail <;> simp [DeleteTerminalSessionFromDB, List.filter_filter]

/-- C30: owner isolation. `RemoveTerminalSession(u, id)` and
`KillTerminalSession(u, id)` leave every registry entry of another key as it
was, and leave every session other than the one registered under `(u, id)`
untouched; `RemoveTerminalSession` leaves the store as it was and
`KillTerminalSession` leaves the rows of every other key as they were (same
rows, same order). When `(u, id)` is not in the registry `KillTerminalSession`
returns an error and the state unchanged. -/
theorem kill_and_remove_keep_other_keys (w : World) (env : KillEnv) (u id : String) :
    (∀ a b, ¬ (u = a ∧ id = b) →
      GetTerminalSession (RemoveTerminalSession w u id) a b = GetTerminalSession w a b) ∧
    (∀ t, GetTerminalSession w u id ≠ some t →
      (RemoveTerminalSession w u id).heap t = w.heap t) ∧
    (RemoveTerminalSession w u id).db = w.db ∧
    (∀ a b, ¬ (u = a ∧ id = b) →
      GetTerminalSession (KillTerminalSession w env u id).1 a b = GetTerminalSession w a b) ∧
    (∀ t, GetTerminalSession w u id ≠ some t →
      (KillTerminalSession w env u id).1.heap t = w.heap t) ∧
    (KillTerminalSession w env u id).1.db.filter (fun r => !rowMatches u id r) =
      w.db.filter (fun r => !rowMatches u id r) ∧
    (GetTerminalSession w u id = none →
      (KillTerminalSession w env u id).1 = w ∧
      (KillTerminalSession w env u id).2 ≠ none) := by
  refine ⟨?_, ?_, (RemoveTerminalSession_frame w u id).1, ?_, ?_, ?_, ?_⟩
  · intro a b hk
    rw [Get_RemoveTerminalSession, if_neg hk]
  · intro t ht
    rw [RemoveTerminalSession_heap, if_neg ht]
  · intro a b hk
    rcases Kill_cases w env u id with ⟨_, e, he⟩ | ⟨s, _, he⟩ | ⟨s, w0, _, he, hT, _⟩
    · rw [he]
    · rw [he]
    · rw [he, (killTeardown_fields w0 env u id s).1, if_neg hk]
      simp only [GetTerminalSession, hT]
  · intro t ht
    rcases Kill_cases w env u id with ⟨_, e, he⟩ | ⟨s, _, he⟩ | ⟨s, w0, hg, he, _, _, _, ho, _⟩
    · rw [he]
    · rw [he]
    · have hts : t ≠ s := fun h => ht (h ▸ hg)
      rw [he, (killTeardown_fields w0 env u id s).2.2.1 t hts, ho t hts]
  · rcases Kill_cases w env u id with ⟨_, e, he⟩ | ⟨s, _, he⟩ | ⟨s, w0, _, he, _, hdb, _⟩
    · rw [he]
    · rw [he]
    · rw [he, (killTeardown_fields w0 env u id s).2.1, hdb, Delete_other_rows]
  · intro hg
    rcases Kill_cases w env u id with ⟨_, e, he⟩ | ⟨s, hs, _⟩ | ⟨s, w0, hs, _⟩
    · rw [he]
      exact ⟨rfl, by simp⟩
    · rw [hg] at hs; cases hs
    · rw [hg] at hs; cases hs

theorem kill_and_remove_keep_other_keys_witness :
    GetTerminalSession liveWorld "u" "s4" = none ∧
    (KillTerminalSession liveWorld KillEnv.ok "u" "s4").1 = liveWorld ∧
    (KillTerminalSession liveWorld KillEnv.ok "u" "s4").2 ≠ none ∧
    GetTerminalSession (KillTerminalSession liveWorld KillEnv.ok "u" "s4").1 "u" "s3" = some 0 :=
  ⟨by decide,
   ((kill_and_remove_keep_other_keys liveWorld KillEnv.ok "u" "s4").2.2.2.2.2.2 (by decide)).1,
   ((kill_and_remove_keep_other_keys liveWorld KillEnv.ok "u" "s4").2.2.2.2.2.2 (by decide)).2,
   ((kill_and_remove_keep_other_keys liveWorld KillEnv.ok "u" "s4").2.2.2.1 "u" "s3"
      (by decide)).trans (by decide)⟩

/-! ### The client pump: heartbeat (C21) -/

/-- C21: on a `heartbeat` message the client pump sets `LastActive` to the
current time and writes to the sender's connection the text message with type
`heartbeat`, the terminal id of the pump and data `pong` (the frame is on the
connection when the write does not fail). Whether or not the write fails, the
client stays in the client set, the pump is still running, and the registry,
the store and the connections are as before. -/
theorem heartbeat_replies_pong (w : World) (env : PumpEnv) (p : ClientPump)
    (payload : List Byte) (m : Message) (ht : m.MsgType = "heartbeat") :
    ((handleWebSocketConnection w env p (ReadResult.text payload (some m))).heap
      p.session).LastActive = env.now ∧
    (env.replyFails = false →
      (handleWebSocketConnection w env p (ReadResult.text payload (some m))).connSent p.conn =
        w.connSent p.conn ++
          [Frame.text { MsgType := "heartbeat", TerminalID := p.terminalID, Data := "pong" }] ∧
      ∀ c, c ≠ p.conn →
        (handleWebSocketConnection w env p (ReadResult.text payload (some m))).connSent c =
          w.connSent c) ∧
    (env.replyFails = true →
      (handleWebSocketConnection w env p (ReadResult.text payload (some m))).connSent =
        w.connSent) ∧
    (handleWebSocketConnection w env p (ReadResult.text payload (some m))).heap p.session =
      { w.heap p.session with LastActive := env.now } ∧
    (∀ t, t ≠ p.session →
      (handleWebSocketConnection w env p (ReadResult.text payload (some m))).heap t =
        w.heap t) ∧
    (handleWebSocketConnection w env p (ReadResult.text payload (some m))).clientPumps =
      w.clientPumps ∧
    (handleWebSocketConnection w env p (ReadResult.text payload (some m))).connClosed =
      w.connClosed ∧
    (handleWebSocketConnection w env p (ReadResult.text payload (some m))).db = w.db ∧
    (∀ a b,
      GetTerminalSession (handleWebSocketConnection w env p (ReadResult.text payload (some m)))
        a b = GetTerminalSession w a b) := by
  have hH : handleWebSocketConnection w env p (ReadResult.text payload (some m)) =
      handleHeartbeat w env p := by
    simp [handleWebSocketConnection, ht]
  rw [hH]
  unfold handleHeartbeat
  cases hr : env.replyFails with
  | true =>
    refine ⟨?_, fun h => Bool.noConfusion h, fun _ => ?_, ?_, fun t ht' => ?_, ?_, ?_, ?_,
      fun _ _ => ?_⟩
    · simp [touch, World.setSession]
    · simp [touch, World.setSession]
    · simp [touch, World.setSession]
    · simp [touch, World.setSession, Function.update_noteq ht']
    · simp [touch, World.setSession]
    · simp [touch, World.setSession]
    · simp [touch, World.setSession]
    · simp [touch, World.setSession, GetTerminalSession]
  | false =>
    refine ⟨?_, fun _ => ⟨?_, fun c hc => ?_⟩, fun h => Bool.noConfusion h, ?_,
      fun t ht' => ?_, ?_, ?_, ?_, fun _ _ => ?_⟩
    · simp [touch, World.setSession, World.send]
    · simp [touch, World.setSession, World.send, heartbeatResp]
    · simp [touch, World.setSession, World.send, Function.update_noteq hc]
    · simp [touch, World.setSession, World.send]
    · simp [touch, World.setSession, World.send, Function.update_noteq ht']
    · simp [touch, World.setSession, World.send]
    · simp [touch, World.setSession, World.send]
    · simp [touch, World.setSession, World.send]
    · simp [touch, World.setSession, World.send, GetTerminalSession]

theorem heartbeat_replies_pong_witness :
    ((handleWebSocketConnection liveWorld (PumpEnv.ok 100) livePump heartbeatFrame).heap
      0).LastActive = 100 ∧
    (handleWebSocketConnection liveWorld (PumpEnv.ok 100) livePump heartbeatFrame).connSent 0 =
      liveWorld.connSent 0 ++
        [Frame.text { MsgType := "heartbeat", TerminalID := "s3", Data := "pong" }] :=
  ⟨(heartbeat_replies_pong liveWorld (PumpEnv.ok 100) livePump _
      { MsgType := "heartbeat", TerminalID := "s3", Data := JSON.string "ping" } rfl).1,
   ((heartbeat_replies_pong liveWorld (PumpEnv.ok 100) livePump _
      { MsgType := "heartbeat", TerminalID := "s3", Data := JSON.string "ping" } rfl).2.1
      rfl).1⟩

/-! ### Spawn failure during attach (C22) -/

/-- The attach of a key that is not registered, up to `pty.Start`. -/
theorem HandleUnixTerminal_new (w : World) (env : AttachEnv) (conn : Nat)
    (clientIP id u : String) (hg : GetTerminalSession w u id = none) :
    HandleUnixTerminal w env conn clientIP id u =
      attachSpawn (restoreOrCreate w env id u).1 env conn clientIP id u w.nextSession := by
  unfold HandleUnixTerminal
  rw [hg]
  rfl

theorem restoreOrCreate_session (w : World) (env : AttachEnv) (id u : String) :
    ∃ data, (restoreOrCreate w env id u).1.heap w.nextSession = newSession env.now data := by
  simp only [restoreOrCreate, SaveTerminalSession, Function.update_same]
  exact ⟨_, rfl⟩

theorem restoreOrCreate_frame (w : World) (env : AttachEnv) (id u : String) :
    (restoreOrCreate w env id u).1.clientPumps = w.clientPumps ∧
    (restoreOrCreate w env id u).1.connClosed = w.connClosed ∧
    (restoreOrCreate w env id u).1.connSent = w.connSent := by
  simp [restoreOrCreate, SaveTerminalSession]

/-- What `attachSpawn` does when `pty.Start` fails: the client is in the
client set, the error frame is the last frame written to it, and neither a
PTY, a shell nor a pump is started. -/
theorem attachSpawn_failed_fields (w : World) (env : AttachEnv) (conn : Nat)
    (clientIP terminalID username : String) (s : Nat) (err : String)
    (hs : env.spawnError = some err) :
    ((attachSpawn w env conn clientIP terminalID username s).heap s).Cmd = (w.heap s).Cmd ∧
    (attachSpawn w env conn clientIP terminalID username s).clientPumps = w.clientPumps ∧
    (attachSpawn w env conn clientIP terminalID username s).connClosed = w.connClosed ∧
    ∃ before, (attachSpawn w env conn clientIP terminalID username s).connSent conn =
      before ++ [Frame.binary (bytesOf ("Failed to start terminal: " ++ err ++ "\r\n"))] := by
  unfold attachSpawn
  simp only [hs]
  by_cases hlen : (w.heap s).Buffer.Data.length > 0
  · refine ⟨?_, ?_, ?_, ?_⟩
    · simp [addClient, touch, World.setSession, World.send, hlen]
    · simp [addClient, touch, World.setSession, World.send, hlen]
    · simp [addClient, touch, World.setSession, World.send, hlen]
    · simp only [addClient, touch, World.setSession, World.send, hlen, if_true,
        Function.update_same]
      exact ⟨_, rfl⟩
  · refine ⟨?_, ?_, ?_, ?_⟩
    · simp [addClient, touch, World.setSession, World.send, hlen]
    · simp [addClient, touch, World.setSession, World.send, hlen]
    · simp [addClient, touch, World.setSession, World.send, hlen]
    · simp only [addClient, touch, World.setSession, World.send, hlen, if_false,
        Function.update_same]
      exact ⟨_, rfl⟩

/-- What a failed `pty.Start` leaves behind, for every state: the session
created for the key is registered, with the initiating client in its client
set and without PTY or shell; the client has been sent the error frame, its
connection has not been closed and no pump has been started for it. -/
theorem spawn_failure_leaves_session_registered (w : World) (env : AttachEnv) (conn : Nat)
    (clientIP id u err : String)
    (hg : GetTerminalSession w u id = none) (hs : env.spawnError = some err) :
    GetTerminalSession (HandleUnixTerminal w env conn clientIP id u) u id =
      some w.nextSession ∧
    ((HandleUnixTerminal w env conn clientIP id u).heap w.nextSession).Clients =
      [(clientIP, conn)] ∧
    ((HandleUnixTerminal w env conn clientIP id u).heap w.nextSession).Ptmx = none ∧
    ((HandleUnixTerminal w env conn clientIP id u).heap w.nextSession).Cmd = none ∧
    (HandleUnixTerminal w env conn clientIP id u).ptyPumps = w.ptyPumps ∧
    (HandleUnixTerminal w env conn clientIP id u).clientPumps = w.clientPumps ∧
    (HandleUnixTerminal w env conn clientIP id u).connClosed = w.connClosed ∧
    ∃ before, (HandleUnixTerminal w env conn clientIP id u).connSent conn =
      before ++ [Frame.binary (bytesOf ("Failed to start terminal: " ++ err ++ "\r\n"))] := by
  rw [HandleUnixTerminal_new w env conn clientIP id u hg]
  obtain ⟨data, hd⟩ := restoreOrCreate_session w env id u
  obtain ⟨_, hG, hP, _, _⟩ := restoreOrCreate_fields w env id u
  obtain ⟨hcp, hcc, _⟩ := restoreOrCreate_frame w env id u
  obtain ⟨h1, h2⟩ := attachSpawn_failed (restoreOrCreate w env id u).1 env conn clientIP id u
    w.nextSession err hs
  obtain ⟨h3, h4, h5, h6⟩ := attachSpawn_failed_fields (restoreOrCreate w env id u).1 env conn
    clientIP id u w.nextSession err hs
  refine ⟨?_, ?_, ?_, ?_, ?_, ?_, ?_, h6⟩
  · rw [Get_attachSpawn, hG]
  · rw [attachSpawn_Clients, hd]
    rfl
  · rw [h1, hd]; rfl
  · rw [h3, hd]; rfl
  · rw [h2, hP]
  · rw [h4, hcp]
  · rw [h5, hcc]

theorem spawn_failure_leaves_session_registered_witness :
    GetTerminalSession
      (HandleUnixTerminal (World.init []) (AttachEnv.spawnFailing 0 "no pty") 0 "c1" "s3" "u")
      "u" "s3" = some 0 ∧
    ((HandleUnixTerminal (World.init []) (AttachEnv.spawnFailing 0 "no pty") 0 "c1" "s3"
      "u").heap 0).Ptmx = none :=
  ⟨(spawn_failure_leaves_session_registered (World.init []) (AttachEnv.spawnFailing 0 "no pty")
      0 "c1" "s3" "u" "no pty" (by decide) rfl).1,
   (spawn_failure_leaves_session_registered (World.init []) (AttachEnv.spawnFailing 0 "no pty")
      0 "c1" "s3" "u" "no pty" (by decide) rfl).2.2.1⟩

/-- C22 fails: from the empty registry, client `c1` attaches to `(u, s3)` and
`pty.Start` fails. After the attach returns the registry holds the new session
under `(u, s3)`, and `c1` is in the client set of that session, with its
connection open and no pump reading it. When `c2` attaches to `(u, s3)` later
and the spawn succeeds, it gets that session, in which `c1` is still
attached. -/
theorem spawn_failure_keeps_entry_and_client :
    GetTerminalSession (World.init []) "u" "s3" = none ∧
    GetTerminalSession
      (HandleUnixTerminal (World.init []) (AttachEnv.spawnFailing 0 "no pty") 0 "c1" "s3" "u")
      "u" "s3" = some 0 ∧
    ((HandleUnixTerminal (World.init []) (AttachEnv.spawnFailing 0 "no pty") 0 "c1" "s3"
      "u").heap 0).Clients = [("c1", 0)] ∧
    (HandleUnixTerminal (World.init []) (AttachEnv.spawnFailing 0 "no pty") 0 "c1" "s3"
      "u").connClosed 0 = false ∧
    (HandleUnixTerminal (World.init []) (AttachEnv.spawnFailing 0 "no pty") 0 "c1" "s3"
      "u").clientPumps = [] ∧
    GetTerminalSession
      (HandleUnixTerminal
        (HandleUnixTerminal (World.init []) (AttachEnv.spawnFailing 0 "no pty") 0 "c1" "s3" "u")
        (AttachEnv.ok 5) 1 "c2" "s3" "u") "u" "s3" = some 0 ∧
    ((HandleUnixTerminal
        (HandleUnixTerminal (World.init []) (AttachEnv.spawnFailing 0 "no pty") 0 "c1" "s3" "u")
        (AttachEnv.ok 5) 1 "c2" "s3" "u").heap 0).Clients = [("c2", 1), ("c1", 0)] ∧
    (HandleUnixTerminal
        (HandleUnixTerminal (World.init []) (AttachEnv.spawnFailing 0 "no pty") 0 "c1" "s3" "u")
        (AttachEnv.ok 5) 1 "c2" "s3" "u").clientPumps.map ClientPump.clientIP = ["c2"] :=
  ⟨by decide, by decide, by decide, by decide, by decide, by decide, by decide, by decide⟩

/-! ### End-of-file on the PTY (C23) -/

/-- What end-of-file on the PTY does: the pump returns and nothing else is
done. A session registered under `(owner, id)` stays registered; the store,
hence its row or the absence of one, is as before; every session (scroll-back,
clients, PTY, shell, `Done`) and every connection is as before. Only the pump
is gone. -/
theorem pty_eof_only_ends_pump (w : World) (u id : String) (s : Nat)
    (hg : GetTerminalSession w u id = some s) :
    GetTerminalSession (ptyReadError w s) u id = some s ∧
    (∀ a b, GetTerminalSession (ptyReadError w s) a b = GetTerminalSession w a b) ∧
    (ptyReadError w s).db = w.db ∧
    (ptyReadError w s).heap = w.heap ∧
    (ptyReadError w s).connClosed = w.connClosed ∧
    (ptyReadError w s).connSent = w.connSent ∧
    (ptyReadError w s).clientPumps = w.clientPumps ∧
    (ptyReadError w s).ptyPumps = w.ptyPumps.erase s :=
  ⟨hg, fun _ _ => rfl, rfl, rfl, rfl, rfl, rfl, rfl⟩

theorem pty_eof_only_ends_pump_witness :
    GetTerminalSession (ptyReadError liveWorld 0) "u" "s3" = some 0 ∧
    (ptyReadError liveWorld 0).db = liveWorld.db :=
  ⟨(pty_eof_only_ends_pump liveWorld "u" "s3" 0 (by decide)).1,
   (pty_eof_only_ends_pump liveWorld "u" "s3" 0 (by decide)).2.2.1⟩

/-- C23 fails: in `liveWorld` the PTY pump of the session of `(u, s3)` reads
end-of-file (the shell exited). Afterwards the session is still in the
registry, the store has no row for it, its PTY has not been closed, `Done` has
not been closed and its client is still attached: the session is neither
hibernated nor removed. -/
theorem pty_eof_leaves_session_registered :
    0 ∈ liveWorld.ptyPumps ∧
    GetTerminalSession (ptyReadError liveWorld 0) "u" "s3" = some 0 ∧
    hasRow (ptyReadError liveWorld 0).db "u" "s3" = false ∧
    ((ptyReadError liveWorld 0).heap 0).Ptmx.map Pty.Closed = some false ∧
    ((ptyReadError liveWorld 0).heap 0).Done = 0 ∧
    ((ptyReadError liveWorld 0).heap 0).Clients = [("c1", 0)] ∧
    0 ∉ (ptyReadError liveWorld 0).ptyPumps := by
  decide

/-! ### Registry insert (C25) -/

theorem Get_restoreOrCreate (w : World) (env : AttachEnv) (id u a b : String) :
    GetTerminalSession (restoreOrCreate w env id u).1 a b =
      if u = a ∧ id = b then some w.nextSession else GetTerminalSession w a b := by
  simp only [restoreOrCreate, Get_SaveTerminalSession]
  split_ifs
  · rfl
  · simp [GetTerminalSession]

/-- C25 (amended): `SaveTerminalSession` is insert-or-replace: afterwards the
entry of `(owner, id)` is the session passed, whatever was registered before,
and every other entry is as before. `HandleUnixTerminal` calls it only when its
own lookup found no entry: an attach for a key that is registered leaves every
registry entry as it was, and an attach for a key that is not registered
changes the entry of that key only. -/
theorem registry_insert_replaces (w : World) (env : AttachEnv) (conn : Nat)
    (clientIP id u : String) :
    (∀ s a b, GetTerminalSession (SaveTerminalSession w u id s) a b =
      if u = a ∧ id = b then some s else GetTerminalSession w a b) ∧
    (∀ s, GetTerminalSession w u id = some s →
      ∀ a b, GetTerminalSession (HandleUnixTerminal w env conn clientIP id u) a b =
        GetTerminalSession w a b) ∧
    (GetTerminalSession w u id = none →
      ∀ a b, GetTerminalSession (HandleUnixTerminal w env conn clientIP id u) a b =
        if u = a ∧ id = b then some w.nextSession else GetTerminalSession w a b) := by
  refine ⟨fun s a b => Get_SaveTerminalSession w u id a b s, ?_, ?_⟩
  · intro s hg a b
    unfold HandleUnixTerminal
    rw [hg]
    simp only
    split_ifs
    · exact (attachExisting_fields w env conn clientIP id u s).1 a b
    · exact Get_attachSpawn w env conn clientIP id u s a b
  · intro hg a b
    rw [HandleUnixTerminal_new w env conn clientIP id u hg, Get_attachSpawn,
      Get_restoreOrCreate]

theorem registry_insert_replaces_witness :
    GetTerminalSession (HandleUnixTerminal liveWorld (AttachEnv.ok 5) 1 "c2" "s3" "u")
      "u" "s3" = some 0 ∧
    GetTerminalSession (HandleUnixTerminal liveWorld (AttachEnv.ok 5) 1 "c2" "s4" "u")
      "u" "s4" = some 1 :=
  ⟨((registry_insert_replaces liveWorld (AttachEnv.ok 5) 1 "c2" "s3" "u").2.1 0 (by decide)
      "u" "s3").trans (by decide),
   ((registry_insert_replaces liveWorld (AttachEnv.ok 5) 1 "c2" "s4" "u").2.2 (by decide)
      "u" "s4").trans (by decide)⟩

/-- C25 as stated fails: the registry of `liveWorld` holds session 0 under
`(u, s3)`. A second insert for `(u, s3)`, of session 1, replaces the entry;
and so does the create step of an attach (lines 52-85) that found no entry
in its lookup before session 0 was registered. -/
theorem second_insert_replaces_entry :
    GetTerminalSession liveWorld "u" "s3" = some 0 ∧
    GetTerminalSession (SaveTerminalSession liveWorld "u" "s3" 1) "u" "s3" = some 1 ∧
    GetTerminalSession (restoreOrCreate liveWorld (AttachEnv.ok 5) "s3" "u").1 "u" "s3" =
      some 1 := by
  decide

/-! ### The session list (C26, C27) -/

theorem mem_keys_mget {V : Type} {m : List (String × V)} {k : String}
    (h : k ∈ m.map Prod.fst) : ∃ v, mget m k = some v := by
  induction m with
  | nil => simp at h
  | cons e rest ih =>
    obtain ⟨a, x⟩ := e
    simp only [mget]
    by_cases hk : a = k
    · exact ⟨x, by simp [hk]⟩
    · simp only [hk, if_false]
      apply ih
      simp only [List.map_cons, List.mem_cons] at h
      rcases h with h | h
      · exact absurd h.symm hk
      · exact h

/-- The entries of the store list: one for each row of the user. -/
theorem GetUserTerminalSessions_perm (db : List Row) (now : Int) (u : String) :
    ∃ l, GetUserTerminalSessions db now false u = some l ∧
      List.Perm l ((db.filter (fun r => r.username == u)).map (entryOfRow now)) := by
  simp only [GetUserTerminalSessions, Bool.false_eq_true, if_false]
  exact ⟨_, rfl, (List.perm_insertionSort _ _).map _⟩

theorem GetUserTerminalSessions_mem (db : List Row) (now : Int) (u : String)
    (l : List SessionEntry) (h : GetUserTerminalSessions db now false u = some l)
    (e : SessionEntry) :
    e ∈ l ↔ ∃ r ∈ db, r.username = u ∧ e = entryOfRow now r := by
  obtain ⟨l', h', hp⟩ := GetUserTerminalSessions_perm db now u
  rw [h] at h'
  cases h'
  rw [hp.mem_iff]
  simp only [List.mem_map, List.mem_filter, beq_iff_eq]
  constructor
  · rintro ⟨r, ⟨hr, hu⟩, rfl⟩
    exact ⟨r, hr, hu, rfl⟩
  · rintro ⟨r, hr, hu, rfl⟩
    exact ⟨r, ⟨hr, hu⟩, rfl⟩

/-- The loop of `ListTerminals` over the registry entries of the user. -/
theorem listLoop_spec (w : World) (now : Int) (us : List (String × Nat)) :
    ∀ acc : List SessionEntry,
      (∃ extra, us.foldl
          (fun sessions e =>
            if sessions.any (fun s => s.terminal_id == e.1) then sessions
            else sessions ++ [entryOfSession now e.1 (w.heap e.2)]) acc = acc ++ extra ∧
        (∀ x ∈ extra, x.active = true ∧ x.terminal_id ∉ acc.map SessionEntry.terminal_id ∧
          ∃ e ∈ us, x = entryOfSession now e.1 (w.heap e.2)) ∧
        (∀ e ∈ us, e.1 ∈ (acc ++ extra).map SessionEntry.terminal_id) ∧
        ((acc.map SessionEntry.terminal_id).Nodup →
          ((acc ++ extra).map SessionEntry.terminal_id).Nodup)) := by
  induction us with
  | nil =>
    intro acc
    exact ⟨[], by simp, by simp, by simp, by simp⟩
  | cons e rest ih =>
    intro acc
    rw [List.foldl_cons]
    by_cases hany : acc.any (fun s => s.terminal_id == e.1) = true
    · rw [if_pos hany]
      obtain ⟨extra, h1, h2, h3, h4⟩ := ih acc
      refine ⟨extra, h1, ?_, ?_, h4⟩
      · intro x hx
        obtain ⟨a, b, e', he', hxe⟩ := h2 x hx
        exact ⟨a, b, e', List.mem_cons_of_mem _ he', hxe⟩
      · intro e' he'
        rcases List.mem_cons.mp he' with rfl | hr
        · simp only [List.any_eq_true, beq_iff_eq] at hany
          obtain ⟨y, hy, hye⟩ := hany
          exact List.mem_map.mpr ⟨y, List.mem_append_left _ hy, hye⟩
        · exact h3 e' hr
    · rw [if_neg hany]
      have hnot : e.1 ∉ acc.map SessionEntry.terminal_id := by
        intro hmem
        apply hany
        obtain ⟨y, hy, hye⟩ := List.mem_map.mp hmem
        simp only [List.any_eq_true, beq_iff_eq]
        exact ⟨y, hy, hye⟩
      obtain ⟨extra, h1, h2, h3, h4⟩ := ih (acc ++ [entryOfSession now e.1 (w.heap e.2)])
      refine ⟨entryOfSession now e.1 (w.heap e.2) :: extra, ?_, ?_, ?_, ?_⟩
      · rw [h1, List.append_assoc]
        rfl
      · intro x hx
        rcases List.mem_cons.mp hx with rfl | hr
        · exact ⟨rfl, hnot, e, List.mem_cons_self _ _, rfl⟩
        · obtain ⟨a, b, e', he', hxe⟩ := h2 x hr
          refine ⟨a, ?_, e', List.mem_cons_of_mem _ he', hxe⟩
          intro hmem
          apply b
          rw [List.map_append]
          exact List.mem_append_left _ hmem
      · intro e' he'
        have hrw : acc ++ entryOfSession now e.1 (w.heap e.2) :: extra =
            (acc ++ [entryOfSession now e.1 (w.heap e.2)]) ++ extra := by
          rw [List.append_assoc]; rfl
        rw [hrw]
        rcases List.mem_cons.mp he' with rfl | hr
        · exact List.mem_map.mpr
            ⟨_, List.mem_append_left _ (List.mem_append_right _ (List.mem_singleton_self _)), rfl⟩
        · exact h3 e' hr
      · intro hnd
        have hrw : acc ++ entryOfSession now e.1 (w.heap e.2) :: extra =
            (acc ++ [entryOfSession now e.1 (w.heap e.2)]) ++ extra := by
          rw [List.append_assoc]; rfl
        rw [hrw]
        apply h4
        rw [List.map_append, List.nodup_append]
        refine ⟨hnd, by simp, ?_⟩
        intro a ha hb
        simp only [List.map_cons, List.map_nil, List.mem_singleton] at hb
        subst hb
        exact hnot ha

/-- `ListTerminals` when the query succeeds: the store entries followed by the
entries added for the registry. -/
theorem ListTerminals_spec (w : World) (now : Int) (u : String) :
    ∃ l extra, GetUserTerminalSessions w.db now false u = some l ∧
      ListTerminals w now false u = l ++ extra ∧
      (∀ x ∈ extra, x.active = true ∧ x.terminal_id ∉ l.map SessionEntry.terminal_id ∧
        ∃ s, GetTerminalSession w u x.terminal_id ≠ none ∧
          (∃ us, mget w.TerminalSessions u = some us ∧ (x.terminal_id, s) ∈ us) ∧
          x = entryOfSession now x.terminal_id (w.heap s)) ∧
      (∀ id, GetTerminalSession w u id ≠ none →
        id ∈ (l ++ extra).map SessionEntry.terminal_id) ∧
      ((l.map SessionEntry.terminal_id).Nodup →
        ((l ++ extra).map SessionEntry.terminal_id).Nodup) := by
  obtain ⟨l, hl, _⟩ := GetUserTerminalSessions_perm w.db now u
  unfold ListTerminals GetTerminalSession
  rw [hl]
  simp only
  cases hm : mget w.TerminalSessions u with
  | none =>
    exact ⟨l, [], rfl, by simp, by simp, by simp, by simp⟩
  | some us =>
    simp only
    obtain ⟨extra, h1, h2, h3, h4⟩ := listLoop_spec w now us l
    refine ⟨l, extra, rfl, h1, ?_, ?_, h4⟩
    · intro x hx
      obtain ⟨a, b, e, he, hxe⟩ := h2 x hx
      have hid : x.terminal_id = e.1 := by rw [hxe]; rfl
      refine ⟨a, b, e.2, ?_, ⟨us, rfl, ?_⟩, ?_⟩
      · obtain ⟨v, hv⟩ := mem_keys_mget (List.mem_map.mpr ⟨e, he, hid.symm⟩)
        rw [hv]
        simp
      · rw [hid]; exact he
      · rw [hid]; exact hxe
    · intro id hid
      cases hg : mget us id with
      | none => exact absurd hg hid
      | some s => exact h3 (id, s) (mget_mem hg)

/-- C26 (amended): in the list of `ListTerminals` (query succeeding), a
terminal id that has a store row of the owner is listed with the entry of a
store row, whether or not the registry holds a session for it: its times are
the row's and its `active` field is true exactly when the row's active flag
is 1. An entry taken from the registry, with `active` true, is listed only for
a terminal id that has no store row. -/
theorem ListTerminals_store_row_wins (w : World) (now : Int) (u id : String)
    (hrow : ∃ r ∈ w.db, r.username = u ∧ r.terminal_id = id) :
    (∃ e ∈ ListTerminals w now false u, e.terminal_id = id) ∧
    (∀ e ∈ ListTerminals w now false u, e.terminal_id = id →
      ∃ r ∈ w.db, r.username = u ∧ r.terminal_id = id ∧ e = entryOfRow now r ∧
        e.active = (r.active == 1)) ∧
    (∀ e ∈ ListTerminals w now false u, e ∉ (GetUserTerminalSessions w.db now false u).getD [] →
      e.active = true ∧
      (¬ ∃ r ∈ w.db, r.username = u ∧ r.terminal_id = e.terminal_id) ∧
      ∃ s, GetTerminalSession w u e.terminal_id ≠ none ∧
        e = entryOfSession now e.terminal_id (w.heap s)) := by
  obtain ⟨l, extra, hl, hL, h2, _, _⟩ := ListTerminals_spec w now u
  have hmem := GetUserTerminalSessions_mem w.db now u l hl
  have hids : ∀ x, x ∈ l.map SessionEntry.terminal_id ↔
      ∃ r ∈ w.db, r.username = u ∧ r.terminal_id = x := by
    intro x
    constructor
    · intro hx
      obtain ⟨e, he, rfl⟩ := List.mem_map.mp hx
      obtain ⟨r, hr, hu, rfl⟩ := (hmem e).mp he
      exact ⟨r, hr, hu, rfl⟩
    · rintro ⟨r, hr, hu, rfl⟩
      exact List.mem_map.mpr ⟨entryOfRow now r, (hmem _).mpr ⟨r, hr, hu, rfl⟩, rfl⟩
  rw [hL, hl]
  refine ⟨?_, ?_, ?_⟩
  · obtain ⟨r, hr, hu, hid⟩ := hrow
    exact ⟨entryOfRow now r, List.mem_append_left _ ((hmem _).mpr ⟨r, hr, hu, rfl⟩), hid⟩
  · intro e he hid
    rcases List.mem_append.mp he with h | h
    · obtain ⟨r, hr, hu, rfl⟩ := (hmem e).mp h
      exact ⟨r, hr, hu, hid, rfl, rfl⟩
    · exfalso
      apply (h2 e h).2.1
      rw [hids, hid]
      exact hrow
  · intro e he hne
    simp only [Option.getD_some] at hne
    rcases List.mem_append.mp he with h | h
    · exact absurd h hne
    · obtain ⟨ha, hb, s, hg, _, hs⟩ := h2 e h
      exact ⟨ha, fun hex => hb ((hids _).mpr hex), s, hg, hs⟩

theorem ListTerminals_store_row_wins_witness :
    GetTerminalSession restoredWorld "u" "s3" = some 0 ∧
    ∀ e ∈ ListTerminals restoredWorld 7 false "u", e.terminal_id = "s3" →
      ∃ r ∈ restoredWorld.db, r.username = "u" ∧ r.terminal_id = "s3" ∧
        e = entryOfRow 7 r ∧ e.active = (r.active == 1) :=
  ⟨by decide,
   (ListTerminals_store_row_wins restoredWorld 7 "u" "s3"
      ⟨hibernatedRow, by decide, rfl, rfl⟩).2.1⟩

/-- C26 as stated fails: in `restoredWorld` the terminal id `s3` has a store
row (active flag 0, written at time 0) and a live registry entry (the session
restored at time 1). The list holds one entry for `s3`; it is the row's, with
`active` false and the times of the row. -/
theorem list_reports_live_session_inactive :
    GetTerminalSession restoredWorld "u" "s3" = some 0 ∧
    (restoredWorld.heap 0).Ptmx.map Pty.Closed = some false ∧
    (restoredWorld.heap 0).Created = 1 ∧
    ListTerminals restoredWorld 7 false "u" =
      [{ terminal_id := "s3", created_at := 0, last_active := 0, active := false, age := 7,
         duration := 0 }] :=
  ⟨by decide, by decide, by decide, by decide⟩

/-- What the two list operations return. The handler of `/api/terminals`,
`ListTerminalSessionsHandler`, returns the store rows of the owner and nothing
else: one entry per row, and none for a live session without a row; when the
query fails it returns code 1. The merged list is what `ListTerminals`
computes, which the handler does not call: when the query succeeds it has an
entry for a terminal id exactly when the id is in a store row of the owner or
in the registry of the owner, and each id once when the rows of the owner have
distinct ids; when the query fails it is empty. -/
theorem list_handler_returns_store_rows (w : World) (now : Int) (u : String) (hu : u ≠ "") :
    (∃ l, ListTerminalSessionsHandler w now false u =
        HandlerResult.json
          { Code := 0, Message := "Terminal sessions retrieved", Data := some l } ∧
      l.length = (w.db.filter (fun r => r.username == u)).length ∧
      ∀ e, e ∈ l ↔ ∃ r ∈ w.db, r.username = u ∧ e = entryOfRow now r) ∧
    ListTerminalSessionsHandler w now true u =
      HandlerResult.json
        { Code := 1, Message := "Failed to get terminal sessions", Data := none } ∧
    (∀ id, id ∈ (ListTerminals w now false u).map SessionEntry.terminal_id ↔
      (∃ r ∈ w.db, r.username = u ∧ r.terminal_id = id) ∨
        GetTerminalSession w u id ≠ none) ∧
    (((w.db.filter (fun r => r.username == u)).map Row.terminal_id).Nodup →
      ((ListTerminals w now false u).map SessionEntry.terminal_id).Nodup) ∧
    ListTerminals w now true u = [] := by
  obtain ⟨l, extra, hl, hL, h2, h3, h4⟩ := ListTerminals_spec w now u
  obtain ⟨l', hl', hp⟩ := GetUserTerminalSessions_perm w.db now u
  rw [hl] at hl'
  cases hl'
  have hmem := GetUserTerminalSessions_mem w.db now u l hl
  refine ⟨⟨l, ?_, ?_, hmem⟩, ?_, ?_, ?_, ?_⟩
  · simp [ListTerminalSessionsHandler, hu, hl]
  · rw [hp.length_eq, List.length_map]
  · simp [ListTerminalSessionsHandler, hu, GetUserTerminalSessions]
  · intro id
    rw [hL]
    constructor
    · intro hid
      obtain ⟨e, he, rfl⟩ := List.mem_map.mp hid
      rcases List.mem_append.mp he with h | h
      · obtain ⟨r, hr, hur, rfl⟩ := (hmem e).mp h
        exact Or.inl ⟨r, hr, hur, rfl⟩
      · obtain ⟨_, _, s, hg, _⟩ := h2 e h
        exact Or.inr hg
    · rintro (⟨r, hr, hur, rfl⟩ | hg)
      · exact List.mem_map.mpr
          ⟨entryOfRow now r, List.mem_append_left _ ((hmem _).mpr ⟨r, hr, hur, rfl⟩), rfl⟩
      · exact h3 id hg
  · intro hnd
    rw [hL]
    apply h4
    have hp2 := hp.map SessionEntry.terminal_id
    rw [List.map_map] at hp2
    exact hp2.nodup_iff.mpr hnd
  · simp [ListTerminals, GetUserTerminalSessions]

theorem list_handler_returns_store_rows_witness :
    ∃ l, ListTerminalSessionsHandler restoredWorld 7 false "u" =
        HandlerResult.json
          { Code := 0, Message := "Terminal sessions retrieved", Data := some l } ∧
      l.length = (restoredWorld.db.filter (fun r => r.username == "u")).length ∧
      ∀ e, e ∈ l ↔ ∃ r ∈ restoredWorld.db, r.username = "u" ∧ e = entryOfRow 7 r :=
  (list_handler_returns_store_rows restoredWorld 7 "u" (by decide)).1

/-- C27 fails: in `liveWorld` the owner `u` has the live session `s3`, which
has no store row yet. The handler of `/api/terminals` returns the empty list,
while `ListTerminals`, which the handler does not call, lists `s3`. -/
theorem list_handler_omits_live_session :
    GetTerminalSession liveWorld "u" "s3" = some 0 ∧
    hasRow liveWorld.db "u" "s3" = false ∧
    ListTerminalSessionsHandler liveWorld 7 false "u" =
      HandlerResult.json
        { Code := 0, Message := "Terminal sessions retrieved", Data := some [] } ∧
    (ListTerminals liveWorld 7 false "u").map SessionEntry.terminal_id = ["s3"] :=
  ⟨by decide, by decide, by decide, by decide⟩

/-! ### The password generator (C28) -/

theorem swapAt_length (p : List Char) (i j : Nat) : (swapAt p i j).length = p.length := by
  simp [swapAt]

theorem getD_mem_of_lt {cs : List Char} {i : Nat} (h : i < cs.length) (d : Char) :
    cs.getD i d ∈ cs := by
  rw [List.getD_eq_getElem cs d h]
  exact List.getElem_mem h

/-- A swap of two positions of the slice keeps its characters. -/
theorem swapAt_mem (p : List Char) (i j : Nat) (hi : i < p.length) (hj : j < p.length)
    (x : Char) : x ∈ swapAt p i j ↔ x ∈ p := by
  unfold swapAt
  rw [List.getD_eq_getElem p _ hi, List.getD_eq_getElem p _ hj]
  constructor
  · intro hx
    rcases List.mem_or_eq_of_mem_set hx with h | h
    · rcases List.mem_or_eq_of_mem_set h with h' | h'
      · exact h'
      · rw [h']; exact List.getElem_mem hj
    · rw [h]; exact List.getElem_mem hi
  · intro hx
    obtain ⟨k, hk, rfl⟩ := List.mem_iff_getElem.mp hx
    have hl : ((p.set i p[j]).set j p[i]).length = p.length := by simp
    by_cases hki : k = i
    · subst hki
      refine List.mem_iff_getElem.mpr ⟨j, by rw [hl]; exact hj, ?_⟩
      simp
    · by_cases hkj : k = j
      · subst hkj
        refine List.mem_iff_getElem.mpr ⟨i, by rw [hl]; exact hi, ?_⟩
        rw [List.getElem_set, if_neg hki]
        simp
      · refine List.mem_iff_getElem.mpr ⟨k, by rw [hl]; exact hk, ?_⟩
        rw [List.getElem_set, if_neg (Ne.symm hkj), List.getElem_set, if_neg (Ne.symm hki)]

/-- The shuffle loop keeps the length and the characters of the slice. -/
theorem shuffle_mem (f : Nat → Nat) (hf : ∀ i, f i ≤ i) (l : List Nat) :
    ∀ p : List Char, (∀ i ∈ l, i < p.length) →
      (l.foldl (fun password i => swapAt password i (f i)) p).length = p.length ∧
      ∀ x, x ∈ l.foldl (fun password i => swapAt password i (f i)) p ↔ x ∈ p := by
  induction l with
  | nil => intro p _; exact ⟨rfl, fun _ => Iff.rfl⟩
  | cons i rest ih =>
    intro p hp
    rw [List.foldl_cons]
    have hi : i < p.length := hp i (List.mem_cons_self _ _)
    have hj : f i < p.length := lt_of_le_of_lt (hf i) hi
    obtain ⟨h1, h2⟩ := ih (swapAt p i (f i)) (by
      intro k hk
      rw [swapAt_length]
      exact hp k (List.mem_cons_of_mem _ hk))
    refine ⟨by rw [h1, swapAt_length], fun x => ?_⟩
    rw [h2, swapAt_mem p i (f i) hi hj]

theorem Intn_lt (r : Nat → Nat) (k n : Nat) (h : 0 < n) : Intn r k n < n :=
  Nat.mod_lt _ h

theorem passwordDraft_length (r : Nat → Nat) (n : Nat) (h : 4 ≤ n) :
    (passwordDraft r n).length = n := by
  simp only [passwordDraft, List.length_append, List.length_cons, List.length_nil,
    List.length_map, List.length_range]
  omega

theorem passwordDraft_mem (r : Nat → Nat) (n : Nat) :
    (∃ c ∈ passwordDraft r n, c ∈ lowercase) ∧
    (∃ c ∈ passwordDraft r n, c ∈ uppercase) ∧
    (∃ c ∈ passwordDraft r n, c ∈ numbers) ∧
    (∃ c ∈ passwordDraft r n, c ∈ symbols) ∧
    ∀ c ∈ passwordDraft r n, c ∈ lowercase ∨ c ∈ uppercase ∨ c ∈ numbers ∨ c ∈ symbols := by
  have hl : lowercase.getD (Intn r 0 lowercase.length) 'a' ∈ lowercase :=
    getD_mem_of_lt (Intn_lt r 0 _ (by decide)) _
  have hu : uppercase.getD (Intn r 1 uppercase.length) 'a' ∈ uppercase :=
    getD_mem_of_lt (Intn_lt r 1 _ (by decide)) _
  have hn : numbers.getD (Intn r 2 numbers.length) 'a' ∈ numbers :=
    getD_mem_of_lt (Intn_lt r 2 _ (by decide)) _
  have hs : symbols.getD (Intn r 3 symbols.length) 'a' ∈ symbols :=
    getD_mem_of_lt (Intn_lt r 3 _ (by decide)) _
  refine ⟨⟨_, ?_, hl⟩, ⟨_, ?_, hu⟩, ⟨_, ?_, hn⟩, ⟨_, ?_, hs⟩, ?_⟩
  · simp [passwordDraft]
  · simp [passwordDraft]
  · simp [passwordDraft]
  · simp [passwordDraft]
  · intro c hc
    simp only [passwordDraft, List.mem_append, List.mem_cons, List.mem_map, List.mem_range,
      List.mem_singleton, List.not_mem_nil, or_false] at hc
    rcases hc with (rfl | rfl | rfl | rfl) | ⟨i, _, rfl⟩
    · exact Or.inl hl
    · exact Or.inr (Or.inl hu)
    · exact Or.inr (Or.inr (Or.inl hn))
    · exact Or.inr (Or.inr (Or.inr hs))
    · have h : allChars.getD (Intn r (4 + i) allChars.length) 'a' ∈ allChars :=
        getD_mem_of_lt (Intn_lt r _ _ (by decide)) _
      simp only [allChars, List.mem_append] at h
      tauto

/-- C28: for every requested length and every random source,
`GenerateStrongPassword` returns a string of `max(length, 8)` characters that
has a lowercase letter, an uppercase letter, a digit and a symbol of its symbol
set, and no character outside these four sets. -/
theorem GenerateStrongPassword_strong (r : Nat → Nat) (length : Int) :
    ((GenerateStrongPassword r length).length : Int) = max length 8 ∧
    (∃ c ∈ (GenerateStrongPassword r length).toList, c ∈ lowercase) ∧
    (∃ c ∈ (GenerateStrongPassword r length).toList, c ∈ uppercase) ∧
    (∃ c ∈ (GenerateStrongPassword r length).toList, c ∈ numbers) ∧
    (∃ c ∈ (GenerateStrongPassword r length).toList, c ∈ symbols) ∧
    ∀ c ∈ (GenerateStrongPassword r length).toList,
      c ∈ lowercase ∨ c ∈ uppercase ∨ c ∈ numbers ∨ c ∈ symbols := by
  have hn : 8 ≤ (if length < 8 then 8 else length).toNat := by
    split_ifs with h
    · simp
    · omega
  have hlen := passwordDraft_length r _ (le_trans (by decide) hn)
  obtain ⟨h1, h2⟩ := shuffle_mem
    (fun i => Intn r ((if length < 8 then 8 else length).toNat + i) (i + 1))
    (fun i => Nat.lt_succ_iff.mp (Intn_lt r _ _ (Nat.succ_pos i)))
    (List.range (if length < 8 then 8 else length).toNat)
    (passwordDraft r (if length < 8 then 8 else length).toNat)
    (by
      intro i hi
      rw [hlen]
      exact List.mem_range.mp hi)
  obtain ⟨a, b, c, d, e⟩ := passwordDraft_mem r (if length < 8 then 8 else length).toNat
  simp only [GenerateStrongPassword, String.length, String.toList]
  refine ⟨?_, ?_, ?_, ?_, ?_, ?_⟩
  · rw [h1, hlen]
    split_ifs with h
    · omega
    · omega
  · obtain ⟨x, hx, hx'⟩ := a
    exact ⟨x, (h2 x).mpr hx, hx'⟩
  · obtain ⟨x, hx, hx'⟩ := b
    exact ⟨x, (h2 x).mpr hx, hx'⟩
  · obtain ⟨x, hx, hx'⟩ := c
    exact ⟨x, (h2 x).mpr hx, hx'⟩
  · obtain ⟨x, hx, hx'⟩ := d
    exact ⟨x, (h2 x).mpr hx, hx'⟩
  · intro x hx
    exact e x ((h2 x).mp hx)

/-! ### Fan-out of PTY output (C24) -/

theorem base64Value_Digit : ∀ k : Fin 64, base64Value (base64Digit k.val) = k.val := by
  decide

theorem base64Digit_ne_pad : ∀ k : Fin 64, base64Digit k.val ≠ '=' := by
  decide

theorem base64Value_pad : base64Value '=' = 0 := by decide

theorem base64Value_of_lt {n : Nat} (h : n < 64) : base64Value (base64Digit n) = n :=
  base64Value_Digit ⟨n, h⟩

theorem base64Digit_ne_of_lt {n : Nat} (h : n < 64) : base64Digit n ≠ '=' :=
  base64Digit_ne_pad ⟨n, h⟩

theorem byteOf_eq (a : Byte) (n : Nat) (h : n % 256 = a.val) : byteOf n = a :=
  Fin.ext h

/-- Decoding undoes `base64.StdEncoding.EncodeToString`. -/
theorem base64Decode_Encode (l : List Byte) : base64Decode (base64Encode l) = l := by
  induction l using base64Encode.induct with
  | case1 a b c rest ih =>
    have ha := a.isLt
    have hb := b.isLt
    have hc := c.isLt
    simp only [base64Encode, base64Decode]
    have h0 : (a.val * 65536 + b.val * 256 + c.val) / 262144 < 64 := by omega
    have h1 : (a.val * 65536 + b.val * 256 + c.val) / 4096 % 64 < 64 := by omega
    have h2 : (a.val * 65536 + b.val * 256 + c.val) / 64 % 64 < 64 := by omega
    have h3 : (a.val * 65536 + b.val * 256 + c.val) % 64 < 64 := by omega
    rw [if_neg (base64Digit_ne_of_lt h2), if_neg (base64Digit_ne_of_lt h3),
      base64Value_of_lt h0, base64Value_of_lt h1, base64Value_of_lt h2, base64Value_of_lt h3,
      ih]
    congr 1
    · exact byteOf_eq a _ (by omega)
    · congr 1
      · exact byteOf_eq b _ (by omega)
      · congr 1
        exact byteOf_eq c _ (by omega)
  | case2 a b =>
    have ha := a.isLt
    have hb := b.isLt
    simp only [base64Encode, base64Decode]
    have h0 : (a.val * 65536 + b.val * 256) / 262144 < 64 := by omega
    have h1 : (a.val * 65536 + b.val * 256) / 4096 % 64 < 64 := by omega
    have h2 : (a.val * 65536 + b.val * 256) / 64 % 64 < 64 := by omega
    rw [if_neg (base64Digit_ne_of_lt h2), if_pos trivial,
      base64Value_of_lt h0, base64Value_of_lt h1, base64Value_of_lt h2, base64Value_pad]
    congr 1
    · exact byteOf_eq a _ (by omega)
    · congr 1
      exact byteOf_eq b _ (by omega)
  | case3 a =>
    have ha := a.isLt
    simp only [base64Encode, base64Decode]
    have h0 : (a.val * 65536) / 262144 < 64 := by omega
    have h1 : (a.val * 65536) / 4096 % 64 < 64 := by omega
    rw [if_pos trivial, base64Value_of_lt h0, base64Value_of_lt h1, base64Value_pad]
    congr 1
    exact byteOf_eq a _ (by omega)
  | case4 => rfl

/-- Writing a frame to every client, when no connection is listed twice. -/
theorem sendAll_eq (f : Frame) (cl : List (String × Nat)) :
    ∀ w : World, (cl.map Prod.snd).Nodup →
      cl.foldl (fun acc e => acc.send e.2 f) w =
        { w with connSent := fun k =>
            if k ∈ cl.map Prod.snd then w.connSent k ++ [f] else w.connSent k } := by
  induction cl with
  | nil => intro w _; simp
  | cons e rest ih =>
    intro w hnd
    rw [List.map_cons, List.nodup_cons] at hnd
    rw [List.foldl_cons, ih _ hnd.2]
    simp only [World.send, List.map_cons, List.mem_cons]
    congr 1
    funext k
    by_cases hk : k = e.2
    · subst hk
      simp [hnd.1]
    · by_cases hr : k ∈ rest.map Prod.snd
      · simp [hk, hr, Function.update_noteq hk]
      · simp [hk, hr, Function.update_noteq hk]

/-- One iteration of the PTY pump in closed form. -/
theorem ptyOutput_eq (w : World) (s : Nat) (id : String) (chunk : List Byte)
    (hnd : ((w.heap s).Clients.map Prod.snd).Nodup) :
    ptyOutput w s id chunk =
      { w with
        heap := Function.update w.heap s
          { w.heap s with Buffer := (w.heap s).Buffer.Append chunk },
        connSent := fun k =>
          if k ∈ (w.heap s).Clients.map Prod.snd then
            w.connSent k ++ [Frame.text (outputMessage id chunk)]
          else w.connSent k } := by
  unfold ptyOutput
  simp only [World.setSession, Function.update_same]
  rw [sendAll_eq _ _ _ hnd]
  rfl

/-- The PTY pump over a sequence of reads in closed form. -/
theorem ptyPump_eq (s : Nat) (id : String) (chunks : List (List Byte)) :
    ∀ w : World, ((w.heap s).Clients.map Prod.snd).Nodup →
      ptyPump w s id chunks =
        { w with
          heap := Function.update w.heap s
            { w.heap s with Buffer := appendAll (w.heap s).Buffer chunks },
          connSent := fun k =>
            if k ∈ (w.heap s).Clients.map Prod.snd then
              w.connSent k ++ chunks.map (fun chunk => Frame.text (outputMessage id chunk))
            else w.connSent k } := by
  induction chunks with
  | nil =>
    intro w _
    simp [ptyPump, appendAll]
  | cons c rest ih =>
    intro w hnd
    have hstep : ptyPump w s id (c :: rest) = ptyPump (ptyOutput w s id c) s id rest := rfl
    have hcl : ((ptyOutput w s id c).heap s).Clients = (w.heap s).Clients := by
      rw [ptyOutput_eq w s id c hnd]
      simp
    rw [hstep, ih _ (by rw [hcl]; exact hnd), hcl]
    rw [ptyOutput_eq w s id c hnd]
    simp only [Function.update_same, Function.update_idem, appendAll, List.foldl_cons,
      List.map_cons]
    congr 1
    funext k
    by_cases hk : k ∈ (w.heap s).Clients.map Prod.snd
    · simp [hk]
    · simp [hk]

/-- C24: fan-out in read order. For non-empty chunks read from the PTY one
after the other, with the client set fixed and no connection in it twice, the
pump appends the chunks to the scroll-back in read order and writes to every
attached client one `output` message per chunk, in the same order, after what
was written to it before; the client set is as before, and a connection that
is not in it is written nothing. Decoding the base64 `data` of each message
gives the chunk, so the decoded messages concatenate to the bytes appended. -/
theorem fanout_in_read_order (w : World) (s : Nat) (id : String) (chunks : List (List Byte))
    (hne : ∀ c ∈ chunks, c ≠ [])
    (hnd : ((w.heap s).Clients.map Prod.snd).Nodup) :
    ((ptyPump w s id chunks).heap s).Buffer = appendAll (w.heap s).Buffer chunks ∧
    ((ptyPump w s id chunks).heap s).Clients = (w.heap s).Clients ∧
    (∀ e ∈ (w.heap s).Clients,
      (ptyPump w s id chunks).connSent e.2 =
        w.connSent e.2 ++ chunks.map (fun chunk => Frame.text (outputMessage id chunk))) ∧
    (∀ k, k ∉ (w.heap s).Clients.map Prod.snd →
      (ptyPump w s id chunks).connSent k = w.connSent k) ∧
    (∀ chunk ∈ chunks,
      (outputMessage id chunk).MsgType = "output" ∧
      (outputMessage id chunk).TerminalID = id ∧
      base64Decode (outputMessage id chunk).Data.toList = chunk ∧ chunk ≠ []) ∧
    (chunks.map (fun chunk => base64Decode (outputMessage id chunk).Data.toList)).flatten =
      chunks.flatten := by
  rw [ptyPump_eq s id chunks w hnd]
  have hdec : ∀ chunk, base64Decode (outputMessage id chunk).Data.toList = chunk :=
    fun chunk => base64Decode_Encode chunk
  refine ⟨?_, ?_, ?_, ?_, ?_, ?_⟩
  · simp
  · simp
  · intro e he
    have hmem : e.2 ∈ (w.heap s).Clients.map Prod.snd := List.mem_map.mpr ⟨e, he, rfl⟩
    simp only [hmem, if_true]
  · intro k hk
    simp only [hk, if_false]
  · intro chunk hc
    exact ⟨rfl, rfl, hdec chunk, hne chunk hc⟩
  · congr 1
    rw [List.map_congr_left (fun chunk _ => hdec chunk)]
    simp

theorem fanout_in_read_order_witness :
    (ptyPump liveWorld 0 "s3" [[108], [115, 10]]).connSent 0 =
      liveWorld.connSent 0 ++
        [Frame.text (outputMessage "s3" [108]), Frame.text (outputMessage "s3" [115, 10])] ∧
    ((ptyPump liveWorld 0 "s3" [[108], [115, 10]]).heap 0).Buffer.Data = [120, 108, 115, 10] :=
  ⟨(fanout_in_read_order liveWorld 0 "s3" [[108], [115, 10]] (by decide) (by decide)).2.2.1
      ("c1", 0) (by decide),
   by
    rw [(fanout_in_read_order liveWorld 0 "s3" [[108], [115, 10]] (by decide) (by decide)).1]
    decide⟩

/-! ### The single close of Done (C29) -/

/-- A step that registers nothing new and closes no `Done`. -/
theorem DoneInv.mono {w w' : World} (h : DoneInv w)
    (hG : ∀ a b t, GetTerminalSession w' a b = some t → GetTerminalSession w a b = some t)
    (hD : ∀ t, (w'.heap t).Done = (w.heap t).Done) : DoneInv w' where
  reg := by
    intro a b t hg
    rw [hD]
    exact h.reg a b t (hG a b t hg)
  once := by
    intro t
    rw [hD]
    exact h.once t

/-- A step that closes `Done` of the session registered under a key and
deletes that entry. -/
theorem DoneInv.remove_step {w w' : World} (h : DoneInv w) {u id : String} {s : Nat}
    (hinj : ∀ a b, GetTerminalSession w a b = some s → a = u ∧ b = id)
    (hg : GetTerminalSession w u id = some s)
    (hG : ∀ a b, GetTerminalSession w' a b =
      if u = a ∧ id = b then none else GetTerminalSession w a b)
    (hD : ∀ t, (w'.heap t).Done = (w.heap t).Done + if t = s then 1 else 0) :
    DoneInv w' where
  reg := by
    intro a b t hg'
    rw [hG] at hg'
    split_ifs at hg' with hk
    have hts : t ≠ s := by
      intro hts
      subst hts
      obtain ⟨h1, h2⟩ := hinj a b hg'
      exact hk ⟨h1.symm, h2.symm⟩
    rw [hD, if_neg hts, h.reg a b t hg']
  once := by
    intro t
    rw [hD]
    by_cases hts : t = s
    · subst hts
      rw [if_pos rfl, h.reg u id t hg]
    · rw [if_neg hts]
      exact h.once t

/-- A step that registers a session whose `Done` is open. -/
theorem DoneInv.alloc_step {w w' : World} (h : DoneInv w) (n : Nat)
    (hG : ∀ a b t, GetTerminalSession w' a b = some t →
      t = n ∨ GetTerminalSession w a b = some t)
    (hD : ∀ t, (w'.heap t).Done = if t = n then 0 else (w.heap t).Done) : DoneInv w' where
  reg := by
    intro a b t hg
    rw [hD]
    split_ifs with ht
    · rfl
    · rcases hG a b t hg with h1 | h1
      · exact absurd h1 ht
      · exact h.reg a b t h1
  once := by
    intro t
    rw [hD]
    split_ifs
    · exact Nat.zero_le _
    · exact h.once t

theorem Inv.registry_injective {w : World} (h : Inv none w) {u id : String} {s : Nat}
    (hg : GetTerminalSession w u id = some s) :
    ∀ a b, GetTerminalSession w a b = some s → a = u ∧ b = id := by
  intro a b hab
  have h1 := (h.key a b s hab).1
  have h2 := (h.key u id s hg).1
  rw [h1] at h2
  exact ⟨(Prod.mk.inj h2).1, (Prod.mk.inj h2).2⟩

/-- Registry and `Done` counts after the teardown of a session and the deletion
of an entry. -/
theorem teardown_fields (w : World) (u id : String) (s : Nat) :
    (∀ a b, GetTerminalSession (deleteEntry (closeSession w s) u id) a b =
      if u = a ∧ id = b then none else GetTerminalSession w a b) ∧
    (∀ t, ((deleteEntry (closeSession w s) u id).heap t).Done =
      (w.heap t).Done + if t = s then 1 else 0) := by
  constructor
  · intro a b
    rw [Get_deleteEntry]
    split_ifs
    · rfl
    · simp [GetTerminalSession, closeSession_eq]
  · intro t
    rw [deleteEntry_heap, closeSession_eq]
    by_cases ht : t = s
    · subst ht; simp
    · simp [ht, Function.update_noteq ht]

theorem DoneInv.remove_done {w : World} (h : DoneInv w) (hinv : Inv none w) {u id : String}
    {s : Nat} (hg : GetTerminalSession w u id = some s) :
    DoneInv (deleteEntry (closeSession w s) u id) :=
  h.remove_step (hinv.registry_injective hg) hg (teardown_fields w u id s).1
    (teardown_fields w u id s).2

theorem DoneInv.db_done {w : World} (h : DoneInv w) (db : List Row) :
    DoneInv { w with db := db } :=
  h.mono (fun _ _ _ hg => hg) (fun _ => rfl)

theorem sendAll_frame (f : Frame) (cl : List (String × Nat)) :
    ∀ w : World,
      (cl.foldl (fun acc e => acc.send e.2 f) w).TerminalSessions = w.TerminalSessions ∧
      (cl.foldl (fun acc e => acc.send e.2 f) w).heap = w.heap := by
  induction cl with
  | nil => intro w; exact ⟨rfl, rfl⟩
  | cons e rest ih =>
    intro w
    rw [List.foldl_cons]
    obtain ⟨h1, h2⟩ := ih (w.send e.2 f)
    exact ⟨h1, h2⟩

theorem DoneInv.ptyOutput_done {w : World} (h : DoneInv w) (s : Nat) (id : String)
    (chunk : List Byte) : DoneInv (ptyOutput w s id chunk) := by
  unfold ptyOutput
  obtain ⟨h1, h2⟩ := sendAll_frame
    (Frame.text { MsgType := "output", TerminalID := id, Data := String.mk (base64Encode chunk) })
    ((w.setSession s { w.heap s with Buffer := (w.heap s).Buffer.Append chunk }).heap s).Clients
    (w.setSession s { w.heap s with Buffer := (w.heap s).Buffer.Append chunk })
  refine h.mono (fun a b t hg => ?_) (fun t => ?_)
  · simp only [GetTerminalSession] at hg ⊢
    rw [h1] at hg
    exact hg
  · simp only
    rw [h2]
    by_cases ht : t = s
    · subst ht; simp [World.setSession]
    · simp [World.setSession, Function.update_noteq ht]

theorem attachSpawn_Done (w : World) (env : AttachEnv) (conn : Nat)
    (clientIP terminalID username : String) (s t : Nat) :
    ((attachSpawn w env conn clientIP terminalID username s).heap t).Done =
      (w.heap t).Done := by
  unfold attachSpawn
  by_cases ht : t = s
  · subst ht
    cases hsp : env.spawnError <;>
      by_cases hlen : (w.heap t).Buffer.Data.length > 0 <;>
      simp [addClient, touch, World.setSession, World.send, hlen]
  · cases hsp : env.spawnError <;>
      by_cases hlen : (w.heap s).Buffer.Data.length > 0 <;>
      simp [addClient, touch, World.setSession, World.send, hlen, Function.update_noteq ht]

theorem restoreOrCreate_Done (w : World) (env : AttachEnv) (id u : String) (t : Nat) :
    ((restoreOrCreate w env id u).1.heap t).Done =
      if t = w.nextSession then 0 else (w.heap t).Done := by
  simp only [restoreOrCreate, SaveTerminalSession]
  by_cases ht : t = w.nextSession
  · subst ht
    simp [newSession]
  · simp [ht, Function.update_noteq ht]

theorem DoneInv.HandleUnixTerminal_done {w : World} (h : DoneInv w) (env : AttachEnv)
    (conn : Nat) (clientIP id u : String) :
    DoneInv (HandleUnixTerminal w env conn clientIP id u) := by
  cases hg : GetTerminalSession w u id with
  | none =>
    rw [HandleUnixTerminal_new w env conn clientIP id u hg]
    refine h.alloc_step w.nextSession (fun a b t hg' => ?_) (fun t => ?_)
    · rw [Get_attachSpawn, Get_restoreOrCreate] at hg'
      split_ifs at hg' with hk
      · exact Or.inl (Option.some.inj hg').symm
      · exact Or.inr hg'
    · rw [attachSpawn_Done, restoreOrCreate_Done]
  | some s =>
    unfold HandleUnixTerminal
    rw [hg]
    simp only
    split_ifs
    · obtain ⟨h1, _, _, _, h5, h6⟩ := attachExisting_fields w env conn clientIP id u s
      refine h.mono (fun a b t hg' => by rw [h1] at hg'; exact hg') (fun t => ?_)
      by_cases ht : t = s
      · subst ht; rw [h6]
      · rw [h5 t ht]
    · exact h.mono (fun a b t hg' => by rw [Get_attachSpawn] at hg'; exact hg')
        (fun t => attachSpawn_Done w env conn clientIP id u s t)

theorem DoneInv.clientReadError_done {w : World} (h : DoneInv w) (now : Int)
    (saveFails : Bool) (p : ClientPump) : DoneInv (clientReadError w now saveFails p) := by
  obtain ⟨_, _, _, h4, h5, h6, _⟩ := clientReadError_spec w now saveFails p
  refine h.mono (fun a b t hg => by rw [h6] at hg; exact hg) (fun t => ?_)
  by_cases ht : t = p.session
  · subst ht; rw [h4]
  · rw [h5 t ht]

theorem DoneInv.clientClose_done {w : World} (h : DoneInv w) (hinv : Inv none w)
    (env : CloseEnv) (p : ClientPump) : DoneInv (clientClose w env p) := by
  by_cases hl : mdel (w.heap p.session).Clients p.clientIP = []
  · obtain ⟨_, _, _, hG, hD, _⟩ := clientClose_last_state w env p hl
    cases hg : GetTerminalSession w p.username p.terminalID with
    | none =>
      refine h.mono (fun a b t hg' => ?_) (fun t => ?_)
      · rw [hG] at hg'
        split_ifs at hg'
        exact hg'
      · rw [hD, hg]
        simp
    | some s =>
      refine h.remove_step (hinv.registry_injective hg) hg hG (fun t => ?_)
      rw [hD, hg]
      by_cases ht : t = s
      · subst ht; simp
      · have : ¬ s = t := fun e => ht e.symm
        simp [ht, this]
  · rw [clientClose_others w env p hl]
    refine h.mono (fun a b t hg => hg) (fun t => ?_)
    by_cases ht : t = p.session
    · subst ht; simp [World.setSession]
    · simp [World.setSession, Function.update_noteq ht]

theorem DoneInv.KillTerminalSession_done {w : World} (h : DoneInv w) (hinv : Inv none w)
    (env : KillEnv) (u id : String) : DoneInv (KillTerminalSession w env u id).1 := by
  rcases Kill_cases w env u id with ⟨_, e, he⟩ | ⟨s, _, he⟩ |
    ⟨s, w0, hg, he, hT, _, _, ho, _, hd, _⟩
  · rw [he]; exact h
  · rw [he]; exact h
  · rw [he]
    obtain ⟨hG, _, hO, hD⟩ := killTeardown_fields w0 env u id s
    have hG0 : ∀ a b, GetTerminalSession w0 a b = GetTerminalSession w a b := by
      intro a b
      simp only [GetTerminalSession, hT]
    refine h.remove_step (hinv.registry_injective hg) hg (fun a b => ?_) (fun t => ?_)
    · rw [hG, hG0]
    · by_cases ht : t = s
      · subst ht
        rw [hD, hd, if_pos rfl]
      · rw [hO t ht, ho t ht, if_neg ht]
        rfl

theorem DoneInv.cleanSessions_done (env : CleanEnv) (u : String) (l : List (String × Nat)) :
    ∀ w : World, Inv none w → DoneInv w → DoneInv (cleanSessions env u w l) := by
  induction l with
  | nil => intro w _ h; exact h
  | cons e rest ih =>
    intro w hinv h
    obtain ⟨id, s⟩ := e
    unfold cleanSessions
    simp only
    split_ifs with hc
    · exact ih _ (((hinv.db_inv _).db_inv _).remove hc.1)
        (((h.db_done _).db_done _).remove_done ((hinv.db_inv _).db_inv _) hc.1)
    · exact ih _ hinv h

theorem DoneInv.cleanUsers_done (env : CleanEnv) (l : List (String × List (String × Nat))) :
    ∀ w : World, Inv none w → DoneInv w →
      Inv none (cleanUsers env w l) ∧ DoneInv (cleanUsers env w l) := by
  induction l with
  | nil => intro w hinv h; exact ⟨hinv, h⟩
  | cons e rest ih =>
    intro w hinv h
    obtain ⟨u, ss⟩ := e
    rw [cleanUsers_cons]
    cases h1 : mget w.TerminalSessions u with
    | none => exact ih w hinv h
    | some sessions =>
      simp only
      have hi2 := Inv.cleanSessions_inv env u sessions w hinv
      have hd2 := DoneInv.cleanSessions_done env u sessions w hinv h
      have hstep := Inv.cleanUsers_inv env [(u, ss)] w hinv
      rw [cleanUsers_cons, h1] at hstep
      simp only [cleanUsers] at hstep
      refine ih _ hstep ?_
      split_ifs with hlen
      · exact hd2.mono (fun a b t hg => by rw [Get_dropEmpty _ u hlen] at hg; exact hg)
          (fun _ => rfl)
      · exact hd2

theorem DoneInv.CleanInactiveSessions_done {w : World} (h : DoneInv w) (hinv : Inv none w)
    (env : CleanEnv) : DoneInv (CleanInactiveSessions w env) := by
  unfold CleanInactiveSessions
  exact (DoneInv.cleanUsers_done env _ w hinv h).2.db_done _

theorem DoneInv.RemoveTerminalSession_done {w : World} (h : DoneInv w) (hinv : Inv none w)
    (u id : String) : DoneInv (RemoveTerminalSession w u id) := by
  rw [RemoveTerminalSession_eq]
  cases hg : GetTerminalSession w u id with
  | none =>
    refine h.mono (fun a b t hg' => ?_) (fun t => by rw [deleteEntry_heap])
    rw [Get_deleteEntry] at hg'
    split_ifs at hg'
    exact hg'
  | some s => exact h.remove_done hinv hg

theorem DoneInv.init_done (db : List Row) : DoneInv (World.init db) where
  reg := by intro u id s hg; simp [World.init, GetTerminalSession, mget] at hg
  once := by intro s; simp [World.init, newSession]

theorem Reachable.done_inv {w : World} (h : Reachable w) : DoneInv w := by
  induction h with
  | init db => exact DoneInv.init_done db
  | attach w env conn clientIP terminalID username _ _ ih =>
    exact ih.HandleUnixTerminal_done env conn clientIP terminalID username
  | output w s chunk _ _ ih => exact ih.ptyOutput_done s _ chunk
  | ptyEnd w s _ _ ih => exact ih.mono (fun _ _ _ hg => hg) (fun _ => rfl)
  | detach w now saveFails p _ _ ih => exact ih.clientReadError_done now saveFails p
  | close w env p hr _ ih => exact ih.clientClose_done hr.inv env p
  | clean w env hr ih => exact ih.CleanInactiveSessions_done hr.inv env
  | kill w env username terminalID hr ih =>
    exact ih.KillTerminalSession_done hr.inv env username terminalID
  | remove w username terminalID hr ih =>
    exact ih.RemoveTerminalSession_done hr.inv username terminalID

/-- C29: `Done` is closed at most once. In every state reached by a sequence
of attaches (which register freshly created sessions with
`SaveTerminalSession`), PTY output, detaches, `close` handling,
`RemoveTerminalSession`, `KillTerminalSession` and `CleanInactiveSessions`, no
session has had `close(session.Done)` executed more than once, and none that
is in the registry has had it executed at all. `RemoveTerminalSession` and
`KillTerminalSession` close `Done` only of the session found under the key, and
the entry of the key is gone in the state they return. -/
theorem Done_closed_at_most_once (w : World) (h : Reachable w) :
    (∀ s, (w.heap s).Done ≤ 1) ∧
    (∀ u id s, GetTerminalSession w u id = some s → (w.heap s).Done = 0) ∧
    (∀ u id t, ((RemoveTerminalSession w u id).heap t).Done =
      (w.heap t).Done + if GetTerminalSession w u id = some t then 1 else 0) ∧
    (∀ u id, GetTerminalSession (RemoveTerminalSession w u id) u id = none) ∧
    (∀ env u id t, GetTerminalSession w u id ≠ some t →
      ((KillTerminalSession w env u id).1.heap t).Done = (w.heap t).Done) ∧
    (∀ env u id, (KillTerminalSession w env u id).2 = none →
      GetTerminalSession (KillTerminalSession w env u id).1 u id = none) := by
  have hd := h.done_inv
  refine ⟨hd.once, hd.reg, ?_, ?_, ?_, ?_⟩
  · intro u id t
    rw [RemoveTerminalSession_heap]
    split_ifs <;> simp
  · intro u id
    rw [Get_RemoveTerminalSession]
    simp
  · intro env u id t ht
    rcases Kill_cases w env u id with ⟨_, e, he⟩ | ⟨s, _, he⟩ | ⟨s, w0, hg, he, _, _, _, ho, _⟩
    · rw [he]
    · rw [he]
    · have hts : t ≠ s := fun e => ht (e ▸ hg)
      rw [he, (killTeardown_fields w0 env u id s).2.2.1 t hts, ho t hts]
  · intro env u id hnil
    rcases Kill_cases w env u id with ⟨_, e, he⟩ | ⟨s, _, he⟩ | ⟨s, w0, hg, he, _⟩
    · rw [he] at hnil; cases hnil
    · rw [he] at hnil; cases hnil
    · rw [he, (killTeardown_fields w0 env u id s).1]
      simp

theorem Done_closed_at_most_once_witness :
    ((KillTerminalSession liveWorld KillEnv.ok "u" "s3").1.heap 0).Done = 1 ∧
    ∀ s, ((RemoveTerminalSession (KillTerminalSession liveWorld KillEnv.ok "u" "s3").1
      "u" "s3").heap s).Done ≤ 1 :=
  ⟨by decide,
   (Done_closed_at_most_once _
    (Reachable.remove _ "u" "s3"
      (Reachable.kill liveWorld KillEnv.ok "u" "s3" liveWorld_reachable))).1⟩

end GhostEye
